import Mathlib

/-!
# magic-wormhole-web: validation layer and request handlers

A shallow embedding of `main.go`.  A Go `string` is an immutable sequence of
bytes; it is kept here as a list of natural numbers, every byte of a real
string being below 256.  A `rune` is a signed integer.  The `path/filepath`
functions are those of a Unix target, where the separator is the single
byte `/`.  The decoding of a request body follows `encoding/json`: the
scanner of `scanner.go` state by state, `Decoder.readValue` of `stream.go`
and, from `decode.go`, `unquoteBytes` and the storing of an object into a
struct.
-/

set_option maxRecDepth 100000

namespace WormholeWeb

/-! ## Go strings and runes -/

/-- A Go string: its bytes, in order. -/
abbrev GoString := List Nat

/-- A Go rune (`int32`). -/
abbrev Rune := Int

/-- Code of the path separator `/`. -/
def slash : Nat := 47

/-- Code of the full stop `.`. -/
def dot : Nat := 46

/-- The constant `utf8.RuneError`, U+FFFD. -/
def RuneError : Rune := 65533

/-- The table `first` of package `unicode/utf8` joined with `acceptRanges`:
for a leading byte that opens a multi-byte sequence, the size of the
sequence and the accepted range of the second byte; `none` for a byte that
cannot lead one. -/
def firstInfo (s0 : Nat) : Option (Nat × Nat × Nat) :=
  if 194 ≤ s0 ∧ s0 ≤ 223 then some (2, 128, 191)
  else if s0 = 224 then some (3, 160, 191)
  else if 225 ≤ s0 ∧ s0 ≤ 236 then some (3, 128, 191)
  else if s0 = 237 then some (3, 128, 159)
  else if 238 ≤ s0 ∧ s0 ≤ 239 then some (3, 128, 191)
  else if s0 = 240 then some (4, 144, 191)
  else if 241 ≤ s0 ∧ s0 ≤ 243 then some (4, 128, 191)
  else if s0 = 244 then some (4, 128, 143)
  else none

/-- A continuation byte lies in `locb..hicb`. -/
def isCont (b : Nat) : Bool := decide (128 ≤ b ∧ b ≤ 191)

/-- The function `utf8.DecodeRuneInString`: the first rune of `s` and its
width in bytes.  An invalid or truncated encoding gives `(RuneError, 1)`,
the empty string `(RuneError, 0)`.  The masks and shifts of the source are
written as remainders and products. -/
def decodeRune : GoString → Rune × Nat
  | [] => (RuneError, 0)
  | s0 :: rest =>
    if s0 < 128 then ((s0 : Int), 1)
    else
      match firstInfo s0 with
      | none => (RuneError, 1)
      | some (sz, lo, hi) =>
        if rest.length + 1 < sz then (RuneError, 1)
        else
          match rest with
          | [] => (RuneError, 1)
          | s1 :: rest1 =>
            if s1 < lo ∨ hi < s1 then (RuneError, 1)
            else if sz ≤ 2 then (((s0 % 32 * 64 + s1 % 64 : Nat) : Int), 2)
            else
              match rest1 with
              | [] => (RuneError, 1)
              | s2 :: rest2 =>
                if !isCont s2 then (RuneError, 1)
                else if sz ≤ 3 then
                  (((s0 % 16 * 4096 + s1 % 64 * 64 + s2 % 64 : Nat) : Int), 3)
                else
                  match rest2 with
                  | [] => (RuneError, 1)
                  | s3 :: _ =>
                    if !isCont s3 then (RuneError, 1)
                    else
                      (((s0 % 8 * 262144 + s1 % 64 * 4096 + s2 % 64 * 64 + s3 % 64 : Nat) : Int), 4)

/-- The function `utf8.AppendRune` on an empty buffer (what
`strings.Builder.WriteRune` appends): the UTF-8 encoding of `r`; a rune out
of range or a surrogate is written as `RuneError`. -/
def encodeRune (r : Rune) : GoString :=
  if r < 0 then [239, 191, 189]
  else
    let i := r.toNat
    if i ≤ 127 then [i]
    else if i ≤ 2047 then [192 + i / 64, 128 + i % 64]
    else if i > 1114111 ∨ (55296 ≤ i ∧ i ≤ 57343) then [239, 191, 189]
    else if i ≤ 65535 then [224 + i / 4096, 128 + i / 64 % 64, 128 + i % 64]
    else [240 + i / 262144, 128 + i / 4096 % 64, 128 + i / 64 % 64, 128 + i % 64]

/-- The rune loop of `strings.Map`: every rune `c` met by `range s` is
replaced by `mapping c`, written with `WriteRune`, or dropped when the
mapping is negative.  A byte that opens no valid encoding is met as
`RuneError` of width 1, so an identity mapping writes it back as the three
bytes of U+FFFD.  Each round consumes at least one byte, so `fuel` rounds
with `fuel = len(s)` reach the end of the string. -/
def mapRunes (mapping : Rune → Rune) : Nat → GoString → GoString
  | 0, _ => []
  | _ + 1, [] => []
  | fuel + 1, s0 :: rest =>
    let cw := decodeRune (s0 :: rest)
    let r := mapping cw.1
    (if 0 ≤ r then encodeRune r else []) ++ mapRunes mapping fuel (rest.drop (cw.2 - 1))

/-- The function `strings.Map`. -/
def stringsMap (mapping : Rune → Rune) (s : GoString) : GoString :=
  mapRunes mapping s.length s

/-- The function `strings.HasPrefix`. -/
def hasPrefix (s pre : GoString) : Bool := decide (s.take pre.length = pre)

/-- The function `strings.HasSuffix`. -/
def hasSuffix (s suf : GoString) : Bool :=
  decide (s.drop (s.length - suf.length) = suf)

/-- The bytes of a Lean string literal, each character written in UTF-8. -/
def str (s : String) : GoString := s.toList.flatMap (fun c => encodeRune (c.toNat : Int))

/-! ## path/filepath on a Unix target -/

/-- The predicate `os.IsPathSeparator`. -/
def isPathSeparator (c : Nat) : Bool := c == slash

/-- First loop of `filepath.Base`: strip trailing slashes. -/
def stripTrailingSlashes (path : GoString) : GoString :=
  (path.reverse.dropWhile isPathSeparator).reverse

/-- Second loop of `filepath.Base`: the bytes after the last separator, the
whole path when it has none. -/
def lastElement (path : GoString) : GoString :=
  (path.reverse.takeWhile (fun c => !isPathSeparator c)).reverse

/-- The function `filepath.Base`. -/
def filepathBase (path : GoString) : GoString :=
  if path = [] then [dot]
  else
    let p := lastElement (stripTrailingSlashes path)
    if p = [] then [slash] else p

/-- The loop of `filepath.Ext`, run over the reversed path: `acc` holds the
bytes already passed. -/
def extLoop : GoString → GoString → GoString
  | [], _ => []
  | c :: rs, acc =>
    if isPathSeparator c then []
    else if c = dot then c :: acc
    else extLoop rs (c :: acc)

/-- The function `filepath.Ext`: the suffix beginning at the final dot of
the final element, empty if there is no dot. -/
def filepathExt (path : GoString) : GoString := extLoop path.reverse []

/-! ## sanitizeFilename -/

/-- The constant `maxFilenameLen`. -/
def maxFilenameLen : Nat := 255

/-- The mapping passed to `strings.Map` in `sanitizeFilename`. -/
def dropControl (r : Rune) : Rune := if r < 32 ∨ r = 127 then -1 else r

/-- The name after the first two steps of `sanitizeFilename`:
`filepath.Base`, then the removal of control characters. -/
def cleanName (name : GoString) : GoString :=
  stringsMap dropControl (filepathBase name)

/-- The truncation step of `sanitizeFilename`.  The slice expression
`name[:maxFilenameLen-len(ext)]` panics when its bound is negative: the
result is then `none`. -/
def truncateName (name : GoString) : Option GoString :=
  if name.length > maxFilenameLen then
    let ext := filepathExt name
    if maxFilenameLen < ext.length then none
    else some (name.take (maxFilenameLen - ext.length) ++ ext)
  else some name

/-- The fallback step of `sanitizeFilename`. -/
def fallbackName (name : GoString) : GoString :=
  if name = [] ∨ name = [dot] ∨ name = [dot, dot] then str "unnamed" else name

/-- The function `sanitizeFilename`; `none` stands for a run-time panic. -/
def sanitizeFilename (name : GoString) : Option GoString :=
  (truncateName (cleanName name)).map fallbackName

/-! ## Regular expressions (package regexp) -/

/-- All runes of a string in the order `range s` yields them; `fuel` rounds
with `fuel = len(s)` reach the end of the string. -/
def runesLoop : Nat → GoString → List Rune
  | 0, _ => []
  | _ + 1, [] => []
  | fuel + 1, s0 :: rest =>
    let cw := decodeRune (s0 :: rest)
    cw.1 :: runesLoop fuel (rest.drop (cw.2 - 1))

/-- The runes the regexp machine reads from its input string. -/
def runes (s : GoString) : List Rune := runesLoop s.length s

/-- The syntax tree of a parsed pattern, restricted to the operators the
two patterns of `main.go` use.  Without flags `^` and `$` are the
beginning and the end of the text. -/
inductive Regex where
  | beginText : Regex
  | endText : Regex
  | lit (c : Rune) : Regex
  | cls (ranges : List (Rune × Rune)) : Regex
  | cat (a b : Regex) : Regex
  | alt (a b : Regex) : Regex
  | plus (a : Regex) : Regex

/-- A position of the machine in its input: the number of runes already
passed and the runes still to read. -/
structure Cursor where
  pos : Nat
  rest : List Rune

/-- Membership of a rune in a character class given by its ranges. -/
def inClass (ranges : List (Rune × Rune)) (r : Rune) : Bool :=
  ranges.any (fun lh => decide (lh.1 ≤ r ∧ r ≤ lh.2))

/-- One or more rounds of `step`, each followed either by the continuation
or by a further round; `fuel` bounds the number of rounds. -/
def plusK (step : Cursor → (Cursor → Bool) → Bool) :
    Nat → Cursor → (Cursor → Bool) → Bool
  | 0, _, _ => false
  | fuel + 1, cur, k => step cur (fun c => k c || plusK step fuel c k)

/-- Backtracking matcher: `matchK re cur k` holds when `re` matches some
stretch of runes starting at `cur` and the continuation `k` accepts the
cursor after it. -/
def matchK : Regex → Cursor → (Cursor → Bool) → Bool
  | Regex.beginText, cur, k => cur.pos == 0 && k cur
  | Regex.endText, cur, k => cur.rest.isEmpty && k cur
  | Regex.lit c, cur, k =>
    match cur.rest with
    | [] => false
    | r :: rs => r == c && k ⟨cur.pos + 1, rs⟩
  | Regex.cls ranges, cur, k =>
    match cur.rest with
    | [] => false
    | r :: rs => inClass ranges r && k ⟨cur.pos + 1, rs⟩
  | Regex.cat a b, cur, k => matchK a cur (fun c => matchK b c k)
  | Regex.alt a b, cur, k => matchK a cur k || matchK b cur k
  | Regex.plus a, cur, k =>
    plusK (fun c k1 => matchK a c k1) (cur.rest.length + 1) cur k

/-- The method `Regexp.MatchString`: the pattern matches somewhere in the
string, the search trying every starting position. -/
def matchString (re : Regex) (s : GoString) : Bool :=
  let rs := runes s
  (List.range (rs.length + 1)).any (fun i => matchK re ⟨i, rs.drop i⟩ (fun _ => true))

/-- A literal string as a concatenation of its runes, `last` being its
final rune. -/
def litString : List Rune → Rune → Regex
  | [], last => Regex.lit last
  | c :: cs, last => Regex.cat (Regex.lit c) (litString cs last)

/-- The class `\d`: `[0-9]`. -/
def digitClass : Regex := Regex.cls [(48, 57)]

/-- The class `[a-zA-Z]`. -/
def letterClass : Regex := Regex.cls [(97, 122), (65, 90)]

/-- The pattern `^\d+-[a-zA-Z]+-[a-zA-Z]+$`. -/
def wormholeCodePattern : Regex :=
  Regex.cat Regex.beginText
    (Regex.cat (Regex.plus digitClass)
      (Regex.cat (Regex.lit 45)
        (Regex.cat (Regex.plus letterClass)
          (Regex.cat (Regex.lit 45)
            (Regex.cat (Regex.plus letterClass) Regex.endText)))))

/-- The pattern `^(send|recv)-\d+$`. -/
def transferIDPattern : Regex :=
  Regex.cat Regex.beginText
    (Regex.cat (Regex.alt (litString [115, 101, 110] 100) (litString [114, 101, 99] 118))
      (Regex.cat (Regex.lit 45)
        (Regex.cat (Regex.plus digitClass) Regex.endText)))

/-- The function `validateWormholeCode`. -/
def validateWormholeCode (code : GoString) : Bool := matchString wormholeCodePattern code

/-- The function `validateTransferID`. -/
def validateTransferID (id : GoString) : Bool := matchString transferIDPattern id

/-! ## More of path/filepath and strings -/

/-- The function `strings.Split` for a separator of one byte: `cur` holds
the bytes of the piece being read. -/
def splitLoop (sep : Nat) : GoString → GoString → List GoString
  | [], cur => [cur]
  | c :: cs, cur => if c = sep then cur :: splitLoop sep cs [] else splitLoop sep cs (cur ++ [c])

/-- The function `strings.Split` for a separator of one byte. -/
def stringsSplit (s : GoString) (sep : Nat) : List GoString := splitLoop sep s []

/-- The function `strings.Join` for a separator of one byte. -/
def stringsJoin (elems : List GoString) (sep : Nat) : GoString :=
  List.intercalate [sep] elems

/-- The function `strings.Index` for a separator of one byte: the index
of its first occurrence, `none` where Go returns `-1`. -/
def stringsIndex : GoString → Nat → Option Nat
  | [], _ => none
  | c :: cs, sep => if c = sep then some 0 else (stringsIndex cs sep).map (fun i => i + 1)

/-- The main loop of `filepath.Clean` over the elements between
separators: `out` is the list of elements written so far and `dotdot` the
number of leading elements that a later `..` may not remove. -/
def cleanLoop (rooted : Bool) : List GoString → List GoString → Nat → List GoString
  | [], out, _ => out
  | e :: es, out, dotdot =>
    if e = [] ∨ e = [dot] then cleanLoop rooted es out dotdot
    else if e = [dot, dot] then
      if dotdot < out.length then cleanLoop rooted es out.dropLast dotdot
      else if !rooted then cleanLoop rooted es (out ++ [e]) (out.length + 1)
      else cleanLoop rooted es out dotdot
    else cleanLoop rooted es (out ++ [e]) dotdot

/-- The function `filepath.Clean`. -/
def filepathClean (path : GoString) : GoString :=
  if path = [] then [dot]
  else
    let rooted := path.head? == some slash
    let out := cleanLoop rooted (stringsSplit path slash) [] 0
    if rooted then slash :: stringsJoin out slash
    else if out = [] then [dot]
    else stringsJoin out slash

/-- The function `filepath.Join`: the elements from the first non-empty
one on, joined by the separator and cleaned. -/
def filepathJoin : List GoString → GoString
  | [] => []
  | e :: es => if e = [] then filepathJoin es else filepathClean (stringsJoin (e :: es) slash)

/-- The function `filepath.IsAbs`. -/
def filepathIsAbs (path : GoString) : Bool := path.head? == some slash

/-- The function `filepath.Abs`; `wd` is what `os.Getwd` returns, `none`
when it fails, and the result is `none` when `Abs` returns an error. -/
def filepathAbs (wd : Option GoString) (path : GoString) : Option GoString :=
  if filepathIsAbs path then some (filepathClean path)
  else wd.map (fun d => filepathJoin [d, path])

/-! ## The transfer registry -/

/-- A `float64` as far as this program tells floats apart: a finite
number, an infinity or NaN.  Only `json.Marshal` looks at `Progress`, and it
fails exactly on the last two. -/
inductive FloatClass where
  | finite : FloatClass
  | infinite : FloatClass
  | nan : FloatClass
  deriving DecidableEq

/-- The struct `TransferStatus`.  Times are nanoseconds; the `float64`
field `Progress` is kept up to its class, the zero value being finite; the
field `Type` is spelled `Typ`. -/
structure TransferStatus where
  ID : GoString
  Typ : GoString
  Status : GoString
  Code : GoString
  Filename : GoString
  Transferred : Int
  Total : Int
  Error : GoString
  TextContent : GoString
  DownloadPath : GoString
  CreatedAt : Int
  Progress : FloatClass := FloatClass.finite
  deriving DecidableEq

/-- The struct `Server`: the map `transfers` as an association list from
transfer id to record, and the storage root `tempDir`. -/
structure Server where
  transfers : List (GoString × TransferStatus)
  tempDir : GoString

/-- The method `Server.getTransfer`. -/
def Server.getTransfer (s : Server) (id : GoString) : Option TransferStatus :=
  s.transfers.lookup id

/-! ## Request handlers -/

/-- What a handler writes to its `http.ResponseWriter`. -/
inductive Response where
  | httpError (msg : String) (code : Nat) : Response
  | json (t : TransferStatus) : Response
  | websocket (t : TransferStatus) : Response
  | upgradeFailed : Response
  | serveFile (filePath : GoString) : Response
  deriving DecidableEq

/-- The outcome of one handler call: the response and the ids passed to
`getTransfer` during the call, in order. -/
structure Outcome where
  response : Response
  lookups : List GoString
  deriving DecidableEq

/-- The method `Server.handleStatus`; `id` is the query parameter `id`,
empty when absent. -/
def Server.handleStatus (s : Server) (id : GoString) : Outcome :=
  if id = [] then ⟨Response.httpError "ID is required" 400, []⟩
  else
    match s.getTransfer id with
    | none => ⟨Response.httpError "Transfer not found" 404, [id]⟩
    | some transfer => ⟨Response.json transfer, [id]⟩

/-- The method `Server.handleWebSocket` up to the registration of the
subscriber; `upgradeOk` tells whether `upgrader.Upgrade` succeeds. -/
def Server.handleWebSocket (s : Server) (upgradeOk : Bool) (id : GoString) : Outcome :=
  if id = [] then ⟨Response.httpError "ID is required" 400, []⟩
  else if !validateTransferID id then ⟨Response.httpError "Invalid transfer ID" 400, []⟩
  else
    match s.getTransfer id with
    | none => ⟨Response.httpError "Transfer not found" 404, [id]⟩
    | some transfer =>
      if upgradeOk then ⟨Response.websocket transfer, [id]⟩ else ⟨Response.upgradeFailed, [id]⟩

/-- The method `Server.handleDownload`; `path` is the request path after
`/api/download/`, `wd` the result of `os.Getwd`.  The result `none` stands
for a panic inside `sanitizeFilename`. -/
def Server.handleDownload (s : Server) (wd : Option GoString) (path : GoString) :
    Option Outcome :=
  match stringsIndex path slash with
  | none => some ⟨Response.httpError "Invalid path" 400, []⟩
  | some slashIdx =>
    let transferID := path.take slashIdx
    let filename := path.drop (slashIdx + 1)
    if !validateTransferID transferID then
      some ⟨Response.httpError "Invalid transfer ID" 400, []⟩
    else
      match sanitizeFilename filename with
      | none => none
      | some safeFilename =>
        if safeFilename = [] then some ⟨Response.httpError "Invalid filename" 400, []⟩
        else
          match s.getTransfer transferID with
          | none => some ⟨Response.httpError "Transfer not found" 404, [transferID]⟩
          | some _ =>
            let filePath := filepathJoin [s.tempDir, transferID, safeFilename]
            match filepathAbs wd filePath with
            | none => some ⟨Response.httpError "Invalid path" 400, [transferID]⟩
            | some absFilePath =>
              match filepathAbs wd s.tempDir with
              | none => some ⟨Response.httpError "Server error" 500, [transferID]⟩
              | some absTempDir =>
                if !hasPrefix absFilePath (absTempDir ++ [slash]) then
                  some ⟨Response.httpError "Access denied" 403, [transferID]⟩
                else some ⟨Response.serveFile filePath, [transferID]⟩

/-! ## Send tasks -/

/-- The struct `wormhole.SendResult` read from the completion channel;
`Error` is `none` for a nil error. -/
structure SendResult where
  OK : Bool
  Error : Option GoString
  deriving DecidableEq

/-- What `Client.SendText` and `Client.SendFile` return: an error, or the
code together with the result that the status channel delivers. -/
abbrev SendOutcome := Except GoString (GoString × SendResult)

/-- The lines after `result := <-status`, shared by the three send
tasks. -/
def resolveSend (transfer : TransferStatus) (result : SendResult) : TransferStatus :=
  match result.Error with
  | some e => { transfer with Status := str "error", Error := e }
  | none => if result.OK then { transfer with Status := str "complete" } else transfer

/-- The goroutine started by `handleSendText`: the records it passes to
`setTransfer`, in order. -/
def sendTextTask (transfer : TransferStatus) (backend : SendOutcome) : List TransferStatus :=
  match backend with
  | Except.error err => [{ transfer with Status := str "error", Error := err }]
  | Except.ok (code, result) =>
    let waiting := { transfer with Code := code, Status := str "waiting" }
    [waiting, resolveSend waiting result]

/-- The goroutine started by `sendSingleFile`; `openErr` is the error of
`os.Open(tempPath)`, `none` when the file opens. -/
def sendSingleFileTask (transfer : TransferStatus) (openErr : Option GoString)
    (backend : SendOutcome) : List TransferStatus :=
  match openErr with
  | some err => [{ transfer with Status := str "error", Error := err }]
  | none =>
    match backend with
    | Except.error err => [{ transfer with Status := str "error", Error := err }]
    | Except.ok (code, result) =>
      let waiting := { transfer with Code := code, Status := str "waiting" }
      [waiting, resolveSend waiting result]

/-- The goroutine started by `sendMultipleFiles`; `openErr` is the error
of `os.Open(zipPath)`. -/
def sendMultipleFilesTask (transfer : TransferStatus) (openErr : Option GoString)
    (backend : SendOutcome) : List TransferStatus :=
  match openErr with
  | some err => [{ transfer with Status := str "error", Error := err }]
  | none =>
    match backend with
    | Except.error err => [{ transfer with Status := str "error", Error := err }]
    | Except.ok (code, result) =>
      let waiting := { transfer with Code := code, Status := str "waiting" }
      [waiting, resolveSend waiting result]

/-- The record that the three send handlers register before starting their
task. -/
def newSendTransfer (id filename : GoString) (total createdAt : Int) : TransferStatus :=
  { ID := id, Typ := str "send", Status := str "sending", Code := [], Filename := filename,
    Transferred := 0, Total := total, Error := [], TextContent := [], DownloadPath := [],
    CreatedAt := createdAt }

/-! ## sync.Map -/

/-- The loop behind `sync.Map.Range` on an association list read with
`lookup`: every key is visited once, with the value `Load` returns for it;
`seen` holds the keys already visited. -/
def rangeLoop {α : Type} (seen : List GoString) : List (GoString × α) → List (GoString × α)
  | [] => []
  | e :: m => if e.1 ∈ seen then rangeLoop seen m else e :: rangeLoop (e.1 :: seen) m

/-- The entries that `sync.Map.Range` visits. -/
def mapRange {α : Type} (m : List (GoString × α)) : List (GoString × α) := rangeLoop [] m

/-- The method `sync.Map.Store`: the value of the key is replaced, or the
entry added. -/
def mapStore {α : Type} : List (GoString × α) → GoString → α → List (GoString × α)
  | [], k, v => [(k, v)]
  | e :: m, k, v => if e.1 = k then (k, v) :: m else e :: mapStore m k v

/-- The method `sync.Map.Delete`. -/
def mapDelete {α : Type} (m : List (GoString × α)) (k : GoString) : List (GoString × α) :=
  m.filter (fun e => decide (e.1 ≠ k))

/-! ## Subscribers and notification -/

/-- A WebSocket connection (`*websocket.Conn`), named by a number. -/
abbrev Conn := Nat

/-- The keys of an inner subscriber map that `Range` visits, each once. -/
def connRangeLoop (seen : List Conn) : List Conn → List Conn
  | [] => []
  | c :: cs => if c ∈ seen then connRangeLoop seen cs else c :: connRangeLoop (c :: seen) cs

/-- The connections that `Range` visits in an inner subscriber map. -/
def connRange (conns : List Conn) : List Conn := connRangeLoop [] conns

/-- The call `subscribers.Store(conn, true)` on an inner subscriber map. -/
def connStore (conns : List Conn) (conn : Conn) : List Conn :=
  if conn ∈ conns then conns else conns ++ [conn]

/-- The call `subscribers.Delete(conn)` on an inner subscriber map. -/
def connDelete (conns : List Conn) (conn : Conn) : List Conn :=
  conns.filter (fun c => decide (c ≠ conn))

/-- The struct `Server` with its map `subscribers`, from transfer id to the
set of connections subscribed to it. -/
structure ServerState where
  server : Server
  subscribers : List (GoString × List Conn)

/-- The call `json.Marshal(t)`: the text is identified with the record it
encodes; the call fails exactly when `Progress` is NaN or infinite. -/
def jsonMarshal (t : TransferStatus) : Option TransferStatus :=
  if t.Progress = FloatClass.finite then some t else none

/-- The callback passed to `Range` in `notifySubscribers`, run over the
connections to visit: a connection whose `WriteMessage` fails is closed and
deleted from the set. -/
def notifyLoop (writeOk : Conn → Bool) : List Conn → List Conn → List Conn
  | [], conns => conns
  | c :: cs, conns =>
    if writeOk c then notifyLoop writeOk cs conns
    else notifyLoop writeOk cs (connDelete conns c)

/-- The method `Server.notifySubscribers`; `writeOk conn` tells whether
`conn.WriteMessage` succeeds within its deadline.  The result holds the
state after the call and the messages handed to `WriteMessage`, in order. -/
def ServerState.notifySubscribers (st : ServerState) (writeOk : Conn → Bool)
    (t : TransferStatus) : ServerState × List (Conn × TransferStatus) :=
  match st.subscribers.lookup t.ID with
  | none => (st, [])
  | some conns =>
    match jsonMarshal t with
    | none => (st, [])
    | some data =>
      ({ st with subscribers :=
          mapStore st.subscribers t.ID (notifyLoop writeOk (connRange conns) conns) },
        (connRange conns).map (fun c => (c, data)))

/-- The method `Server.addSubscriber`. -/
def ServerState.addSubscriber (st : ServerState) (transferID : GoString) (conn : Conn) :
    ServerState :=
  let conns := (st.subscribers.lookup transferID).getD []
  { st with subscribers := mapStore st.subscribers transferID (connStore conns conn) }

/-- The method `Server.removeSubscriber`. -/
def ServerState.removeSubscriber (st : ServerState) (transferID : GoString) (conn : Conn) :
    ServerState :=
  match st.subscribers.lookup transferID with
  | none => st
  | some conns =>
    { st with subscribers := mapStore st.subscribers transferID (connDelete conns conn) }

/-- The method `Server.getTransfer` on the whole state. -/
def ServerState.getTransfer (st : ServerState) (id : GoString) : Option TransferStatus :=
  st.server.getTransfer id

/-- The method `Server.setTransfer`: store the record under its id, then
notify the subscribers of that id. -/
def ServerState.setTransfer (st : ServerState) (writeOk : Conn → Bool) (t : TransferStatus) :
    ServerState × List (Conn × TransferStatus) :=
  ServerState.notifySubscribers
    { st with server := { st.server with transfers := mapStore st.server.transfers t.ID t } }
    writeOk t

/-- The method `Server.deleteTransfer`. -/
def ServerState.deleteTransfer (st : ServerState) (id : GoString) : ServerState :=
  { st with server := { st.server with transfers := mapDelete st.server.transfers id } }

/-- The function `NewServer` for a given temporary directory of the
system. -/
def NewServer (osTempDir : GoString) : ServerState :=
  { server := { transfers := [], tempDir := filepathJoin [osTempDir, str "wormhole-web"] },
    subscribers := [] }

/-- One call on the registry. -/
inductive RegistryOp where
  | set (t : TransferStatus) (writeOk : Conn → Bool) : RegistryOp
  | delete (id : GoString) : RegistryOp

/-- The state after one call on the registry. -/
def ServerState.applyOp (st : ServerState) : RegistryOp → ServerState
  | RegistryOp.set t writeOk => (st.setTransfer writeOk t).1
  | RegistryOp.delete id => st.deleteTransfer id

/-- The state after a sequence of calls on the registry. -/
def ServerState.applyOps (st : ServerState) (ops : List RegistryOp) : ServerState :=
  ops.foldl ServerState.applyOp st

/-! ## The lifecycle sweeper -/

/-- The constant `transferTTL`, one hour in nanoseconds. -/
def transferTTL : Int := 3600000000000

/-- The largest `time.Duration`. -/
def maxDuration : Int := 9223372036854775807

/-- The smallest `time.Duration`. -/
def minDuration : Int := -9223372036854775808

/-- The method `Time.Sub` on times given in nanoseconds: the difference,
held at the largest or smallest duration when it does not fit. -/
def timeSub (t u : Int) : Int :=
  if maxDuration < t - u then maxDuration
  else if t - u < minDuration then minDuration
  else t - u

/-- The file system as the list of the cleaned paths that exist. -/
abbrev FileSystem := List GoString

/-- The helper `endsWithDot` of package `os`: the path is `.` or ends in
`/.`. -/
def endsWithDot (path : GoString) : Bool :=
  path == [dot] || hasSuffix path [slash, dot]

/-- A path is the directory `dir` or lies below it. -/
def isUnder (path dir : GoString) : Bool :=
  path == dir || hasPrefix path (if hasSuffix dir [slash] then dir else dir ++ [slash])

/-- The function `os.RemoveAll`: the path and everything below it are
removed; the empty path is left alone and a path ending in a dot is
refused. -/
def removeAll (fs : FileSystem) (path : GoString) : FileSystem :=
  if path = [] ∨ endsWithDot path = true then fs
  else fs.filter (fun q => !isUnder q path)

/-- The first loop of `cleanupOldTransfers`: the ids whose record is older
than `transferTTL`. -/
def expiredIDs (s : Server) (now : Int) : List GoString :=
  ((mapRange s.transfers).filter
    (fun e => decide (transferTTL < timeSub now e.2.CreatedAt))).map (fun e => e.1)

/-- The second loop of `cleanupOldTransfers`. -/
def cleanupLoop : List GoString → ServerState → FileSystem → ServerState × FileSystem
  | [], st, fs => (st, fs)
  | id :: ids, st, fs =>
    cleanupLoop ids (st.deleteTransfer id) (removeAll fs (filepathJoin [st.server.tempDir, id]))

/-- The method `Server.cleanupOldTransfers` run at time `now`. -/
def ServerState.cleanupOldTransfers (st : ServerState) (fs : FileSystem) (now : Int) :
    ServerState × FileSystem :=
  cleanupLoop (expiredIDs st.server now) st fs

/-! ## progressReader and io.Copy -/

/-- An error returned by a reader: `io.EOF` or another error. -/
inductive IOError where
  | eof : IOError
  | other (msg : GoString) : IOError
  deriving DecidableEq

/-- What one call of `Read` returns. -/
structure ReadResult where
  n : Nat
  err : Option IOError
  deriving DecidableEq

/-- The value of an `int64` after an addition that may wrap around. -/
def wrapInt64 (x : Int) : Int := (x + 9223372036854775808) % 18446744073709551616 - 9223372036854775808

/-- The struct `progressReader`: whether `onProgress` is non-nil, and the
running `total`.  The underlying reader is given call by call. -/
structure progressReader where
  hasOnProgress : Bool
  total : Int
  deriving DecidableEq

/-- The method `progressReader.Read`, given what the underlying reader
returns for this call: the reader after the call, the result handed back,
and the arguments of the calls of `onProgress` made before returning. -/
def progressReader.Read (pr : progressReader) (under : ReadResult) :
    progressReader × ReadResult × List Int :=
  let total := wrapInt64 (pr.total + under.n)
  ({ pr with total := total }, under, if pr.hasOnProgress then [total] else [])

/-- A sequence of `Read` calls: the reader after them, the results handed
back and the arguments of all calls of `onProgress`, in order. -/
def progressReader.readAll (pr : progressReader) :
    List ReadResult → progressReader × List ReadResult × List Int
  | [] => (pr, [], [])
  | r :: rs =>
    let step := pr.Read r
    let more := progressReader.readAll step.1 rs
    (more.1, step.2.1 :: more.2.1, step.2.2 ++ more.2.2)

/-- One round of the loop of `io.Copy`: what the source returns, and the
error of the write of the bytes read, `none` when all of them are
written. -/
structure CopyStep where
  read : ReadResult
  writeErr : Option GoString
  deriving DecidableEq

/-- The loop of `io.Copy` from a `progressReader` over the rounds given:
the arguments of the calls of `onProgress`, and the result `(written, err)`,
`none` when the rounds end before the source reports an error or the end
of the stream (the copy is still waiting for the source). -/
def copyLoop (pr : progressReader) (written : Int) :
    List CopyStep → List Int × Option (Int × Option GoString)
  | [] => ([], none)
  | st :: rest =>
    let step := pr.Read st.read
    if 0 < step.2.1.n ∧ st.writeErr.isSome then (step.2.2, some (written, st.writeErr))
    else
      match step.2.1.err with
      | some IOError.eof => (step.2.2, some (written + step.2.1.n, none))
      | some (IOError.other msg) => (step.2.2, some (written + step.2.1.n, some msg))
      | none =>
        let more := copyLoop step.1 (written + step.2.1.n) rest
        (step.2.2 ++ more.1, more.2)

/-! ## The receive task -/

/-- The fields of `wormhole.IncomingMessage` that the task reads. -/
structure IncomingMessage where
  Name : GoString
  TransferBytes64 : Int
  isText : Bool

/-- The class of `float64(n) / float64(total) * 100`. -/
def percentClass (n total : Int) : FloatClass :=
  if total = 0 then (if n = 0 then FloatClass.nan else FloatClass.infinite)
  else FloatClass.finite

/-- The outcomes of the input and output of the receive task after
`Client.Receive` has returned a message: the result of `io.Copy(&buf, msg)`
for a text; the errors of `os.MkdirAll` and `os.Create` and the rounds of
`io.Copy` for a file. -/
structure ReceiveIO where
  textCopy : Except GoString GoString
  mkdirErr : Option GoString
  createErr : Option GoString
  steps : List CopyStep

/-- The record that `onProgress` publishes for the total `n`. -/
def progressSnapshot (transfer : TransferStatus) (n : Int) : TransferStatus :=
  { transfer with Transferred := n, Progress := percentClass n transfer.Total }

/-- The last element of a list of records, `transfer` for the empty list:
the record as the callbacks have left it. -/
def lastSnapshot (transfer : TransferStatus) (snaps : List TransferStatus) : TransferStatus :=
  snaps.getLast?.getD transfer

/-- The lines of the receive task that follow `os.Create`: the copy through
the `progressReader` and the final record. -/
def receiveCopy (transferID safeFilename : GoString) (named : TransferStatus)
    (steps : List CopyStep) : List TransferStatus :=
  let copy := copyLoop ⟨true, 0⟩ 0 steps
  let snaps := copy.1.map (progressSnapshot named)
  let last := lastSnapshot named snaps
  match copy.2 with
  | none => snaps
  | some (_, some err) => snaps ++ [{ last with Status := str "error", Error := err }]
  | some (written, none) =>
    snaps ++
      [{ last with
          Status := str "complete", Transferred := written,
          Progress := FloatClass.finite,
          DownloadPath := str "/api/download/" ++ transferID ++ [slash] ++ safeFilename }]

/-- The goroutine started by `handleReceive`: the records it passes to
`setTransfer`, in order.  A panic of `sanitizeFilename` ends the task. -/
def receiveTask (transferID : GoString) (transfer : TransferStatus)
    (recv : Except GoString IncomingMessage) (io : ReceiveIO) : List TransferStatus :=
  match recv with
  | Except.error err => [{ transfer with Status := str "error", Error := err }]
  | Except.ok msg =>
    match sanitizeFilename msg.Name with
    | none => []
    | some safeFilename =>
      let named := { transfer with Total := msg.TransferBytes64, Filename := safeFilename }
      if msg.isText then
        match io.textCopy with
        | Except.error err => [named, { named with Status := str "error", Error := err }]
        | Except.ok content =>
          [named,
            { named with
              Status := str "complete", TextContent := content,
              Transferred := content.length }]
      else
        match io.mkdirErr with
        | some err => [named, { named with Status := str "error", Error := err }]
        | none =>
          match io.createErr with
          | some err => [named, { named with Status := str "error", Error := err }]
          | none => named :: receiveCopy transferID safeFilename named io.steps

/-! ## encoding/json: the scanner -/

/-- The predicate `isSpace` of `scanner.go`: space, tab, carriage return or
line feed. -/
def isSpace (c : Nat) : Bool := c == 32 || c == 9 || c == 13 || c == 10

/-- The values of the field `step` of a `scanner`: one for each state
function of `scanner.go`. -/
inductive ScanStep where
  | beginValueOrEmpty | beginValue | beginStringOrEmpty | beginString
  | endValue | endTop
  | inString | inStringEsc | inStringEscU | inStringEscU1 | inStringEscU12 | inStringEscU123
  | neg | one | zero | dot | dot0 | e | eSign | e0
  | t | tr | tru | f | fa | fal | fals | n | nu | nul
  | error
  deriving DecidableEq

/-- The codes that a state function returns. -/
inductive ScanCode where
  | scanContinue | scanBeginLiteral | scanBeginObject | scanObjectKey | scanObjectValue
  | scanEndObject | scanBeginArray | scanArrayValue | scanEndArray | scanSkipSpace
  | scanEnd | scanError
  deriving DecidableEq

/-- The entries of the stack `parseState` of a `scanner`. -/
inductive ParseState where
  | parseObjectKey | parseObjectValue | parseArrayValue
  deriving DecidableEq

/-- The struct `scanner`: the state function to call next, the flag
`endTop` and the stack `parseState`, innermost entry first.  The field `err`
is non-nil exactly when `step` is `stateError`. -/
structure scanner where
  step : ScanStep
  endTop : Bool
  parseState : List ParseState
  deriving DecidableEq

/-- The constant `maxNestingDepth`. -/
def maxNestingDepth : Nat := 10000

/-- The method `scanner.reset`. -/
def scanner.reset : scanner := ⟨ScanStep.beginValue, false, []⟩

/-- The method `scanner.error`: the error is recorded and every later byte
is answered with `scanError`. -/
def scanner.error (s : scanner) : ScanCode × scanner :=
  (ScanCode.scanError, { s with step := ScanStep.error })

/-- The method `scanner.pushParseState`. -/
def scanner.pushParseState (s : scanner) (newParseState : ParseState)
    (successState : ScanCode) : ScanCode × scanner :=
  if s.parseState.length + 1 ≤ maxNestingDepth then
    (successState, { s with parseState := newParseState :: s.parseState })
  else scanner.error { s with parseState := newParseState :: s.parseState }

/-- The method `scanner.popParseState`. -/
def scanner.popParseState (s : scanner) : scanner :=
  if s.parseState.tail = [] then ⟨ScanStep.endTop, true, []⟩
  else { s with step := ScanStep.endValue, parseState := s.parseState.tail }

/-- The state `stateEndTop`: a byte other than a space after the top-level
value is recorded as an error, to be reported on the next call. -/
def stateEndTop (s : scanner) (c : Nat) : ScanCode × scanner :=
  if !isSpace c then (ScanCode.scanEnd, { s with step := ScanStep.error })
  else (ScanCode.scanEnd, s)

/-- The state `stateEndValue`. -/
def stateEndValue (s : scanner) (c : Nat) : ScanCode × scanner :=
  match s.parseState with
  | [] => stateEndTop { s with step := ScanStep.endTop, endTop := true } c
  | ps :: rest =>
    if isSpace c then (ScanCode.scanSkipSpace, { s with step := ScanStep.endValue })
    else
      match ps with
      | ParseState.parseObjectKey =>
        if c = 58 then
          (ScanCode.scanObjectKey,
            { s with parseState := ParseState.parseObjectValue :: rest,
                     step := ScanStep.beginValue })
        else s.error
      | ParseState.parseObjectValue =>
        if c = 44 then
          (ScanCode.scanObjectValue,
            { s with parseState := ParseState.parseObjectKey :: rest,
                     step := ScanStep.beginString })
        else if c = 125 then (ScanCode.scanEndObject, s.popParseState)
        else s.error
      | ParseState.parseArrayValue =>
        if c = 44 then (ScanCode.scanArrayValue, { s with step := ScanStep.beginValue })
        else if c = 93 then (ScanCode.scanEndArray, s.popParseState)
        else s.error

/-- The state `stateBeginValue`. -/
def stateBeginValue (s : scanner) (c : Nat) : ScanCode × scanner :=
  if isSpace c then (ScanCode.scanSkipSpace, s)
  else if c = 123 then
    scanner.pushParseState { s with step := ScanStep.beginStringOrEmpty }
      ParseState.parseObjectKey ScanCode.scanBeginObject
  else if c = 91 then
    scanner.pushParseState { s with step := ScanStep.beginValueOrEmpty }
      ParseState.parseArrayValue ScanCode.scanBeginArray
  else if c = 34 then (ScanCode.scanBeginLiteral, { s with step := ScanStep.inString })
  else if c = 45 then (ScanCode.scanBeginLiteral, { s with step := ScanStep.neg })
  else if c = 48 then (ScanCode.scanBeginLiteral, { s with step := ScanStep.zero })
  else if c = 116 then (ScanCode.scanBeginLiteral, { s with step := ScanStep.t })
  else if c = 102 then (ScanCode.scanBeginLiteral, { s with step := ScanStep.f })
  else if c = 110 then (ScanCode.scanBeginLiteral, { s with step := ScanStep.n })
  else if 49 ≤ c ∧ c ≤ 57 then (ScanCode.scanBeginLiteral, { s with step := ScanStep.one })
  else s.error

/-- The state `stateBeginValueOrEmpty`, after `[`. -/
def stateBeginValueOrEmpty (s : scanner) (c : Nat) : ScanCode × scanner :=
  if isSpace c then (ScanCode.scanSkipSpace, s)
  else if c = 93 then stateEndValue s c
  else stateBeginValue s c

/-- The state `stateBeginString`, after a comma in an object. -/
def stateBeginString (s : scanner) (c : Nat) : ScanCode × scanner :=
  if isSpace c then (ScanCode.scanSkipSpace, s)
  else if c = 34 then (ScanCode.scanBeginLiteral, { s with step := ScanStep.inString })
  else s.error

/-- The state `stateBeginStringOrEmpty`, after `{`. -/
def stateBeginStringOrEmpty (s : scanner) (c : Nat) : ScanCode × scanner :=
  if isSpace c then (ScanCode.scanSkipSpace, s)
  else if c = 125 then
    stateEndValue { s with parseState := ParseState.parseObjectValue :: s.parseState.tail } c
  else stateBeginString s c

/-- The state `stateInString`. -/
def stateInString (s : scanner) (c : Nat) : ScanCode × scanner :=
  if c = 34 then (ScanCode.scanContinue, { s with step := ScanStep.endValue })
  else if c = 92 then (ScanCode.scanContinue, { s with step := ScanStep.inStringEsc })
  else if c < 32 then s.error
  else (ScanCode.scanContinue, s)

/-- The state `stateInStringEsc`, after a backslash. -/
def stateInStringEsc (s : scanner) (c : Nat) : ScanCode × scanner :=
  if c = 98 ∨ c = 102 ∨ c = 110 ∨ c = 114 ∨ c = 116 ∨ c = 92 ∨ c = 47 ∨ c = 34 then
    (ScanCode.scanContinue, { s with step := ScanStep.inString })
  else if c = 117 then (ScanCode.scanContinue, { s with step := ScanStep.inStringEscU })
  else s.error

/-- A hexadecimal digit, as the states after `\u` test it. -/
def isHexByte (c : Nat) : Bool :=
  decide ((48 ≤ c ∧ c ≤ 57) ∨ (97 ≤ c ∧ c ≤ 102) ∨ (65 ≤ c ∧ c ≤ 70))

/-- The states `stateInStringEscU` to `stateInStringEscU123`: a hexadecimal
digit leads to the state `next`. -/
def stateInStringEscHex (next : ScanStep) (s : scanner) (c : Nat) : ScanCode × scanner :=
  if isHexByte c then (ScanCode.scanContinue, { s with step := next }) else s.error

/-- The state `stateNeg`, after a minus sign. -/
def stateNeg (s : scanner) (c : Nat) : ScanCode × scanner :=
  if c = 48 then (ScanCode.scanContinue, { s with step := ScanStep.zero })
  else if 49 ≤ c ∧ c ≤ 57 then (ScanCode.scanContinue, { s with step := ScanStep.one })
  else s.error

/-- The state `state0`, after a leading `0` or the digits of the integer
part. -/
def state0 (s : scanner) (c : Nat) : ScanCode × scanner :=
  if c = 46 then (ScanCode.scanContinue, { s with step := ScanStep.dot })
  else if c = 101 ∨ c = 69 then (ScanCode.scanContinue, { s with step := ScanStep.e })
  else stateEndValue s c

/-- The state `state1`, inside the digits of the integer part. -/
def state1 (s : scanner) (c : Nat) : ScanCode × scanner :=
  if 48 ≤ c ∧ c ≤ 57 then (ScanCode.scanContinue, { s with step := ScanStep.one })
  else state0 s c

/-- The state `stateDot`, after the decimal point. -/
def stateDot (s : scanner) (c : Nat) : ScanCode × scanner :=
  if 48 ≤ c ∧ c ≤ 57 then (ScanCode.scanContinue, { s with step := ScanStep.dot0 })
  else s.error

/-- The state `stateDot0`, inside the digits after the decimal point. -/
def stateDot0 (s : scanner) (c : Nat) : ScanCode × scanner :=
  if 48 ≤ c ∧ c ≤ 57 then (ScanCode.scanContinue, s)
  else if c = 101 ∨ c = 69 then (ScanCode.scanContinue, { s with step := ScanStep.e })
  else stateEndValue s c

/-- The state `stateESign`, after the sign of an exponent. -/
def stateESign (s : scanner) (c : Nat) : ScanCode × scanner :=
  if 48 ≤ c ∧ c ≤ 57 then (ScanCode.scanContinue, { s with step := ScanStep.e0 })
  else s.error

/-- The state `stateE`, after the letter of an exponent. -/
def stateE (s : scanner) (c : Nat) : ScanCode × scanner :=
  if c = 43 ∨ c = 45 then (ScanCode.scanContinue, { s with step := ScanStep.eSign })
  else stateESign s c

/-- The state `stateE0`, inside the digits of an exponent. -/
def stateE0 (s : scanner) (c : Nat) : ScanCode × scanner :=
  if 48 ≤ c ∧ c ≤ 57 then (ScanCode.scanContinue, s)
  else stateEndValue s c

/-- The states inside the words `true`, `false` and `null`: the byte
`want` leads to the state `next`. -/
def stateWord (want : Nat) (next : ScanStep) (s : scanner) (c : Nat) : ScanCode × scanner :=
  if c = want then (ScanCode.scanContinue, { s with step := next }) else s.error

/-- The call `s.step(s, c)`. -/
def scanner.stepByte (s : scanner) (c : Nat) : ScanCode × scanner :=
  match s.step with
  | ScanStep.beginValueOrEmpty => stateBeginValueOrEmpty s c
  | ScanStep.beginValue => stateBeginValue s c
  | ScanStep.beginStringOrEmpty => stateBeginStringOrEmpty s c
  | ScanStep.beginString => stateBeginString s c
  | ScanStep.endValue => stateEndValue s c
  | ScanStep.endTop => stateEndTop s c
  | ScanStep.inString => stateInString s c
  | ScanStep.inStringEsc => stateInStringEsc s c
  | ScanStep.inStringEscU => stateInStringEscHex ScanStep.inStringEscU1 s c
  | ScanStep.inStringEscU1 => stateInStringEscHex ScanStep.inStringEscU12 s c
  | ScanStep.inStringEscU12 => stateInStringEscHex ScanStep.inStringEscU123 s c
  | ScanStep.inStringEscU123 => stateInStringEscHex ScanStep.inString s c
  | ScanStep.neg => stateNeg s c
  | ScanStep.one => state1 s c
  | ScanStep.zero => state0 s c
  | ScanStep.dot => stateDot s c
  | ScanStep.dot0 => stateDot0 s c
  | ScanStep.e => stateE s c
  | ScanStep.eSign => stateESign s c
  | ScanStep.e0 => stateE0 s c
  | ScanStep.t => stateWord 114 ScanStep.tr s c
  | ScanStep.tr => stateWord 117 ScanStep.tru s c
  | ScanStep.tru => stateWord 101 ScanStep.endValue s c
  | ScanStep.f => stateWord 97 ScanStep.fa s c
  | ScanStep.fa => stateWord 108 ScanStep.fal s c
  | ScanStep.fal => stateWord 115 ScanStep.fals s c
  | ScanStep.fals => stateWord 101 ScanStep.endValue s c
  | ScanStep.n => stateWord 117 ScanStep.nu s c
  | ScanStep.nu => stateWord 108 ScanStep.nul s c
  | ScanStep.nul => stateWord 108 ScanStep.endValue s c
  | ScanStep.error => (ScanCode.scanError, s)

/-- The method `scanner.eof`. -/
def scanner.eof (s : scanner) : ScanCode :=
  if s.step = ScanStep.error then ScanCode.scanError
  else if s.endTop then ScanCode.scanEnd
  else if (s.stepByte 32).2.endTop then ScanCode.scanEnd
  else ScanCode.scanError

/-- The loop of `checkValid`: `none` when a byte is answered with
`scanError`. -/
def checkValidLoop (s : scanner) : GoString → Option scanner
  | [] => some s
  | c :: cs =>
    if (s.stepByte c).1 = ScanCode.scanError then none
    else checkValidLoop (s.stepByte c).2 cs

/-- The function `json.Valid`: the data are one JSON value, with nothing but
spaces around it. -/
def jsonValid (data : GoString) : Bool :=
  match checkValidLoop scanner.reset data with
  | none => false
  | some s => s.eof != ScanCode.scanError

/-! ## encoding/json: Decoder.Decode into a struct with one string field -/

/-- The loop of `Decoder.readValue` over the bytes of the stream, `scanp`
bytes into it: the number of bytes that the next value takes, leading spaces
included, or `none` for an error.  A top-level object or array ends with its
closing bracket; any other value ends before the first byte that does not
continue it, or with the stream. -/
def readValueLoop (s : scanner) : GoString → Nat → Option Nat
  | [], scanp => if (s.stepByte 32).1 = ScanCode.scanEnd then some scanp else none
  | c :: cs, scanp =>
    let r := s.stepByte c
    if r.1 = ScanCode.scanEnd then some scanp
    else if r.1 = ScanCode.scanEndObject ∨ r.1 = ScanCode.scanEndArray then
      if (stateEndValue r.2 32).1 = ScanCode.scanEnd then some (scanp + 1)
      else readValueLoop (stateEndValue r.2 32).2 cs (scanp + 1)
    else if r.1 = ScanCode.scanError then none
    else readValueLoop r.2 cs (scanp + 1)

/-- The method `Decoder.readValue` on a fresh decoder whose stream holds
`body`. -/
def readValue (body : GoString) : Option Nat := readValueLoop scanner.reset body 0

/-- The function `getu4`: the number written as `\uXXXX` at the start of
`s`, `none` where Go returns `-1`. -/
def getu4 (s : GoString) : Option Nat :=
  match s with
  | 92 :: 117 :: h1 :: h2 :: h3 :: h4 :: _ =>
    if isHexByte h1 && isHexByte h2 && isHexByte h3 && isHexByte h4 then
      let v := fun (c : Nat) => if c ≤ 57 then c - 48 else if 97 ≤ c then c - 87 else c - 55
      some (((v h1 * 16 + v h2) * 16 + v h3) * 16 + v h4)
    else none
  | _ => none

/-- The function `utf16.DecodeRune` as `unquoteBytes` uses it: the code
point of a surrogate pair, `none` where Go returns the replacement
character. -/
def utf16DecodeRune (r1 : Nat) (r2 : Option Nat) : Option Nat :=
  match r2 with
  | none => none
  | some r2 =>
    if 55296 ≤ r1 ∧ r1 < 56320 ∧ 56320 ≤ r2 ∧ r2 < 57344 then
      some ((r1 - 55296) * 1024 + (r2 - 56320) + 65536)
    else none

/-- The second loop of `unquoteBytes` over the bytes between the quotes;
`skip` counts the bytes that the step before has already consumed.  The
result is `none` where Go returns `ok = false`. -/
def unquoteLoop : Nat → GoString → Option GoString
  | _, [] => some []
  | skip + 1, _ :: cs => unquoteLoop skip cs
  | 0, c :: cs =>
    if c = 92 then
      match cs with
      | [] => none
      | e :: _ =>
        if e = 34 ∨ e = 92 ∨ e = 47 ∨ e = 39 then (unquoteLoop 1 cs).map (fun t => e :: t)
        else if e = 98 then (unquoteLoop 1 cs).map (fun t => 8 :: t)
        else if e = 102 then (unquoteLoop 1 cs).map (fun t => 12 :: t)
        else if e = 110 then (unquoteLoop 1 cs).map (fun t => 10 :: t)
        else if e = 114 then (unquoteLoop 1 cs).map (fun t => 13 :: t)
        else if e = 116 then (unquoteLoop 1 cs).map (fun t => 9 :: t)
        else if e = 117 then
          match getu4 (c :: cs) with
          | none => none
          | some rr =>
            if 55296 ≤ rr ∧ rr < 57344 then
              match utf16DecodeRune rr (getu4 (cs.drop 5)) with
              | some dec => (unquoteLoop 11 cs).map (fun t => encodeRune (dec : Int) ++ t)
              | none => (unquoteLoop 5 cs).map (fun t => encodeRune RuneError ++ t)
            else (unquoteLoop 5 cs).map (fun t => encodeRune (rr : Int) ++ t)
        else none
    else if c = 34 ∨ c < 32 then none
    else if c < 128 then (unquoteLoop 0 cs).map (fun t => c :: t)
    else
      (unquoteLoop ((decodeRune (c :: cs)).2 - 1) cs).map
        (fun t => encodeRune (decodeRune (c :: cs)).1 ++ t)

/-- The function `unquoteBytes`: the text of a quoted string literal, with
escapes replaced and invalid UTF-8 turned into U+FFFD. -/
def unquoteBytes (s : GoString) : Option GoString :=
  if s.length < 2 ∨ s.head? ≠ some 34 ∨ s.getLast? ≠ some 34 then none
  else unquoteLoop 0 (s.drop 1).dropLast

/-- The bytes of a value, each with the code that the scanner of
`decodeState` returns for it and the depth of nesting after it. -/
def scanCodes (s : scanner) : GoString → List (Nat × ScanCode × Nat)
  | [] => []
  | c :: cs =>
    (c, (s.stepByte c).1, (s.stepByte c).2.parseState.length) ::
      scanCodes (s.stepByte c).2 cs

/-- The loop of `decodeState.object` over a top-level object: the literal
of each key and the bytes of its value, in order, spaces between tokens left
out.  `inValue` tells whether the colon of the current member has been
passed. -/
def objectMembersLoop :
    List (Nat × ScanCode × Nat) → Bool → GoString → GoString → List (GoString × GoString)
  | [], _, _, _ => []
  | (c, code, depth) :: rest, inValue, key, val =>
    if code = ScanCode.scanSkipSpace then objectMembersLoop rest inValue key val
    else if depth = 0 then (if key = [] then [] else [(key, val)])
    else if depth = 1 ∧ code = ScanCode.scanBeginObject then
      objectMembersLoop rest false [] []
    else if depth = 1 ∧ code = ScanCode.scanObjectKey then objectMembersLoop rest true key []
    else if depth = 1 ∧ code = ScanCode.scanObjectValue then
      (key, val) :: objectMembersLoop rest false [] []
    else if inValue then objectMembersLoop rest true key (val ++ [c])
    else objectMembersLoop rest false (key ++ [c]) val

/-- The members of a top-level object. -/
def objectMembers (data : GoString) : List (GoString × GoString) :=
  objectMembersLoop (scanCodes scanner.reset data) false [] []

/-- The ASCII letter in upper case, as `foldName` writes it. -/
def foldByte (c : Nat) : Nat := if 97 ≤ c ∧ c ≤ 122 then c - 32 else c

/-- The lookup of the field for a key in `decodeState.object`: the key is
the name, or equals it when the case of letters is ignored.  The names
`text` and `code` hold no letter with a case variant outside ASCII. -/
def fieldMatches (name key : GoString) : Bool :=
  key == name || key.map foldByte == name.map foldByte

/-- What `Decoder.Decode` leaves for a struct with one string field: a
panic, an error, or the value of the field. -/
inductive Decoded where
  | panic : Decoded
  | error : Decoded
  | ok (value : GoString) : Decoded
  deriving DecidableEq

/-- The part of `decodeState.object` that stores the members into a struct
whose only field is a string with the JSON name `name`: a string is stored,
`null` is passed over, any other value is saved as an
`UnmarshalTypeError`; members with another key are skipped. -/
def objectStore (name : GoString) : List (GoString × GoString) → GoString → Bool → Decoded
  | [], value, savedError => if savedError then Decoded.error else Decoded.ok value
  | (keyLiteral, item) :: rest, value, savedError =>
    match unquoteBytes keyLiteral with
    | none => Decoded.panic
    | some key =>
      if fieldMatches name key then
        if item.head? = some 34 then
          match unquoteBytes item with
          | none => Decoded.panic
          | some s => objectStore name rest s savedError
        else if item.head? = some 110 then objectStore name rest value savedError
        else objectStore name rest value true
      else objectStore name rest value savedError

/-- The call `json.NewDecoder(r.Body).Decode(&req)` for a request struct
whose only field is a string with the JSON name `name`: the first value of
the body is read, the bytes after it are left unread, and the value is
stored: an object member by member, `null` without effect; any other value
is an `UnmarshalTypeError`. -/
def decodeRequest (name body : GoString) : Decoded :=
  match readValue body with
  | none => Decoded.error
  | some n =>
    if ((body.take n).dropWhile isSpace).head? = some 123 then
      objectStore name (objectMembers (body.take n)) [] false
    else if ((body.take n).dropWhile isSpace).head? = some 110 then Decoded.ok []
    else Decoded.error

/-! ## The handlers that start a task -/

/-- The verb `%d` of `fmt.Sprintf` for an integer. -/
def fmtInt (n : Int) : GoString :=
  if n < 0 then 45 :: (Nat.toDigits 10 n.natAbs).map Char.toNat
  else (Nat.toDigits 10 n.natAbs).map Char.toNat

/-- What `handleSendText` and `handleReceive` write: an error, or status
200 with the id of the new transfer. -/
inductive PostResponse where
  | httpError (msg : String) (code : Nat) : PostResponse
  | accepted (id : GoString) : PostResponse
  deriving DecidableEq

/-- A goroutine started by a handler, with the values it closes over. -/
inductive SpawnedTask where
  | sendText (transfer : TransferStatus) (text : GoString) : SpawnedTask
  | receive (transferID : GoString) (transfer : TransferStatus) (code : GoString) : SpawnedTask
  deriving DecidableEq

/-- The outcome of `handleSendText` or `handleReceive`: the response, the
state of the server when the handler returns, the messages sent to
subscribers and the goroutine started, if any. -/
structure PostEffect where
  response : PostResponse
  state : ServerState
  deliveries : List (Conn × TransferStatus)
  spawned : Option SpawnedTask

/-- The record that `handleReceive` registers before starting its task. -/
def newReceiveTransfer (id code : GoString) (createdAt : Int) : TransferStatus :=
  { ID := id, Typ := str "receive", Status := str "receiving", Code := code, Filename := [],
    Transferred := 0, Total := 0, Error := [], TextContent := [], DownloadPath := [],
    CreatedAt := createdAt }

/-- The method `Server.handleSendText`; `body` holds the bytes of the
request body, `idNanos` and `createdAt` are the two readings of the clock.
The result `none` stands for a panic. -/
def ServerState.handleSendText (st : ServerState) (writeOk : Conn → Bool)
    (method body : GoString) (idNanos createdAt : Int) : Option PostEffect :=
  if method ≠ str "POST" then
    some ⟨PostResponse.httpError "Method not allowed" 405, st, [], none⟩
  else
    match decodeRequest (str "text") body with
    | Decoded.panic => none
    | Decoded.error => some ⟨PostResponse.httpError "Invalid request body" 400, st, [], none⟩
    | Decoded.ok text =>
      if text = [] then some ⟨PostResponse.httpError "Text is required" 400, st, [], none⟩
      else
        let transferID := str "send-" ++ fmtInt idNanos
        let transfer := newSendTransfer transferID [] 0 createdAt
        let published := st.setTransfer writeOk transfer
        some ⟨PostResponse.accepted transferID, published.1, published.2,
          some (SpawnedTask.sendText transfer text)⟩

/-- The method `Server.handleReceive`; `body` holds the bytes of the
request body.  The result `none` stands for a panic. -/
def ServerState.handleReceive (st : ServerState) (writeOk : Conn → Bool)
    (method body : GoString) (idNanos createdAt : Int) : Option PostEffect :=
  if method ≠ str "POST" then
    some ⟨PostResponse.httpError "Method not allowed" 405, st, [], none⟩
  else
    match decodeRequest (str "code") body with
    | Decoded.panic => none
    | Decoded.error => some ⟨PostResponse.httpError "Invalid request body" 400, st, [], none⟩
    | Decoded.ok code =>
      if code = [] then some ⟨PostResponse.httpError "Code is required" 400, st, [], none⟩
      else if !validateWormholeCode code then
        some ⟨PostResponse.httpError "Invalid wormhole code format" 400, st, [], none⟩
      else
        let transferID := str "recv-" ++ fmtInt idNanos
        let transfer := newReceiveTransfer transferID code createdAt
        let published := st.setTransfer writeOk transfer
        some ⟨PostResponse.accepted transferID, published.1, published.2,
          some (SpawnedTask.receive transferID transfer code)⟩

/-! ## The archive of a multi-part send -/

/-- The block `Determine zip filename` of `sendMultipleFiles`: `numFiles`
is `len(files)` and `pathsForm` the form value `paths` as the request
carries it.  A panic of `sanitizeFilename` gives `none`. -/
def zipName (numFiles : Nat) (pathsForm : GoString) : Option GoString :=
  if numFiles = 1 then
    if pathsForm ≠ [] then
      match stringsSplit pathsForm slash with
      | [] => some (str "files.zip")
      | part :: _ =>
        if part ≠ [] then (sanitizeFilename part).map (fun name => name ++ str ".zip")
        else some (str "files.zip")
    else some (str "files.zip")
  else some (str "files.zip")

/-- The loop `for j, part := range parts` of `sendMultipleFiles`: every
part is replaced by its sanitized form; a panic gives `none`. -/
def sanitizeParts : List GoString → Option (List GoString)
  | [] => some []
  | part :: parts =>
    match sanitizeFilename part with
    | none => none
    | some safe => (sanitizeParts parts).map (fun rest => safe :: rest)

/-- The block `Use provided path or just filename` of `sendMultipleFiles`
for the part of index `i`: `filePaths` is the decoded array `paths` and
`filename` the field `fileHeader.Filename`. -/
def entryPath (filePaths : List GoString) (i : Nat) (filename : GoString) : Option GoString :=
  match filePaths.get? i with
  | some path =>
    if path ≠ [] then
      (sanitizeParts (stringsSplit path slash)).map (fun parts => stringsJoin parts slash)
    else sanitizeFilename filename
  | none => sanitizeFilename filename

/-- The entry paths of all parts of a multi-part send, in order, the first
part having the index `i`. -/
def entryPaths (filePaths : List GoString) : Nat → List GoString → Option (List GoString)
  | _, [] => some []
  | i, filename :: filenames =>
    match entryPath filePaths i filename with
    | none => none
    | some entry => (entryPaths filePaths (i + 1) filenames).map (fun rest => entry :: rest)

/-! ## Vocabulary of the statements -/

/-- An ASCII decimal digit, `0` to `9`. -/
def isDigitByte (b : Nat) : Prop := 48 ≤ b ∧ b ≤ 57

/-- An ASCII letter of either case. -/
def isLetterByte (b : Nat) : Prop := (97 ≤ b ∧ b ≤ 122) ∨ (65 ≤ b ∧ b ≤ 90)

/-- A Unicode scalar value: a code point that is no surrogate. -/
def isScalar (n : Nat) : Prop := n ≤ 1114111 ∧ ¬ (55296 ≤ n ∧ n ≤ 57343)

/-- The transfer id that a download path carries: the text before its first
`/` (the whole path when it has none). -/
def downloadTransferID (path : GoString) : GoString :=
  match stringsIndex path slash with
  | none => path
  | some slashIdx => path.take slashIdx

/-- A record as the tests of `main_test.go` build them. -/
def exampleTransfer (id : GoString) : TransferStatus :=
  { ID := id, Typ := str "receive", Status := str "complete", Code := [], Filename := [],
    Transferred := 0, Total := 0, Error := [], TextContent := [], DownloadPath := [],
    CreatedAt := 0 }

/-- A server that holds one record under a well-formed id and one under the
id `send-old`, its storage root being `/tmp/wormhole-web`. -/
def exampleServer : Server :=
  { transfers := [(str "recv-123456789", exampleTransfer (str "recv-123456789")),
      (str "send-old", exampleTransfer (str "send-old"))],
    tempDir := str "/tmp/wormhole-web" }

instance : DecidablePred isDigitByte := fun b => inferInstanceAs (Decidable (48 ≤ b ∧ b ≤ 57))

instance : DecidablePred isLetterByte :=
  fun b => inferInstanceAs (Decidable ((97 ≤ b ∧ b ≤ 122) ∨ (65 ≤ b ∧ b ≤ 90)))

/-- A step of the status that the state machine allows: the status stays,
or moves from `sending` to `waiting` or `error`, from `waiting` to
`complete` or `error`, from `receiving` to `complete` or `error`. -/
def statusForward (a b : GoString) : Bool :=
  a == b ||
    (a == str "sending" && (b == str "waiting" || b == str "error")) ||
    (a == str "waiting" && (b == str "complete" || b == str "error")) ||
    (a == str "receiving" && (b == str "complete" || b == str "error"))

/-- Every status of the sequence follows the one before it by an allowed
step. -/
def forwardOnly : List GoString → Bool
  | [] => true
  | a :: rest =>
    match rest with
    | [] => true
    | b :: _ => statusForward a b && forwardOnly rest

/-- Nothing follows a status `error` in the sequence. -/
def errorIsLast : List GoString → Bool
  | [] => true
  | a :: rest => (a != str "error" || rest.isEmpty) && errorIsLast rest

/-- The records published for one transfer: all carry the id, their
statuses only move forward and none follows a status `error`. -/
def movesForward (id : GoString) (ts : List TransferStatus) : Prop :=
  forwardOnly (ts.map (fun t => t.Status)) = true ∧
    errorIsLast (ts.map (fun t => t.Status)) = true ∧ ∀ t ∈ ts, t.ID = id

/-- The last call of a sequence that concerns the id: `none` when no call
does, `some none` when it is a `deleteTransfer`, `some (some t)` when it is
a `setTransfer` of the record `t`. -/
def lastWrite (id : GoString) : List RegistryOp → Option (Option TransferStatus)
  | [] => none
  | RegistryOp.set t _ :: ops =>
    match lastWrite id ops with
    | some w => some w
    | none => if t.ID = id then some (some t) else none
  | RegistryOp.delete id1 :: ops =>
    match lastWrite id ops with
    | some w => some w
    | none => if id1 = id then some none else none

/-- The number of bytes that a sequence of `Read` calls has read. -/
def bytesRead (rs : List ReadResult) : Int := (rs.map (fun r => Int.ofNat r.n)).sum

/-- The sum of the byte counts of all calls so far, after each call of a
sequence, counted from `acc`. -/
def runningTotals (acc : Int) : List ReadResult → List Int
  | [] => []
  | r :: rs => (acc + Int.ofNat r.n) :: runningTotals (acc + Int.ofNat r.n) rs

/-- The connections subscribed to a transfer id, as `Range` visits them;
none when the id has no subscriber map. -/
def subscribersOf (st : ServerState) (id : GoString) : List Conn :=
  connRange ((st.subscribers.lookup id).getD [])

/-- A server with the connections 1 and 2 subscribed to `recv-1` and the
connection 3 subscribed to `send-2`. -/
def exampleState : ServerState :=
  { server := { transfers := [], tempDir := str "/tmp/wormhole-web" },
    subscribers := [(str "recv-1", [1, 2]), (str "send-2", [3])] }

/-- A single path element: not empty, without separator, and neither `.`
nor `..`. -/
def isPathSegment (x : GoString) : Prop := x ≠ [] ∧ slash ∉ x ∧ x ≠ [dot] ∧ x ≠ [dot, dot]

instance : DecidablePred isPathSegment :=
  fun x => inferInstanceAs (Decidable (x ≠ [] ∧ slash ∉ x ∧ x ≠ [dot] ∧ x ≠ [dot, dot]))

/-- The registry of `TestCleanupOldTransfers`: the record `send-old`
created at time 0 and the record `send-new` created two hours later. -/
def sweepState : ServerState :=
  { server :=
      { transfers :=
          [(str "send-old", { exampleTransfer (str "send-old") with CreatedAt := 0 }),
            (str "send-new",
              { exampleTransfer (str "send-new") with
                Status := str "waiting", CreatedAt := 7200000000000 })],
        tempDir := str "/tmp/wormhole-web-test" },
    subscribers := [] }

/-- The files of `TestCleanupOldTransfers`, with a directory for the newer
record as well. -/
def sweepFiles : FileSystem :=
  [str "/tmp/wormhole-web-test", str "/tmp/wormhole-web-test/send-old",
    str "/tmp/wormhole-web-test/send-old/test.txt", str "/tmp/wormhole-web-test/send-new",
    str "/tmp/wormhole-web-test/send-new/data.bin"]

/-- A registry in which the record `x/..`, created at time 0, is older than
one hour at time 7200000000001 and the record `send-9` is not. -/
def escapeState : ServerState :=
  { server :=
      { transfers :=
          [(str "x/..", { exampleTransfer (str "x/..") with CreatedAt := 0 }),
            (str "send-9", { exampleTransfer (str "send-9") with CreatedAt := 7200000000000 })],
        tempDir := str "/tmp/wormhole-web" },
    subscribers := [] }

/-- The storage root with the directory of the record `send-9` and a file
in it. -/
def escapeFiles : FileSystem :=
  [str "/tmp/wormhole-web", str "/tmp/wormhole-web/send-9",
    str "/tmp/wormhole-web/send-9/data.bin"]

/-! ## Agreement with the tables of main_test.go -/

/-- The rows of `TestSanitizeFilename` that do not depend on the separator
of a Windows target. -/
theorem sanitizeFilename_test_table :
    sanitizeFilename (str "document.pdf") = some (str "document.pdf") ∧
    sanitizeFilename (str "my document.pdf") = some (str "my document.pdf") ∧
    sanitizeFilename (str "../../../etc/passwd") = some (str "passwd") ∧
    sanitizeFilename (str "/etc/passwd") = some (str "passwd") ∧
    sanitizeFilename (str "file" ++ [0] ++ str "name.txt") = some (str "filename.txt") ∧
    sanitizeFilename (str "file" ++ [1, 2] ++ str "name.txt") = some (str "filename.txt") ∧
    sanitizeFilename (str "") = some (str "unnamed") ∧
    sanitizeFilename (str ".") = some (str "unnamed") ∧
    sanitizeFilename (str "..") = some (str "unnamed") ∧
    sanitizeFilename (str ".hidden") = some (str ".hidden") ∧
    sanitizeFilename (str "文档.pdf") = some (str "文档.pdf") := by
  refine ⟨by decide, by decide, by decide, by decide, by decide, by decide, by decide,
    by decide, by decide, by decide, by decide⟩

/-- The rows of `TestValidateWormholeCode`. -/
theorem validateWormholeCode_test_table :
    validateWormholeCode (str "7-guitarist-revenge") = true ∧
    validateWormholeCode (str "123-hello-world") = true ∧
    validateWormholeCode (str "1-foo-bar") = true ∧
    validateWormholeCode (str "") = false ∧
    validateWormholeCode (str "guitarist-revenge") = false ∧
    validateWormholeCode (str "7--revenge") = false ∧
    validateWormholeCode (str "7-guitarist-") = false ∧
    validateWormholeCode (str "7-guitarist-revenge-extra") = false ∧
    validateWormholeCode (str "7-guitar1st-revenge") = false ∧
    validateWormholeCode (str "7-guitarist-revenge!") = false ∧
    validateWormholeCode (str "7-guitarist revenge") = false ∧
    validateWormholeCode (str "7-GUITARIST-REVENGE") = true ∧
    validateWormholeCode (str "7-Guitar-Revenge") = true := by
  refine ⟨by decide, by decide, by decide, by decide, by decide, by decide, by decide,
    by decide, by decide, by decide, by decide, by decide, by decide⟩

/-- The rows of `TestValidateTransferID`. -/
theorem validateTransferID_test_table :
    validateTransferID (str "send-1234567890") = true ∧
    validateTransferID (str "recv-9876543210") = true ∧
    validateTransferID (str "") = false ∧
    validateTransferID (str "1234567890") = false ∧
    validateTransferID (str "upload-1234567890") = false ∧
    validateTransferID (str "send-") = false ∧
    validateTransferID (str "send-abc") = false ∧
    validateTransferID (str "send- 123") = false ∧
    validateTransferID (str "send-123/../../../etc/passwd") = false := by
  refine ⟨by decide, by decide, by decide, by decide, by decide, by decide, by decide,
    by decide, by decide⟩

/-- The handler tests on `handleStatus` and `handleDownload` with an empty
registry. -/
theorem handler_test_table :
    (Server.handleStatus ⟨[], str "/tmp/wormhole-web"⟩ (str "")).response =
      Response.httpError "ID is required" 400 ∧
    (Server.handleStatus ⟨[], str "/tmp/wormhole-web"⟩ (str "send-nonexistent")).response =
      Response.httpError "Transfer not found" 404 ∧
    (Server.handleDownload ⟨[], str "/tmp/wormhole-web"⟩ none (str "invalidpath")).map
      (fun o => o.response) = some (Response.httpError "Invalid path" 400) ∧
    (Server.handleDownload ⟨[], str "/tmp/wormhole-web"⟩ none (str "invalid-id/file.txt")).map
      (fun o => o.response) = some (Response.httpError "Invalid transfer ID" 400) ∧
    (Server.handleDownload ⟨[], str "/tmp/wormhole-web"⟩ none
      (str "recv-123456789/file.txt")).map
      (fun o => o.response) = some (Response.httpError "Transfer not found" 404) := by
  refine ⟨by decide, by decide, by decide, by decide, by decide⟩

/-! ## Lemmas on UTF-8 decoding -/

theorem decodeRune_ascii (s0 : Nat) (rest : GoString) (h : s0 < 128) :
    decodeRune (s0 :: rest) = ((s0 : Int), 1) := by
  simp [decodeRune, h]

theorem firstInfo_spec (s0 sz lo hi : Nat) (h : firstInfo s0 = some (sz, lo, hi)) :
    128 ≤ lo ∧ hi ≤ 191 ∧
    ((sz = 2 ∧ 194 ≤ s0 ∧ s0 ≤ 223) ∨
      (sz = 3 ∧ ((s0 = 224 ∧ lo = 160) ∨ (225 ≤ s0 ∧ s0 ≤ 239))) ∨
      (sz = 4 ∧ ((s0 = 240 ∧ lo = 144) ∨ (241 ≤ s0 ∧ s0 ≤ 244)))) := by
  unfold firstInfo at h
  split_ifs at h <;> simp only [Option.some.injEq, Prod.mk.injEq] at h <;> omega

theorem decodeRune_non_ascii (s0 : Nat) (rest : GoString) (h : 128 ≤ s0) :
    (128 : Int) ≤ (decodeRune (s0 :: rest)).1 := by
  have h0 : ¬ s0 < 128 := by omega
  simp only [decodeRune, if_neg h0]
  cases hf : firstInfo s0 with
  | none => simp [RuneError]
  | some t =>
    obtain ⟨sz, lo, hi⟩ := t
    have hs := firstInfo_spec s0 sz lo hi hf
    simp only
    repeat' split
    all_goals simp only [RuneError]
    all_goals omega

/-- Runes of a string whose bytes are all ASCII: the bytes themselves. -/
theorem runesLoop_of_ascii (fuel : Nat) (s : GoString) (hf : s.length ≤ fuel)
    (h : ∀ b ∈ s, b < 128) : runesLoop fuel s = s.map Int.ofNat := by
  induction fuel generalizing s with
  | zero =>
    have : s = [] := List.length_eq_zero.mp (by omega)
    subst this; rfl
  | succ n ih =>
    cases s with
    | nil => rfl
    | cons s0 rest =>
      have h0 : s0 < 128 := h s0 (by simp)
      simp only [runesLoop, decodeRune_ascii s0 rest h0, List.map_cons, Nat.sub_self,
        List.drop_zero]
      rw [ih rest (by simpa using hf) (fun b hb => h b (by simp [hb]))]
      rfl

/-- A string all of whose runes are ASCII has only ASCII bytes. -/
theorem ascii_of_runesLoop (fuel : Nat) (s : GoString) (hf : s.length ≤ fuel)
    (h : ∀ r ∈ runesLoop fuel s, r < 128) : ∀ b ∈ s, b < 128 := by
  induction fuel generalizing s with
  | zero =>
    have : s = [] := List.length_eq_zero.mp (by omega)
    subst this; simp
  | succ n ih =>
    cases s with
    | nil => simp
    | cons s0 rest =>
      have h0 : s0 < 128 := by
        by_contra hc
        have h1 := decodeRune_non_ascii s0 rest (by omega)
        have h2 : (decodeRune (s0 :: rest)).1 < (128 : Int) :=
          h (decodeRune (s0 :: rest)).1 (by simp [runesLoop])
        exact absurd h2 (not_lt.mpr h1)
      simp only [runesLoop, decodeRune_ascii s0 rest h0, Nat.sub_self, List.drop_zero,
        List.mem_cons, forall_eq_or_imp] at h
      intro b hb
      rcases List.mem_cons.mp hb with hb | hb
      · exact hb ▸ h0
      · exact ih rest (by simpa using hf) h.2 b hb

theorem runes_of_ascii (s : GoString) (h : ∀ b ∈ s, b < 128) :
    runes s = s.map Int.ofNat :=
  runesLoop_of_ascii _ s (le_refl _) h

theorem ascii_of_runes (s : GoString) (h : ∀ r ∈ runes s, r < 128) : ∀ b ∈ s, b < 128 :=
  ascii_of_runesLoop _ s (le_refl _) h

/-- Every round of the rune loops consumes at least one byte. -/
theorem decodeRune_width_pos (s0 : Nat) (rest : GoString) :
    1 ≤ (decodeRune (s0 :: rest)).2 := by
  simp only [decodeRune]
  repeat' split
  all_goals simp

/-- The fuel `len(s)` is enough for `mapRunes`: more fuel changes nothing. -/
theorem mapRunes_fuel (mapping : Rune → Rune) (fuel : Nat) (s : GoString)
    (h : s.length ≤ fuel) : mapRunes mapping fuel s = mapRunes mapping s.length s := by
  induction fuel using Nat.strong_induction_on generalizing s with
  | _ fuel ih =>
    cases s with
    | nil => cases fuel <;> rfl
    | cons s0 rest =>
      obtain ⟨n, rfl⟩ : ∃ n, fuel = n + 1 := ⟨fuel - 1, by simp at h; omega⟩
      have hl : (rest.drop ((decodeRune (s0 :: rest)).2 - 1)).length ≤ rest.length := by
        simp
      simp only [mapRunes, List.length_cons]
      rw [ih n (by omega) _ (by simp at h; omega),
        ih rest.length (by simp at h; omega) _ hl]

/-- The fuel `len(s)` is enough for `runesLoop`. -/
theorem runesLoop_fuel (fuel : Nat) (s : GoString) (h : s.length ≤ fuel) :
    runesLoop fuel s = runesLoop s.length s := by
  induction fuel using Nat.strong_induction_on generalizing s with
  | _ fuel ih =>
    cases s with
    | nil => cases fuel <;> rfl
    | cons s0 rest =>
      obtain ⟨n, rfl⟩ : ∃ n, fuel = n + 1 := ⟨fuel - 1, by simp at h; omega⟩
      have hl : (rest.drop ((decodeRune (s0 :: rest)).2 - 1)).length ≤ rest.length := by
        simp
      simp only [runesLoop, List.length_cons]
      rw [ih n (by omega) _ (by simp at h; omega),
        ih rest.length (by simp at h; omega) _ hl]

/-- The loop of `strings.Map` one rune further: the string after the first
rune is mapped with its own length as fuel. -/
theorem stringsMap_cons (mapping : Rune → Rune) (s0 : Nat) (rest : GoString) :
    stringsMap mapping (s0 :: rest) =
      (if 0 ≤ mapping (decodeRune (s0 :: rest)).1 then
          encodeRune (mapping (decodeRune (s0 :: rest)).1) else []) ++
        stringsMap mapping (rest.drop ((decodeRune (s0 :: rest)).2 - 1)) := by
  simp only [stringsMap, List.length_cons, mapRunes]
  rw [mapRunes_fuel mapping rest.length _ (by simp)]

/-! ## Decoding and encoding agree -/

theorem encodeRune_natCast (n : Nat) :
    encodeRune (n : Int) =
      if n ≤ 127 then [n]
      else if n ≤ 2047 then [192 + n / 64, 128 + n % 64]
      else if n > 1114111 ∨ (55296 ≤ n ∧ n ≤ 57343) then [239, 191, 189]
      else if n ≤ 65535 then [224 + n / 4096, 128 + n / 64 % 64, 128 + n % 64]
      else [240 + n / 262144, 128 + n / 4096 % 64, 128 + n / 64 % 64, 128 + n % 64] := by
  have h : ¬ ((n : Int) < 0) := by omega
  simp only [encodeRune, if_neg h, Int.toNat_ofNat]

theorem encodeRune_two (s0 s1 : Nat) (h0 : 194 ≤ s0 ∧ s0 ≤ 223) (h1 : 128 ≤ s1 ∧ s1 ≤ 191) :
    encodeRune ((s0 % 32 * 64 + s1 % 64 : Nat) : Int) = [s0, s1] := by
  obtain ⟨a, rfl⟩ : ∃ a, s0 = 192 + a := ⟨s0 - 192, by omega⟩
  obtain ⟨b, rfl⟩ : ∃ b, s1 = 128 + b := ⟨s1 - 128, by omega⟩
  have ha : (192 + a) % 32 = a := by omega
  have hb : (128 + b) % 64 = b := by omega
  rw [ha, hb, encodeRune_natCast, if_neg (by omega), if_pos (by omega)]
  have e1 : (a * 64 + b) / 64 = a := by omega
  have e2 : (a * 64 + b) % 64 = b := by omega
  rw [e1, e2]

theorem encodeRune_three (s0 s1 s2 : Nat) (h0 : 224 ≤ s0 ∧ s0 ≤ 239)
    (h1 : 128 ≤ s1 ∧ s1 ≤ 191) (h2 : 128 ≤ s2 ∧ s2 ≤ 191)
    (hlo : s0 = 224 → 160 ≤ s1) (hhi : s0 = 237 → s1 ≤ 159) :
    encodeRune ((s0 % 16 * 4096 + s1 % 64 * 64 + s2 % 64 : Nat) : Int) = [s0, s1, s2] := by
  obtain ⟨a, rfl⟩ : ∃ a, s0 = 224 + a := ⟨s0 - 224, by omega⟩
  obtain ⟨b, rfl⟩ : ∃ b, s1 = 128 + b := ⟨s1 - 128, by omega⟩
  obtain ⟨d, rfl⟩ : ∃ d, s2 = 128 + d := ⟨s2 - 128, by omega⟩
  have ha : (224 + a) % 16 = a := by omega
  have hb : (128 + b) % 64 = b := by omega
  have hd : (128 + d) % 64 = d := by omega
  rw [ha, hb, hd, encodeRune_natCast, if_neg (by omega), if_neg (by omega), if_neg (by omega),
    if_pos (by omega)]
  have e1 : (a * 4096 + b * 64 + d) / 4096 = a := by omega
  have e2 : (a * 4096 + b * 64 + d) / 64 % 64 = b := by omega
  have e3 : (a * 4096 + b * 64 + d) % 64 = d := by omega
  rw [e1, e2, e3]

theorem encodeRune_four (s0 s1 s2 s3 : Nat) (h0 : 240 ≤ s0 ∧ s0 ≤ 244)
    (h1 : 128 ≤ s1 ∧ s1 ≤ 191) (h2 : 128 ≤ s2 ∧ s2 ≤ 191) (h3 : 128 ≤ s3 ∧ s3 ≤ 191)
    (hlo : s0 = 240 → 144 ≤ s1) (hhi : s0 = 244 → s1 ≤ 143) :
    encodeRune ((s0 % 8 * 262144 + s1 % 64 * 4096 + s2 % 64 * 64 + s3 % 64 : Nat) : Int) =
      [s0, s1, s2, s3] := by
  obtain ⟨a, rfl⟩ : ∃ a, s0 = 240 + a := ⟨s0 - 240, by omega⟩
  obtain ⟨b, rfl⟩ : ∃ b, s1 = 128 + b := ⟨s1 - 128, by omega⟩
  obtain ⟨d, rfl⟩ : ∃ d, s2 = 128 + d := ⟨s2 - 128, by omega⟩
  obtain ⟨e, rfl⟩ : ∃ e, s3 = 128 + e := ⟨s3 - 128, by omega⟩
  have ha : (240 + a) % 8 = a := by omega
  have hb : (128 + b) % 64 = b := by omega
  have hd : (128 + d) % 64 = d := by omega
  have he : (128 + e) % 64 = e := by omega
  rw [ha, hb, hd, he, encodeRune_natCast, if_neg (by omega), if_neg (by omega),
    if_neg (by omega), if_neg (by omega)]
  have e1 : (a * 262144 + b * 4096 + d * 64 + e) / 262144 = a := by omega
  have e2 : (a * 262144 + b * 4096 + d * 64 + e) / 4096 % 64 = b := by omega
  have e3 : (a * 262144 + b * 4096 + d * 64 + e) / 64 % 64 = d := by omega
  have e4 : (a * 262144 + b * 4096 + d * 64 + e) % 64 = e := by omega
  rw [e1, e2, e3, e4]

theorem firstInfo_cases (s0 sz lo hi : Nat) (h : firstInfo s0 = some (sz, lo, hi)) :
    (sz = 2 ∨ sz = 3 ∨ sz = 4) ∧ 128 ≤ lo ∧ hi ≤ 191 ∧
    (sz = 2 → 194 ≤ s0 ∧ s0 ≤ 223) ∧
    (sz = 3 → 224 ≤ s0 ∧ s0 ≤ 239 ∧ (s0 = 224 → lo = 160) ∧ (s0 = 237 → hi = 159)) ∧
    (sz = 4 → 240 ≤ s0 ∧ s0 ≤ 244 ∧ (s0 = 240 → lo = 144) ∧ (s0 = 244 → hi = 143)) := by
  unfold firstInfo at h
  split_ifs at h <;> simp only [Option.some.injEq, Prod.mk.injEq] at h <;> omega

/-- A rune that `decodeRune` reads from a valid encoding is written back by
`encodeRune` as the very bytes it was read from. -/
theorem encodeRune_decodeRune (s0 : Nat) (rest : GoString) (c : Int) (w : Nat)
    (h : decodeRune (s0 :: rest) = (c, w)) (hv : ¬ (c = RuneError ∧ w = 1)) :
    encodeRune c = (s0 :: rest).take w := by
  have hbad : ∀ {P : Prop}, (RuneError, 1) = (c, w) → P := fun e => by
    simp only [Prod.mk.injEq] at e
    exact absurd ⟨e.1.symm, e.2.symm⟩ hv
  simp only [decodeRune] at h
  by_cases h0 : s0 < 128
  · rw [if_pos h0] at h
    simp only [Prod.mk.injEq] at h
    obtain ⟨rfl, rfl⟩ := h
    rw [encodeRune_natCast, if_pos (by omega)]
    rfl
  · rw [if_neg h0] at h
    cases hf : firstInfo s0 with
    | none =>
      rw [hf] at h
      exact hbad h
    | some t =>
      obtain ⟨sz, lo, hi⟩ := t
      obtain ⟨hsz, hlo, hhi, hs2, hs3, hs4⟩ := firstInfo_cases s0 sz lo hi hf
      rw [hf] at h
      simp only at h
      by_cases hl : rest.length + 1 < sz
      · rw [if_pos hl] at h; exact hbad h
      · rw [if_neg hl] at h
        rcases rest with _ | ⟨s1, rest1⟩
        · exact hbad h
        · simp only at h
          by_cases hr1 : s1 < lo ∨ hi < s1
          · rw [if_pos hr1] at h; exact hbad h
          · rw [if_neg hr1] at h
            by_cases hw2 : sz ≤ 2
            · rw [if_pos hw2] at h
              simp only [Prod.mk.injEq] at h
              obtain ⟨rfl, rfl⟩ := h
              have := hs2 (by omega)
              rw [encodeRune_two s0 s1 this (by omega)]
              rfl
            · rw [if_neg hw2] at h
              rcases rest1 with _ | ⟨s2, rest2⟩
              · exact hbad h
              · simp only at h
                by_cases hr2 : (!isCont s2) = true
                · rw [if_pos hr2] at h; exact hbad h
                · rw [if_neg hr2] at h
                  have hc2 : 128 ≤ s2 ∧ s2 ≤ 191 := by
                    simpa [isCont] using hr2
                  by_cases hw3 : sz ≤ 3
                  · rw [if_pos hw3] at h
                    simp only [Prod.mk.injEq] at h
                    obtain ⟨rfl, rfl⟩ := h
                    have h3 := hs3 (by omega)
                    rw [encodeRune_three s0 s1 s2 ⟨h3.1, h3.2.1⟩ (by omega) hc2
                      (fun e => by have := h3.2.2.1 e; omega)
                      (fun e => by have := h3.2.2.2 e; omega)]
                    rfl
                  · rw [if_neg hw3] at h
                    rcases rest2 with _ | ⟨s3, rest3⟩
                    · exact hbad h
                    · simp only at h
                      by_cases hr3 : (!isCont s3) = true
                      · rw [if_pos hr3] at h; exact hbad h
                      · rw [if_neg hr3] at h
                        have hc3 : 128 ≤ s3 ∧ s3 ≤ 191 := by
                          simpa [isCont] using hr3
                        simp only [Prod.mk.injEq] at h
                        obtain ⟨rfl, rfl⟩ := h
                        have h4 := hs4 (by omega)
                        rw [encodeRune_four s0 s1 s2 s3 ⟨h4.1, h4.2.1⟩ (by omega) hc2 hc3
                          (fun e => by have := h4.2.2.1 e; omega)
                          (fun e => by have := h4.2.2.2 e; omega)]
                        rfl

/-- Every rune that `decodeRune` returns is a scalar value. -/
theorem decodeRune_scalar (s : GoString) :
    ∃ n : Nat, (decodeRune s).1 = (n : Int) ∧ isScalar n := by
  have herr : ∃ n : Nat, RuneError = (n : Int) ∧ isScalar n :=
    ⟨65533, rfl, by unfold isScalar; omega⟩
  rcases s with _ | ⟨s0, rest⟩
  · exact herr
  · simp only [decodeRune]
    by_cases h0 : s0 < 128
    · rw [if_pos h0]; exact ⟨s0, rfl, by unfold isScalar; omega⟩
    · rw [if_neg h0]
      cases hf : firstInfo s0 with
      | none => exact herr
      | some t =>
        obtain ⟨sz, lo, hi⟩ := t
        obtain ⟨hsz, hlo, hhi, hs2, hs3, hs4⟩ := firstInfo_cases s0 sz lo hi hf
        simp only
        by_cases hl : rest.length + 1 < sz
        · rw [if_pos hl]; exact herr
        · rw [if_neg hl]
          rcases rest with _ | ⟨s1, rest1⟩
          · exact herr
          · simp only
            by_cases hr1 : s1 < lo ∨ hi < s1
            · rw [if_pos hr1]; exact herr
            · rw [if_neg hr1]
              by_cases hw2 : sz ≤ 2
              · rw [if_pos hw2]
                have := hs2 (by omega)
                exact ⟨_, rfl, by unfold isScalar; omega⟩
              · rw [if_neg hw2]
                rcases rest1 with _ | ⟨s2, rest2⟩
                · exact herr
                · simp only
                  by_cases hr2 : (!isCont s2) = true
                  · rw [if_pos hr2]; exact herr
                  · rw [if_neg hr2]
                    have hc2 : 128 ≤ s2 ∧ s2 ≤ 191 := by simpa [isCont] using hr2
                    by_cases hw3 : sz ≤ 3
                    · rw [if_pos hw3]
                      have h3 := hs3 (by omega)
                      refine ⟨_, rfl, ?_⟩
                      have e1 := h3.2.2.2
                      unfold isScalar
                      by_cases e : s0 = 237
                      · have := e1 e; omega
                      · omega
                    · rw [if_neg hw3]
                      rcases rest2 with _ | ⟨s3, rest3⟩
                      · exact herr
                      · simp only
                        by_cases hr3 : (!isCont s3) = true
                        · rw [if_pos hr3]; exact herr
                        · rw [if_neg hr3]
                          have hc3 : 128 ≤ s3 ∧ s3 ≤ 191 := by simpa [isCont] using hr3
                          have h4 := hs4 (by omega)
                          refine ⟨_, rfl, ?_⟩
                          have e1 := h4.2.2.2
                          unfold isScalar
                          by_cases e : s0 = 244
                          · have := e1 e; omega
                          · omega

theorem firstInfo_two (s0 : Nat) (h : 194 ≤ s0 ∧ s0 ≤ 223) :
    firstInfo s0 = some (2, 128, 191) := by
  unfold firstInfo
  rw [if_pos h]

theorem firstInfo_three (s0 : Nat) (h : 224 ≤ s0 ∧ s0 ≤ 239) :
    firstInfo s0 =
      some (3, if s0 = 224 then 160 else 128, if s0 = 237 then 159 else 191) := by
  unfold firstInfo
  split_ifs <;> first | rfl | omega

theorem firstInfo_four (s0 : Nat) (h : 240 ≤ s0 ∧ s0 ≤ 244) :
    firstInfo s0 =
      some (4, if s0 = 240 then 144 else 128, if s0 = 244 then 143 else 191) := by
  unfold firstInfo
  split_ifs <;> first | rfl | omega

theorem decodeRune_two (s0 s1 : Nat) (t : GoString) (h0 : 194 ≤ s0 ∧ s0 ≤ 223)
    (h1 : 128 ≤ s1 ∧ s1 ≤ 191) :
    decodeRune (s0 :: s1 :: t) = (((s0 % 32 * 64 + s1 % 64 : Nat) : Int), 2) := by
  have e0 : ¬ s0 < 128 := by omega
  have e1 : ¬ ((s1 :: t).length + 1 < 2) := by simp
  have e2 : ¬ (s1 < 128 ∨ 191 < s1) := by omega
  simp only [decodeRune, if_neg e0, firstInfo_two s0 h0, if_neg e1, if_neg e2]
  simp

theorem decodeRune_three (s0 s1 s2 : Nat) (t : GoString) (h0 : 224 ≤ s0 ∧ s0 ≤ 239)
    (h1 : 128 ≤ s1 ∧ s1 ≤ 191) (h2 : 128 ≤ s2 ∧ s2 ≤ 191)
    (hlo : s0 = 224 → 160 ≤ s1) (hhi : s0 = 237 → s1 ≤ 159) :
    decodeRune (s0 :: s1 :: s2 :: t) =
      (((s0 % 16 * 4096 + s1 % 64 * 64 + s2 % 64 : Nat) : Int), 3) := by
  have e0 : ¬ s0 < 128 := by omega
  have e1 : ¬ ((s1 :: s2 :: t).length + 1 < 3) := by simp
  have e2 : ¬ (s1 < (if s0 = 224 then 160 else 128) ∨
      (if s0 = 237 then 159 else 191) < s1) := by
    split_ifs <;> omega
  have e3 : ¬ ((!isCont s2) = true) := by simp [isCont, h2]
  simp only [decodeRune, if_neg e0, firstInfo_three s0 h0, if_neg e1, if_neg e2, if_neg e3]
  simp

theorem decodeRune_four (s0 s1 s2 s3 : Nat) (t : GoString) (h0 : 240 ≤ s0 ∧ s0 ≤ 244)
    (h1 : 128 ≤ s1 ∧ s1 ≤ 191) (h2 : 128 ≤ s2 ∧ s2 ≤ 191) (h3 : 128 ≤ s3 ∧ s3 ≤ 191)
    (hlo : s0 = 240 → 144 ≤ s1) (hhi : s0 = 244 → s1 ≤ 143) :
    decodeRune (s0 :: s1 :: s2 :: s3 :: t) =
      (((s0 % 8 * 262144 + s1 % 64 * 4096 + s2 % 64 * 64 + s3 % 64 : Nat) : Int), 4) := by
  have e0 : ¬ s0 < 128 := by omega
  have e1 : ¬ ((s1 :: s2 :: s3 :: t).length + 1 < 4) := by simp
  have e2 : ¬ (s1 < (if s0 = 240 then 144 else 128) ∨
      (if s0 = 244 then 143 else 191) < s1) := by
    split_ifs <;> omega
  have e3 : ¬ ((!isCont s2) = true) := by simp [isCont, h2]
  have e4 : ¬ ((!isCont s3) = true) := by simp [isCont, h3]
  simp only [decodeRune, if_neg e0, firstInfo_four s0 h0, if_neg e1, if_neg e2, if_neg e3,
    if_neg e4]
  simp

/-- The encoding of a scalar value, followed by any bytes, is read back as
that value, over exactly the bytes of the encoding. -/
theorem decodeRune_encodeRune (n : Nat) (t : GoString) (hn : isScalar n) :
    decodeRune (encodeRune (n : Int) ++ t) = ((n : Int), (encodeRune (n : Int)).length) := by
  unfold isScalar at hn
  rw [encodeRune_natCast]
  by_cases c1 : n ≤ 127
  · rw [if_pos c1]
    exact decodeRune_ascii n t (by omega)
  · rw [if_neg c1]
    by_cases c2 : n ≤ 2047
    · rw [if_pos c2]
      have hd := decodeRune_two (192 + n / 64) (128 + n % 64) t (by omega) (by omega)
      simp only [List.cons_append, List.nil_append, List.length_cons, List.length_nil]
      rw [hd]
      have : (192 + n / 64) % 32 * 64 + (128 + n % 64) % 64 = n := by omega
      rw [this]
    · rw [if_neg c2, if_neg (by omega)]
      by_cases c3 : n ≤ 65535
      · rw [if_pos c3]
        have hd := decodeRune_three (224 + n / 4096) (128 + n / 64 % 64) (128 + n % 64) t
          (by omega) (by omega) (by omega) (by omega) (by omega)
        simp only [List.cons_append, List.nil_append, List.length_cons, List.length_nil]
        rw [hd]
        have : (224 + n / 4096) % 16 * 4096 + (128 + n / 64 % 64) % 64 * 64 +
            (128 + n % 64) % 64 = n := by omega
        rw [this]
      · rw [if_neg c3]
        have hd := decodeRune_four (240 + n / 262144) (128 + n / 4096 % 64)
          (128 + n / 64 % 64) (128 + n % 64) t
          (by omega) (by omega) (by omega) (by omega) (by omega) (by omega)
        simp only [List.cons_append, List.nil_append, List.length_cons, List.length_nil]
        rw [hd]
        have : (240 + n / 262144) % 8 * 262144 + (128 + n / 4096 % 64) % 64 * 4096 +
            (128 + n / 64 % 64) % 64 * 64 + (128 + n % 64) % 64 = n := by omega
        rw [this]

/-- A character that `strings.Map` keeps is copied byte for byte: this is
the fast path of the Go loop, which leaves unchanged runes in place. -/
theorem stringsMap_cons_kept (s0 : Nat) (rest : GoString)
    (hv : ¬ ((decodeRune (s0 :: rest)).1 = RuneError ∧ (decodeRune (s0 :: rest)).2 = 1))
    (hk : ¬ ((decodeRune (s0 :: rest)).1 < 32 ∨ (decodeRune (s0 :: rest)).1 = 127)) :
    stringsMap dropControl (s0 :: rest) =
      (s0 :: rest).take (decodeRune (s0 :: rest)).2 ++
        stringsMap dropControl ((s0 :: rest).drop (decodeRune (s0 :: rest)).2) := by
  have hw := decodeRune_width_pos s0 rest
  have hd : dropControl (decodeRune (s0 :: rest)).1 = (decodeRune (s0 :: rest)).1 := by
    simp only [dropControl, if_neg hk]
  have h0 : (0 : Int) ≤ (decodeRune (s0 :: rest)).1 := by
    by_contra hc
    exact hk (Or.inl (lt_trans (not_le.mp hc) (by decide)))
  have he := encodeRune_decodeRune s0 rest (decodeRune (s0 :: rest)).1
    (decodeRune (s0 :: rest)).2 rfl hv
  rw [stringsMap_cons, hd, if_pos h0, he]
  obtain ⟨k, hk1⟩ : ∃ k, (decodeRune (s0 :: rest)).2 = k + 1 :=
    ⟨(decodeRune (s0 :: rest)).2 - 1, by omega⟩
  rw [hk1]
  simp

theorem encodeRune_ne_nil (n : Nat) : encodeRune (n : Int) ≠ [] := by
  rw [encodeRune_natCast]
  split_ifs <;> simp

/-- Mapping the encoding of a kept scalar value followed by `t`: the
encoding stays and the mapping goes on with `t`. -/
theorem stringsMap_encodeRune_append (n : Nat) (t : GoString) (hn : isScalar n)
    (hk : ¬ ((n : Int) < 32 ∨ (n : Int) = 127)) :
    stringsMap dropControl (encodeRune (n : Int) ++ t) =
      encodeRune (n : Int) ++ stringsMap dropControl t := by
  have hd := decodeRune_encodeRune n t hn
  obtain ⟨e0, er, he⟩ : ∃ e0 er, encodeRune (n : Int) = e0 :: er := by
    cases h : encodeRune (n : Int) with
    | nil => exact absurd h (encodeRune_ne_nil n)
    | cons a l => exact ⟨a, l, rfl⟩
  rw [he] at hd ⊢
  simp only [List.cons_append] at hd ⊢
  rw [stringsMap_cons, hd]
  simp only [dropControl, if_neg hk]
  rw [if_pos (Int.natCast_nonneg n), he]
  simp

/-- Mapping twice with `dropControl` gives what mapping once gives. -/
theorem stringsMap_mapRunes (fuel : Nat) (s : GoString) :
    stringsMap dropControl (mapRunes dropControl fuel s) = mapRunes dropControl fuel s := by
  induction fuel generalizing s with
  | zero => rfl
  | succ f ih =>
    cases s with
    | nil => rfl
    | cons s0 rest =>
      simp only [mapRunes]
      obtain ⟨n, hn, hs⟩ := decodeRune_scalar (s0 :: rest)
      rw [hn]
      by_cases hk : (n : Int) < 32 ∨ (n : Int) = 127
      · simp only [dropControl, if_pos hk]
        rw [if_neg (by decide)]
        simpa using ih _
      · simp only [dropControl, if_neg hk]
        rw [if_pos (Int.natCast_nonneg n), stringsMap_encodeRune_append n _ hs hk, ih]

theorem stringsMap_idem (s : GoString) :
    stringsMap dropControl (stringsMap dropControl s) = stringsMap dropControl s :=
  stringsMap_mapRunes _ s

theorem encodeRune_slash (n : Nat) (h : slash ∈ encodeRune (n : Int)) : n = slash := by
  rw [encodeRune_natCast] at h
  unfold slash at h ⊢
  split_ifs at h <;> simp at h <;> omega

/-- The mapping brings in no separator. -/
theorem mapRunes_slash (fuel : Nat) (s : GoString)
    (h : slash ∈ mapRunes dropControl fuel s) : slash ∈ s := by
  induction fuel generalizing s with
  | zero => simp [mapRunes] at h
  | succ f ih =>
    cases s with
    | nil => simp [mapRunes] at h
    | cons s0 rest =>
      simp only [mapRunes, List.mem_append] at h
      rcases h with h | h
      · obtain ⟨n, hn, -⟩ := decodeRune_scalar (s0 :: rest)
        rw [hn] at h
        by_cases hk : (n : Int) < 32 ∨ (n : Int) = 127
        · simp only [dropControl, if_pos hk] at h
          rw [if_neg (by decide)] at h
          simp at h
        · simp only [dropControl, if_neg hk] at h
          rw [if_pos (Int.natCast_nonneg n)] at h
          have h47 := encodeRune_slash n h
          by_cases h0 : s0 < 128
          · rw [decodeRune_ascii s0 rest h0] at hn
            simp only at hn
            have hn1 : (s0 : Int) = (n : Int) := hn
            have hn2 : s0 = n := by exact_mod_cast hn1
            rw [hn2, h47]; simp
          · have := decodeRune_non_ascii s0 rest (by omega)
            rw [hn] at this
            unfold slash at h47
            omega
      · exact List.mem_cons_of_mem _ (List.mem_of_mem_drop (ih _ h))

/-! ## Lemmas on the matcher -/

theorem matchK_lit (c : Int) (cur : Cursor) (k : Cursor → Bool) :
    matchK (Regex.lit c) cur k = true ↔
      ∃ rs, cur.rest = c :: rs ∧ k ⟨cur.pos + 1, rs⟩ = true := by
  unfold matchK
  cases h : cur.rest with
  | nil => simp
  | cons r rs =>
    simp only [Bool.and_eq_true, beq_iff_eq, List.cons.injEq]
    constructor
    · rintro ⟨rfl, hk⟩; exact ⟨rs, ⟨rfl, rfl⟩, hk⟩
    · rintro ⟨rs1, ⟨rfl, rfl⟩, hk⟩; exact ⟨rfl, hk⟩

theorem matchK_cls (R : List (Int × Int)) (cur : Cursor) (k : Cursor → Bool) :
    matchK (Regex.cls R) cur k = true ↔
      ∃ r rs, cur.rest = r :: rs ∧ inClass R r = true ∧ k ⟨cur.pos + 1, rs⟩ = true := by
  unfold matchK
  cases h : cur.rest with
  | nil => simp
  | cons r rs =>
    simp only [Bool.and_eq_true, List.cons.injEq]
    constructor
    · rintro ⟨hr, hk⟩; exact ⟨r, rs, ⟨rfl, rfl⟩, hr, hk⟩
    · rintro ⟨r1, rs1, ⟨rfl, rfl⟩, hr, hk⟩; exact ⟨hr, hk⟩

theorem matchK_cat (a b : Regex) (cur : Cursor) (k : Cursor → Bool) :
    matchK (Regex.cat a b) cur k = matchK a cur (fun c => matchK b c k) := by
  simp [matchK]

theorem matchK_alt (a b : Regex) (cur : Cursor) (k : Cursor → Bool) :
    matchK (Regex.alt a b) cur k = (matchK a cur k || matchK b cur k) := by
  simp [matchK]

theorem matchK_endText (cur : Cursor) (k : Cursor → Bool) :
    matchK Regex.endText cur k = true ↔ cur.rest = [] ∧ k cur = true := by
  simp [matchK, List.isEmpty_iff]

theorem matchK_beginText (cur : Cursor) (k : Cursor → Bool) :
    matchK Regex.beginText cur k = true ↔ cur.pos = 0 ∧ k cur = true := by
  simp [matchK]

/-- One or more runes of a class, then the continuation: the rounds of
`plusK` pass a non-empty prefix whose runes all lie in the class. -/
theorem plusK_cls (R : List (Int × Int)) (fuel : Nat) (cur : Cursor) (k : Cursor → Bool) :
    plusK (fun c k1 => matchK (Regex.cls R) c k1) fuel cur k = true ↔
      ∃ n, 0 < n ∧ n ≤ fuel ∧ n ≤ cur.rest.length ∧
        (∀ r ∈ cur.rest.take n, inClass R r = true) ∧
        k ⟨cur.pos + n, cur.rest.drop n⟩ = true := by
  induction fuel generalizing cur with
  | zero =>
    simp only [plusK, Bool.false_eq_true, false_iff]
    rintro ⟨n, h1, h2, _⟩; omega
  | succ f ih =>
    simp only [plusK]
    rw [matchK_cls]
    constructor
    · rintro ⟨r, rs, hrest, hr, hk⟩
      rw [Bool.or_eq_true] at hk
      rcases hk with hk | hk
      · refine ⟨1, by omega, by omega, by simp [hrest], ?_, ?_⟩
        · simp [hrest, hr]
        · simpa [hrest] using hk
      · obtain ⟨n, h1, h2, h3, h4, h5⟩ := (ih ⟨cur.pos + 1, rs⟩).mp hk
        simp only at h3 h4 h5
        refine ⟨n + 1, by omega, by omega, by simp [hrest]; omega, ?_, ?_⟩
        · simp only [hrest, List.take_succ_cons, List.mem_cons, forall_eq_or_imp]
          exact ⟨hr, h4⟩
        · have : cur.pos + (n + 1) = cur.pos + 1 + n := by omega
          simpa [hrest, this] using h5
    · rintro ⟨n, h1, h2, h3, h4, h5⟩
      cases hrest : cur.rest with
      | nil => simp [hrest] at h3; omega
      | cons r rs =>
        obtain ⟨m, rfl⟩ : ∃ m, n = m + 1 := ⟨n - 1, by omega⟩
        simp only [hrest, List.take_succ_cons, List.mem_cons, forall_eq_or_imp,
          List.drop_succ_cons, List.length_cons] at h3 h4 h5
        refine ⟨r, rs, rfl, h4.1, ?_⟩
        rw [Bool.or_eq_true]
        by_cases hm : m = 0
        · left; subst hm; simpa using h5
        · right
          apply (ih ⟨cur.pos + 1, rs⟩).mpr
          refine ⟨m, by omega, by omega, by simpa using h3, h4.2, ?_⟩
          have : cur.pos + (m + 1) = cur.pos + 1 + m := by omega
          simpa [this] using h5

theorem matchK_plus_cls (R : List (Int × Int)) (cur : Cursor) (k : Cursor → Bool) :
    matchK (Regex.plus (Regex.cls R)) cur k = true ↔
      ∃ n, 0 < n ∧ n ≤ cur.rest.length ∧
        (∀ r ∈ cur.rest.take n, inClass R r = true) ∧
        k ⟨cur.pos + n, cur.rest.drop n⟩ = true := by
  have h : matchK (Regex.plus (Regex.cls R)) cur k =
      plusK (fun c k1 => matchK (Regex.cls R) c k1) (cur.rest.length + 1) cur k := by
    simp [matchK]
  rw [h, plusK_cls]
  constructor
  · rintro ⟨n, h1, _, h3, h4, h5⟩; exact ⟨n, h1, h3, h4, h5⟩
  · rintro ⟨n, h1, h3, h4, h5⟩; exact ⟨n, h1, by omega, h3, h4, h5⟩

/-- A pattern that opens with `^` can only match from the start of the
text. -/
theorem matchString_anchored (re : Regex) (s : GoString) :
    matchString (Regex.cat Regex.beginText re) s =
      matchK re ⟨0, runes s⟩ (fun _ => true) := by
  unfold matchString
  rw [Bool.eq_iff_iff]
  simp only [List.any_eq_true, List.mem_range, matchK_cat, matchK_beginText]
  constructor
  · rintro ⟨i, _, hi, hm⟩
    have hi0 : i = 0 := hi
    subst hi0
    simpa using hm
  · intro hm
    exact ⟨0, by omega, rfl, by simpa using hm⟩

theorem matchK_plus_cls_split (R : List (Int × Int)) (cur : Cursor) (k : Cursor → Bool) :
    matchK (Regex.plus (Regex.cls R)) cur k = true ↔
      ∃ ds rs, ds ≠ [] ∧ cur.rest = ds ++ rs ∧ (∀ d ∈ ds, inClass R d = true) ∧
        k ⟨cur.pos + ds.length, rs⟩ = true := by
  rw [matchK_plus_cls]
  constructor
  · rintro ⟨n, h1, h2, h3, h4⟩
    refine ⟨cur.rest.take n, cur.rest.drop n, ?_, (List.take_append_drop n cur.rest).symm, h3, ?_⟩
    · intro h
      have := congrArg List.length h
      rw [List.length_take, List.length_nil] at this
      omega
    · have : (cur.rest.take n).length = n := by simp; omega
      rw [this]; exact h4
  · rintro ⟨ds, rs, h1, h2, h3, h4⟩
    have hl : 0 < ds.length := List.length_pos.mpr h1
    refine ⟨ds.length, hl, by simp [h2], ?_, ?_⟩
    · simpa [h2] using h3
    · simpa [h2] using h4

theorem matchK_plus_cls_end (R : List (Int × Int)) (cur : Cursor) :
    matchK (Regex.cat (Regex.plus (Regex.cls R)) Regex.endText) cur (fun _ => true) = true ↔
      cur.rest ≠ [] ∧ ∀ r ∈ cur.rest, inClass R r = true := by
  rw [matchK_cat, matchK_plus_cls_split]
  simp only [matchK_endText, and_true]
  constructor
  · rintro ⟨ds, rs, h1, h2, h3, rfl⟩
    simp only [List.append_nil] at h2
    rw [h2]; exact ⟨h1, h3⟩
  · rintro ⟨h1, h2⟩
    exact ⟨cur.rest, [], h1, by simp, h2, rfl⟩

theorem inClass_digit (r : Int) : inClass [(48, 57)] r = true ↔ 48 ≤ r ∧ r ≤ 57 := by
  simp [inClass]

theorem inClass_letter (r : Int) :
    inClass [(97, 122), (65, 90)] r = true ↔ (97 ≤ r ∧ r ≤ 122) ∨ (65 ≤ r ∧ r ≤ 90) := by
  simp [inClass]

/-- What the pattern of transfer ids accepts, read on runes. -/
theorem transferIDPattern_runes (s : GoString) :
    validateTransferID s = true ↔
      ∃ ds : List Int, ds ≠ [] ∧ (∀ d ∈ ds, 48 ≤ d ∧ d ≤ 57) ∧
        (runes s = 115 :: 101 :: 110 :: 100 :: 45 :: ds ∨
          runes s = 114 :: 101 :: 99 :: 118 :: 45 :: ds) := by
  unfold validateTransferID transferIDPattern
  rw [matchString_anchored, matchK_cat, matchK_alt, Bool.or_eq_true]
  simp only [litString, matchK_cat, matchK_lit]
  have hend := fun cur => matchK_plus_cls_end [(48, 57)] cur
  simp only [matchK_cat, digitClass] at hend ⊢
  simp only [hend, inClass_digit]
  constructor
  · rintro (⟨r1, h1, r2, h2, r3, h3, r4, h4, r5, h5, h6, h7⟩ |
      ⟨r1, h1, r2, h2, r3, h3, r4, h4, r5, h5, h6, h7⟩)
    · subst h2 h3 h4 h5
      exact ⟨r5, h6, h7, Or.inl h1⟩
    · subst h2 h3 h4 h5
      exact ⟨r5, h6, h7, Or.inr h1⟩
  · rintro ⟨ds, h1, h2, h3 | h3⟩
    · left; exact ⟨_, h3, _, rfl, _, rfl, _, rfl, _, rfl, h1, h2⟩
    · right; exact ⟨_, h3, _, rfl, _, rfl, _, rfl, _, rfl, h1, h2⟩

/-- What the pattern of wormhole codes accepts, read on runes. -/
theorem wormholeCodePattern_runes (s : GoString) :
    validateWormholeCode s = true ↔
      ∃ ds w1 w2 : List Int, ds ≠ [] ∧ w1 ≠ [] ∧ w2 ≠ [] ∧
        (∀ d ∈ ds, 48 ≤ d ∧ d ≤ 57) ∧
        (∀ c ∈ w1, (97 ≤ c ∧ c ≤ 122) ∨ (65 ≤ c ∧ c ≤ 90)) ∧
        (∀ c ∈ w2, (97 ≤ c ∧ c ≤ 122) ∨ (65 ≤ c ∧ c ≤ 90)) ∧
        runes s = ds ++ 45 :: (w1 ++ 45 :: w2) := by
  unfold validateWormholeCode wormholeCodePattern
  rw [matchString_anchored]
  have hend := fun cur => matchK_plus_cls_end [(97, 122), (65, 90)] cur
  simp only [matchK_cat, letterClass, digitClass] at hend ⊢
  simp only [matchK_plus_cls_split, matchK_lit, hend, inClass_digit, inClass_letter]
  constructor
  · rintro ⟨ds, rs1, h1, h2, h3, rs2, h4, w1, rs3, h5, h6, h7, rs4, h8, h9, h10⟩
    subst h4 h6 h8
    exact ⟨ds, w1, rs4, h1, h5, h9, h3, h7, h10, h2⟩
  · rintro ⟨ds, w1, w2, h1, h2, h3, h4, h5, h6, h7⟩
    exact ⟨ds, _, h1, h7, h4, _, rfl, w1, _, h2, rfl, h5, _, rfl, h3, h6⟩

/-! ## From runes back to bytes -/

/-- A string whose runes are all below 128 is read rune by rune as its
bytes. -/
theorem runes_ascii_bytes (s : GoString) (rs : List Int) (h : runes s = rs)
    (hr : ∀ r ∈ rs, r < 128) : s.map Int.ofNat = rs ∧ ∀ b ∈ s, b < 128 := by
  have hb : ∀ b ∈ s, b < 128 := ascii_of_runes s (by rw [h]; exact hr)
  exact ⟨by rw [← h, runes_of_ascii s hb], hb⟩

theorem map_ofNat_cons (s : GoString) (n : Nat) (rs : List Int)
    (h : s.map Int.ofNat = (n : Int) :: rs) : ∃ t, s = n :: t ∧ t.map Int.ofNat = rs := by
  obtain ⟨a, t, rfl, h1, h2⟩ := List.map_eq_cons_iff.mp h
  have : a = n := by simpa using h1
  exact ⟨t, by rw [this], h2⟩

theorem map_ofNat_digits (t : GoString) (ds : List Int) (h : t.map Int.ofNat = ds)
    (hd : ∀ d ∈ ds, 48 ≤ d ∧ d ≤ 57) : ∀ b ∈ t, isDigitByte b := by
  intro b hb
  have := hd (Int.ofNat b) (by rw [← h]; exact List.mem_map_of_mem _ hb)
  simp only [Int.ofNat_eq_coe] at this
  unfold isDigitByte; omega

theorem map_ofNat_letters (t : GoString) (ws : List Int) (h : t.map Int.ofNat = ws)
    (hd : ∀ c ∈ ws, (97 ≤ c ∧ c ≤ 122) ∨ (65 ≤ c ∧ c ≤ 90)) : ∀ b ∈ t, isLetterByte b := by
  intro b hb
  have := hd (Int.ofNat b) (by rw [← h]; exact List.mem_map_of_mem _ hb)
  simp only [Int.ofNat_eq_coe] at this
  unfold isLetterByte; omega

theorem str_send : str "send-" = [115, 101, 110, 100, 45] := by decide

theorem str_recv : str "recv-" = [114, 101, 99, 118, 45] := by decide

theorem str_dash : str "-" = [45] := by decide

/-- The accepted transfer ids, on bytes. -/
theorem validateTransferID_bytes (id : GoString) :
    validateTransferID id = true ↔
      ∃ ds : GoString, ds ≠ [] ∧ (∀ d ∈ ds, isDigitByte d) ∧
        (id = str "send-" ++ ds ∨ id = str "recv-" ++ ds) := by
  rw [transferIDPattern_runes, str_send, str_recv]
  constructor
  · rintro ⟨ds, h1, h2, h3⟩
    have hlt : ∀ r ∈ runes id, r < 128 := by
      intro r hr
      rcases h3 with h3 | h3 <;>
      · rw [h3] at hr
        simp only [List.mem_cons] at hr
        rcases hr with rfl | rfl | rfl | rfl | rfl | hr
        · decide
        · decide
        · decide
        · decide
        · decide
        · exact lt_of_le_of_lt (h2 r hr).2 (by decide)
    obtain ⟨hmap, -⟩ := runes_ascii_bytes id (runes id) rfl hlt
    rcases h3 with h3 | h3
    · rw [h3] at hmap
      obtain ⟨t1, rfl, hm1⟩ := map_ofNat_cons id 115 _ hmap
      obtain ⟨t2, rfl, hm2⟩ := map_ofNat_cons t1 101 _ hm1
      obtain ⟨t3, rfl, hm3⟩ := map_ofNat_cons t2 110 _ hm2
      obtain ⟨t4, rfl, hm4⟩ := map_ofNat_cons t3 100 _ hm3
      obtain ⟨t5, rfl, hm5⟩ := map_ofNat_cons t4 45 _ hm4
      refine ⟨t5, ?_, map_ofNat_digits t5 ds hm5 h2, Or.inl rfl⟩
      rintro rfl; exact h1 hm5.symm
    · rw [h3] at hmap
      obtain ⟨t1, rfl, hm1⟩ := map_ofNat_cons id 114 _ hmap
      obtain ⟨t2, rfl, hm2⟩ := map_ofNat_cons t1 101 _ hm1
      obtain ⟨t3, rfl, hm3⟩ := map_ofNat_cons t2 99 _ hm2
      obtain ⟨t4, rfl, hm4⟩ := map_ofNat_cons t3 118 _ hm3
      obtain ⟨t5, rfl, hm5⟩ := map_ofNat_cons t4 45 _ hm4
      refine ⟨t5, ?_, map_ofNat_digits t5 ds hm5 h2, Or.inr rfl⟩
      rintro rfl; exact h1 hm5.symm
  · rintro ⟨ds, h1, h2, h3⟩
    have hds : ∀ b ∈ ds, b < 128 := fun b hb => by
      have := h2 b hb; unfold isDigitByte at this; omega
    have hascii : ∀ b ∈ id, b < 128 := by
      intro b hb
      rcases h3 with h3 | h3 <;>
      · rw [h3] at hb
        simp only [List.cons_append, List.nil_append, List.mem_cons] at hb
        rcases hb with rfl | rfl | rfl | rfl | rfl | hb
        · decide
        · decide
        · decide
        · decide
        · decide
        · exact hds b hb
    refine ⟨ds.map Int.ofNat, by simpa using h1, ?_, ?_⟩
    · intro d hd
      obtain ⟨b, hb, rfl⟩ := List.mem_map.mp hd
      have := h2 b hb
      unfold isDigitByte at this
      simp only [Int.ofNat_eq_coe]; omega
    · rw [runes_of_ascii id hascii]
      rcases h3 with h3 | h3
      · left; rw [h3]; rfl
      · right; rw [h3]; rfl

/-- The accepted wormhole codes, on bytes. -/
theorem validateWormholeCode_bytes (code : GoString) :
    validateWormholeCode code = true ↔
      ∃ ds w1 w2 : GoString, ds ≠ [] ∧ w1 ≠ [] ∧ w2 ≠ [] ∧
        (∀ d ∈ ds, isDigitByte d) ∧ (∀ c ∈ w1, isLetterByte c) ∧ (∀ c ∈ w2, isLetterByte c) ∧
        code = ds ++ str "-" ++ w1 ++ str "-" ++ w2 := by
  rw [wormholeCodePattern_runes, str_dash]
  constructor
  · rintro ⟨ds, w1, w2, h1, h2, h3, h4, h5, h6, h7⟩
    have hlt : ∀ r ∈ runes code, r < 128 := by
      intro r hr
      rw [h7] at hr
      simp only [List.mem_append, List.mem_cons] at hr
      rcases hr with hr | rfl | hr | rfl | hr
      · exact lt_of_le_of_lt (h4 r hr).2 (by decide)
      · decide
      · rcases h5 r hr with h | h
        · exact lt_of_le_of_lt h.2 (by decide)
        · exact lt_of_le_of_lt h.2 (by decide)
      · decide
      · rcases h6 r hr with h | h
        · exact lt_of_le_of_lt h.2 (by decide)
        · exact lt_of_le_of_lt h.2 (by decide)
    obtain ⟨hmap, -⟩ := runes_ascii_bytes code (runes code) rfl hlt
    rw [h7] at hmap
    obtain ⟨l1, l2, rfl, hm1, hm2⟩ := List.map_eq_append_iff.mp hmap
    obtain ⟨t, rfl, hm3⟩ := map_ofNat_cons l2 45 _ hm2
    obtain ⟨l3, l4, rfl, hm4, hm5⟩ := List.map_eq_append_iff.mp hm3
    obtain ⟨l5, rfl, hm6⟩ := map_ofNat_cons l4 45 _ hm5
    refine ⟨l1, l3, l5, ?_, ?_, ?_, map_ofNat_digits l1 ds hm1 h4,
      map_ofNat_letters l3 w1 hm4 h5, map_ofNat_letters l5 w2 hm6 h6, by simp⟩
    · rintro rfl; exact h1 hm1.symm
    · rintro rfl; exact h2 hm4.symm
    · rintro rfl; exact h3 hm6.symm
  · rintro ⟨ds, w1, w2, h1, h2, h3, h4, h5, h6, h7⟩
    have hascii : ∀ b ∈ code, b < 128 := by
      intro b hb
      rw [h7] at hb
      simp only [List.mem_append, List.mem_singleton] at hb
      rcases hb with (((hb | rfl) | hb) | rfl) | hb
      · have := h4 b hb; unfold isDigitByte at this; omega
      · decide
      · have := h5 b hb; unfold isLetterByte at this; omega
      · decide
      · have := h6 b hb; unfold isLetterByte at this; omega
    refine ⟨ds.map Int.ofNat, w1.map Int.ofNat, w2.map Int.ofNat, by simpa using h1,
      by simpa using h2, by simpa using h3, ?_, ?_, ?_, ?_⟩
    · intro d hd
      obtain ⟨b, hb, rfl⟩ := List.mem_map.mp hd
      have := h4 b hb
      unfold isDigitByte at this
      simp only [Int.ofNat_eq_coe]; omega
    · intro d hd
      obtain ⟨b, hb, rfl⟩ := List.mem_map.mp hd
      have := h5 b hb
      unfold isLetterByte at this
      simp only [Int.ofNat_eq_coe]; omega
    · intro d hd
      obtain ⟨b, hb, rfl⟩ := List.mem_map.mp hd
      have := h6 b hb
      unfold isLetterByte at this
      simp only [Int.ofNat_eq_coe]; omega
    · rw [runes_of_ascii code hascii, h7]
      simp

theorem validateTransferID_chars (id : GoString) (h : validateTransferID id = true) :
    slash ∉ id ∧ 92 ∉ id ∧ dot ∉ id := by
  obtain ⟨ds, -, h2, h3⟩ := (validateTransferID_bytes id).mp h
  have hd : ∀ c, c ∈ ds → c ≠ 47 ∧ c ≠ 92 ∧ c ≠ 46 := fun c hc => by
    have := h2 c hc; unfold isDigitByte at this; omega
  rw [str_send, str_recv] at h3
  rcases h3 with rfl | rfl <;>
  · simp only [slash, dot, List.cons_append, List.nil_append, List.mem_cons, not_or]
    refine ⟨⟨by decide, by decide, by decide, by decide, by decide, fun hc => (hd _ hc).1 rfl⟩,
      ⟨by decide, by decide, by decide, by decide, by decide, fun hc => (hd _ hc).2.1 rfl⟩,
      ⟨by decide, by decide, by decide, by decide, by decide, fun hc => (hd _ hc).2.2 rfl⟩⟩

theorem validateWormholeCode_no_slash (code : GoString) (h : slash ∈ code) :
    validateWormholeCode code = false := by
  rw [Bool.eq_false_iff]
  intro hv
  obtain ⟨ds, w1, w2, -, -, -, h4, h5, h6, rfl⟩ := (validateWormholeCode_bytes code).mp hv
  rw [str_dash] at h
  simp only [List.mem_append, List.mem_singleton] at h
  rcases h with (((h | h) | h) | h) | h
  · have := h4 _ h; unfold isDigitByte slash at this; omega
  · exact absurd h (by decide)
  · have := h5 _ h; unfold isLetterByte slash at this; omega
  · exact absurd h (by decide)
  · have := h6 _ h; unfold isLetterByte slash at this; omega

/-! ## Lemmas on filepath.Base -/

theorem isPathSeparator_iff (c : Nat) : isPathSeparator c = true ↔ c = slash := by
  simp [isPathSeparator]

theorem stripTrailingSlashes_of_last (p : GoString) (c : Nat) (hc : c ≠ slash) :
    stripTrailingSlashes (p ++ [c]) = p ++ [c] := by
  have h : ¬ (isPathSeparator c = true) := by simp [isPathSeparator, hc]
  simp [stripTrailingSlashes, List.dropWhile_cons_of_neg h]

theorem lastElement_append (d s : GoString) (hs : slash ∉ s) :
    lastElement (d ++ slash :: s) = s := by
  have h1 : ∀ a ∈ s.reverse, (fun c => !isPathSeparator c) a = true := by
    intro a ha
    have : a ≠ slash := fun e => hs (e ▸ List.mem_reverse.mp ha)
    simp [isPathSeparator, this]
  have h2 : ¬ ((fun c => !isPathSeparator c) slash = true) := by simp [isPathSeparator]
  simp only [lastElement, List.reverse_append, List.reverse_cons, List.append_assoc,
    List.singleton_append]
  rw [List.takeWhile_append_of_pos h1]
  have h3 : List.takeWhile (fun c => !isPathSeparator c) (slash :: d.reverse) = [] := by
    simp [List.takeWhile, isPathSeparator]
  rw [h3]
  simp

theorem lastElement_of_no_slash (s : GoString) (hs : slash ∉ s) : lastElement s = s := by
  have h1 : ∀ a ∈ s.reverse, (fun c => !isPathSeparator c) a = true := by
    intro a ha
    have : a ≠ slash := fun e => hs (e ▸ List.mem_reverse.mp ha)
    simp [isPathSeparator, this]
  simp only [lastElement]
  rw [List.takeWhile_eq_self_iff.mpr h1]
  simp

theorem stripTrailingSlashes_of_segment (p s : GoString) (hne : s ≠ []) (hs : slash ∉ s) :
    stripTrailingSlashes (p ++ s) = p ++ s := by
  obtain ⟨t, c, rfl⟩ : ∃ t c, s = t ++ [c] := by
    rcases List.eq_nil_or_concat s with h | ⟨t, c, h⟩
    · exact absurd h hne
    · exact ⟨t, c, by simpa using h⟩
  have hc : c ≠ slash := fun e => hs (by simp [e])
  rw [← List.append_assoc]
  exact stripTrailingSlashes_of_last (p ++ t) c hc

theorem filepathBase_dir_segment (d s : GoString) (hne : s ≠ []) (hs : slash ∉ s) :
    filepathBase (d ++ [slash] ++ s) = s := by
  have h0 : d ++ [slash] ++ s ≠ [] := by simp
  have h1 := stripTrailingSlashes_of_segment (d ++ [slash]) s hne hs
  unfold filepathBase
  rw [if_neg h0]
  simp only [h1]
  have h2 : lastElement (d ++ [slash] ++ s) = s := by
    simpa using lastElement_append d s hs
  rw [h2, if_neg hne]

theorem filepathBase_segment (s : GoString) (hne : s ≠ []) (hs : slash ∉ s) :
    filepathBase s = s := by
  have h1 := stripTrailingSlashes_of_segment [] s hne hs
  simp only [List.nil_append] at h1
  unfold filepathBase
  rw [if_neg hne]
  simp only [h1, lastElement_of_no_slash s hs]
  rw [if_neg hne]

/-! ## Lemmas on the steps of sanitizeFilename -/

theorem encodeRune_kept_bytes (r : Int) (h32 : ¬ (r < 32 ∨ r = 127)) :
    ∀ b ∈ encodeRune r, 32 ≤ b ∧ b ≠ 127 := by
  intro b hb
  have hn : ¬ r < 0 := by omega
  simp only [encodeRune, if_neg hn] at hb
  split_ifs at hb <;> simp at hb <;> omega

theorem mapRunes_dropControl_bytes (fuel : Nat) (s : GoString) :
    ∀ b ∈ mapRunes dropControl fuel s, 32 ≤ b ∧ b ≠ 127 := by
  induction fuel generalizing s with
  | zero => intro b hb; simp [mapRunes] at hb
  | succ n ih =>
    cases s with
    | nil => intro b hb; simp [mapRunes] at hb
    | cons s0 rest =>
      intro b hb
      simp only [mapRunes, List.mem_append] at hb
      rcases hb with hb | hb
      · by_cases hc : (decodeRune (s0 :: rest)).1 < 32 ∨ (decodeRune (s0 :: rest)).1 = 127
        · simp [dropControl, hc] at hb
        · simp only [dropControl, if_neg hc] at hb
          split_ifs at hb with h
          · exact encodeRune_kept_bytes _ hc b hb
          · simp at hb
      · exact ih _ b hb

theorem cleanName_bytes (x : GoString) : ∀ b ∈ cleanName x, 32 ≤ b ∧ b ≠ 127 :=
  mapRunes_dropControl_bytes _ _

theorem extLoop_suffix (rs acc : GoString) :
    extLoop rs acc = [] ∨ ∃ pre, rs.reverse ++ acc = pre ++ extLoop rs acc := by
  induction rs generalizing acc with
  | nil => left; rfl
  | cons c rs ih =>
    unfold extLoop
    split_ifs with h1 h2
    · left; rfl
    · right; exact ⟨rs.reverse, by simp⟩
    · rcases ih (c :: acc) with h | ⟨pre, h⟩
      · left; exact h
      · right; exact ⟨pre, by simpa using h⟩

theorem filepathExt_suffix (name : GoString) : ∃ pre, name = pre ++ filepathExt name := by
  rcases extLoop_suffix name.reverse [] with h | ⟨pre, h⟩
  · exact ⟨name, by simp [filepathExt, h]⟩
  · exact ⟨pre, by simpa [filepathExt] using h⟩

theorem filepathExt_mem (name : GoString) : ∀ b ∈ filepathExt name, b ∈ name := by
  intro b hb
  obtain ⟨pre, h⟩ := filepathExt_suffix name
  rw [h]; exact List.mem_append_right _ hb

theorem str_unnamed : str "unnamed" = [117, 110, 110, 97, 109, 101, 100] := by decide

theorem fallbackName_length (name : GoString) (h : name.length ≤ maxFilenameLen) :
    (fallbackName name).length ≤ maxFilenameLen := by
  unfold fallbackName
  split_ifs
  · rw [str_unnamed]; decide
  · exact h

theorem fallbackName_of_long (name : GoString) (h : 2 < name.length) :
    fallbackName name = name := by
  unfold fallbackName
  rw [if_neg]
  rintro (h1 | h1 | h1) <;> simp [h1] at h

theorem fallbackName_ne (name : GoString) :
    fallbackName name ≠ [] ∧ fallbackName name ≠ [dot] ∧ fallbackName name ≠ [dot, dot] := by
  unfold fallbackName
  split_ifs with h
  · rw [str_unnamed]; decide
  · exact ⟨fun e => h (Or.inl e), fun e => h (Or.inr (Or.inl e)), fun e => h (Or.inr (Or.inr e))⟩

theorem fallbackName_bytes (name : GoString) (h : ∀ b ∈ name, 32 ≤ b ∧ b ≠ 127) :
    ∀ b ∈ fallbackName name, 32 ≤ b ∧ b ≠ 127 := by
  unfold fallbackName
  split_ifs
  · rw [str_unnamed]; decide
  · exact h

theorem truncateName_eq_none_iff (name : GoString) :
    truncateName name = none ↔
      maxFilenameLen < name.length ∧ maxFilenameLen < (filepathExt name).length := by
  unfold truncateName
  dsimp only
  split_ifs with h1 h2 <;> simp_all

theorem truncateName_mem (name r : GoString) (h : truncateName name = some r) :
    ∀ b ∈ r, b ∈ name := by
  unfold truncateName at h
  dsimp only at h
  split_ifs at h with h1 h2
  · simp only [Option.some.injEq] at h
    subst h
    intro b hb
    rcases List.mem_append.mp hb with hb | hb
    · exact List.mem_of_mem_take hb
    · exact filepathExt_mem name b hb
  · simp only [Option.some.injEq] at h
    subst h; exact fun b hb => hb

/-- Every name that `sanitizeFilename` returns is none of the empty string,
`.` and `..`, and holds no byte below 32 and no byte 127. -/
theorem sanitizeFilename_result (x r : GoString) (h : sanitizeFilename x = some r) :
    r ≠ [] ∧ r ≠ [dot] ∧ r ≠ [dot, dot] ∧ ∀ b ∈ r, 32 ≤ b ∧ b ≠ 127 := by
  unfold sanitizeFilename at h
  cases ht : truncateName (cleanName x) with
  | none => simp [ht] at h
  | some t =>
    simp only [ht, Option.map_some', Option.some.injEq] at h
    subst h
    have hb : ∀ b ∈ t, 32 ≤ b ∧ b ≠ 127 :=
      fun b hb => cleanName_bytes x b (truncateName_mem _ _ ht b hb)
    exact ⟨(fallbackName_ne t).1, (fallbackName_ne t).2.1, (fallbackName_ne t).2.2,
      fallbackName_bytes t hb⟩

/-- The call `sanitizeFilename x` panics exactly when the cleaned name and
its extension are both longer than `maxFilenameLen`. -/
theorem sanitizeFilename_eq_none_iff (x : GoString) :
    sanitizeFilename x = none ↔
      maxFilenameLen < (cleanName x).length ∧
        maxFilenameLen < (filepathExt (cleanName x)).length := by
  unfold sanitizeFilename
  rw [Option.map_eq_none']
  exact truncateName_eq_none_iff _

theorem lastElement_no_slash (p : GoString) : slash ∉ lastElement p := by
  unfold lastElement
  intro h
  rw [List.mem_reverse] at h
  have := List.mem_takeWhile_imp h
  simp [isPathSeparator] at this

/-- The result of `filepath.Base` is the lone separator or a non-empty
element that holds none. -/
theorem filepathBase_shape (path : GoString) :
    filepathBase path = [slash] ∨ (filepathBase path ≠ [] ∧ slash ∉ filepathBase path) := by
  unfold filepathBase
  dsimp only
  split_ifs with h1 h2
  · right; exact ⟨by simp, by decide⟩
  · left; rfl
  · right; exact ⟨h2, lastElement_no_slash _⟩

/-- Without truncation `sanitizeFilename` is idempotent: a name returned for
an input whose cleaned name is at most `maxFilenameLen` bytes long is
returned unchanged by a second call. -/
theorem sanitizeFilename_idem_of_short (x y : GoString) (h : sanitizeFilename x = some y)
    (hlen : (cleanName x).length ≤ maxFilenameLen) : sanitizeFilename y = some y := by
  have ht : truncateName (cleanName x) = some (cleanName x) := by
    unfold truncateName
    rw [if_neg (by omega)]
  unfold sanitizeFilename at h
  rw [ht] at h
  simp only [Option.map_some', Option.some.injEq] at h
  subst h
  by_cases hf : cleanName x = [] ∨ cleanName x = [dot] ∨ cleanName x = [dot, dot]
  · have : fallbackName (cleanName x) = str "unnamed" := by
      unfold fallbackName; rw [if_pos hf]
    rw [this]
    decide
  · have hfb : fallbackName (cleanName x) = cleanName x := by
      unfold fallbackName; rw [if_neg hf]
    rw [hfb]
    have hbase : filepathBase (cleanName x) = cleanName x := by
      rcases filepathBase_shape x with hs | ⟨-, hs⟩
      · have : cleanName x = [slash] := by
          unfold cleanName; rw [hs]; decide
        rw [this]; decide
      · apply filepathBase_segment
        · exact fun e => hf (Or.inl e)
        · exact fun hm => hs (mapRunes_slash _ _ hm)
    have hclean : cleanName (cleanName x) = cleanName x := by
      show stringsMap dropControl (filepathBase (cleanName x)) = cleanName x
      rw [hbase]
      unfold cleanName
      exact stringsMap_idem _
    unfold sanitizeFilename
    rw [hclean, ht]
    simp only [Option.map_some', hfb]

/-! ## Lemmas on the handlers -/

theorem handleWebSocket_invalid (s : Server) (upgradeOk : Bool) (id : GoString)
    (h : validateTransferID id = false) :
    ∃ msg, s.handleWebSocket upgradeOk id = ⟨Response.httpError msg 400, []⟩ := by
  unfold Server.handleWebSocket
  by_cases h0 : id = []
  · exact ⟨_, by rw [if_pos h0]⟩
  · exact ⟨_, by rw [if_neg h0, if_pos (by simp [h])]⟩

theorem handleDownload_invalid (s : Server) (wd : Option GoString) (path : GoString)
    (h : validateTransferID (downloadTransferID path) = false) :
    ∃ msg, s.handleDownload wd path = some ⟨Response.httpError msg 400, []⟩ := by
  unfold Server.handleDownload
  unfold downloadTransferID at h
  cases hi : stringsIndex path slash with
  | none => exact ⟨_, rfl⟩
  | some idx =>
    simp only [hi] at h
    simp only
    exact ⟨_, by rw [if_pos (by simp [h])]⟩

/-- The guard before `http.ServeFile`. -/
theorem handleDownload_serveFile (s : Server) (wd : Option GoString)
    (path filePath : GoString) (lookups : List GoString)
    (h : s.handleDownload wd path = some ⟨Response.serveFile filePath, lookups⟩) :
    ∃ transferID safeFilename absFilePath absTempDir,
      validateTransferID transferID = true ∧
      filePath = filepathJoin [s.tempDir, transferID, safeFilename] ∧
      filepathAbs wd filePath = some absFilePath ∧
      filepathAbs wd s.tempDir = some absTempDir ∧
      hasPrefix absFilePath (absTempDir ++ [slash]) = true := by
  unfold Server.handleDownload at h
  cases hi : stringsIndex path slash with
  | none => rw [hi] at h; simp at h
  | some idx =>
    rw [hi] at h
    simp only at h
    by_cases h1 : (!validateTransferID (List.take idx path)) = true
    · rw [if_pos h1] at h; simp at h
    · rw [if_neg h1] at h
      cases hs : sanitizeFilename (List.drop (idx + 1) path) with
      | none => rw [hs] at h; simp at h
      | some safe =>
        rw [hs] at h
        simp only at h
        by_cases h2 : safe = []
        · rw [if_pos h2] at h; simp at h
        · rw [if_neg h2] at h
          cases hg : s.getTransfer (List.take idx path) with
          | none => rw [hg] at h; simp at h
          | some t =>
            rw [hg] at h
            simp only at h
            cases ha : filepathAbs wd (filepathJoin [s.tempDir, List.take idx path, safe]) with
            | none => rw [ha] at h; simp at h
            | some absFilePath =>
              rw [ha] at h
              simp only at h
              cases hb : filepathAbs wd s.tempDir with
              | none => rw [hb] at h; simp at h
              | some absTempDir =>
                rw [hb] at h
                simp only at h
                by_cases h3 : (!hasPrefix absFilePath (absTempDir ++ [slash])) = true
                · rw [if_pos h3] at h; simp at h
                · rw [if_neg h3] at h
                  simp only [Option.some.injEq, Outcome.mk.injEq, Response.serveFile.injEq] at h
                  refine ⟨List.take idx path, safe, absFilePath, absTempDir, by simpa using h1,
                    h.1.symm, ?_, rfl, by simpa using h3⟩
                  rw [← h.1]; exact ha

theorem hasPrefix_iff (s pre : GoString) :
    hasPrefix s pre = true ↔ ∃ rest, s = pre ++ rest := by
  unfold hasPrefix
  rw [decide_eq_true_eq]
  constructor
  · intro h
    exact ⟨s.drop pre.length, by
      conv_lhs => rw [← List.take_append_drop pre.length s]
      rw [h]⟩
  · rintro ⟨rest, rfl⟩
    simp

/-! ## The claims on the two validators -/

/-- C3. `validateTransferID` accepts exactly `send-` or `recv-` followed by
one or more ASCII digits and nothing else; an accepted id therefore holds no
`/`, no backslash and no `.`, and the four sample ids are rejected. -/
theorem validateTransferID_exact :
    (∀ id : GoString, validateTransferID id = true ↔
      ∃ ds : GoString, ds ≠ [] ∧ (∀ d ∈ ds, isDigitByte d) ∧
        (id = str "send-" ++ ds ∨ id = str "recv-" ++ ds)) ∧
    (∀ id : GoString, validateTransferID id = true → slash ∉ id ∧ 92 ∉ id ∧ dot ∉ id) ∧
    validateTransferID (str "send-123/../../../etc/passwd") = false ∧
    validateTransferID (str "send-") = false ∧
    validateTransferID (str "send- 123") = false ∧
    validateTransferID (str "upload-1234567890") = false :=
  ⟨validateTransferID_bytes, validateTransferID_chars, by decide, by decide, by decide,
    by decide⟩

/-- C4. `validateWormholeCode` accepts exactly one or more ASCII digits, a
dash, one or more ASCII letters of either case, a dash, and one or more
ASCII letters, with nothing after; it rejects the empty string, a fourth
segment, a digit inside a word and every string that holds a `/`. -/
theorem validateWormholeCode_exact :
    (∀ code : GoString, validateWormholeCode code = true ↔
      ∃ ds w1 w2 : GoString, ds ≠ [] ∧ w1 ≠ [] ∧ w2 ≠ [] ∧
        (∀ d ∈ ds, isDigitByte d) ∧ (∀ c ∈ w1, isLetterByte c) ∧ (∀ c ∈ w2, isLetterByte c) ∧
        code = ds ++ str "-" ++ w1 ++ str "-" ++ w2) ∧
    validateWormholeCode [] = false ∧
    validateWormholeCode (str "7-guitarist-revenge-extra") = false ∧
    validateWormholeCode (str "7-guitar1st-revenge") = false ∧
    (∀ code : GoString, slash ∈ code → validateWormholeCode code = false) ∧
    validateWormholeCode (str "7-guitarist-revenge") = true :=
  ⟨validateWormholeCode_bytes, by decide, by decide, by decide, validateWormholeCode_no_slash,
    by decide⟩

/-! ## The claims on sanitizeFilename -/

/-- C6 (amended). Whenever the cleaned name is at most `maxFilenameLen`
bytes long or its extension is, `sanitizeFilename` returns a name of at most
`maxFilenameLen` bytes, and a name that had to be truncated still ends
with the extension of the cleaned name. -/
theorem sanitizeFilename_length_extension (x : GoString)
    (h : (cleanName x).length ≤ maxFilenameLen ∨
      (filepathExt (cleanName x)).length ≤ maxFilenameLen) :
    ∃ r, sanitizeFilename x = some r ∧ r.length ≤ maxFilenameLen ∧
      (maxFilenameLen < (cleanName x).length →
        hasSuffix r (filepathExt (cleanName x)) = true) := by
  unfold sanitizeFilename truncateName
  by_cases h1 : (cleanName x).length > maxFilenameLen
  · have h2 : ¬ maxFilenameLen < (filepathExt (cleanName x)).length := by
      rcases h with h | h <;> omega
    rw [if_pos h1]
    simp only [if_neg h2, Option.map_some']
    have hlen : (List.take (maxFilenameLen - (filepathExt (cleanName x)).length) (cleanName x) ++
        filepathExt (cleanName x)).length = maxFilenameLen := by
      rw [List.length_append, List.length_take]; omega
    have hfb := fallbackName_of_long _ (by rw [hlen]; decide :
      2 < (List.take (maxFilenameLen - (filepathExt (cleanName x)).length) (cleanName x) ++
        filepathExt (cleanName x)).length)
    refine ⟨_, rfl, ?_, ?_⟩
    · rw [hfb, hlen]
    · intro _
      rw [hfb]
      unfold hasSuffix
      rw [hlen]
      have htl : (List.take (maxFilenameLen - (filepathExt (cleanName x)).length)
          (cleanName x)).length = maxFilenameLen - (filepathExt (cleanName x)).length := by
        rw [List.length_take]; omega
      have hd := List.drop_left (List.take (maxFilenameLen - (filepathExt (cleanName x)).length)
          (cleanName x)) (filepathExt (cleanName x))
      rw [htl] at hd
      rw [decide_eq_true_eq]
      exact hd
  · rw [if_neg h1]
    simp only [Option.map_some']
    exact ⟨_, rfl, fallbackName_length _ (by omega), fun h3 => absurd h3 h1⟩

/-- C7. `sanitizeFilename` keeps only the final path segment: with any
directory prefix `d` and any non-empty segment `s` free of `/`, the first
step `filepath.Base` reduces `d + "/" + s` to `s`, and the call on
`d + "/" + s` behaves exactly as the call on `s`. -/
theorem sanitizeFilename_keeps_last_segment (d s : GoString) (hne : s ≠ []) (hs : slash ∉ s) :
    filepathBase (d ++ [slash] ++ s) = s ∧
      sanitizeFilename (d ++ [slash] ++ s) = sanitizeFilename s := by
  refine ⟨filepathBase_dir_segment d s hne hs, ?_⟩
  simp only [sanitizeFilename, cleanName, filepathBase_dir_segment d s hne hs,
    filepathBase_segment s hne hs]

/-- C1. `sanitizeFilename` is not idempotent on a name of 257 bytes whose
255th and 256th bytes are one two-byte character: the first call cuts the
character in two and returns 254 letters and the byte 195; the second call
rewrites that byte as U+FFFD, cuts again and returns 254 letters and the
byte 239. -/
theorem sanitizeFilename_twice_differs :
    sanitizeFilename (List.replicate 254 97 ++ [195, 169, 98]) =
        some (List.replicate 254 97 ++ [195]) ∧
      sanitizeFilename (List.replicate 254 97 ++ [195]) =
        some (List.replicate 254 97 ++ [239]) ∧
      List.replicate 254 97 ++ [195] ≠ List.replicate 254 97 ++ [239] := by
  refine ⟨by decide, by decide, by decide⟩

/-- C2. A path made only of separators comes back as the separator
itself: `sanitizeFilename` returns `/` for `/` and for `///`. -/
theorem sanitizeFilename_returns_separator :
    sanitizeFilename (str "/") = some [slash] ∧ sanitizeFilename (str "///") = some [slash] ∧
      slash ∈ [slash] := by
  refine ⟨by decide, by decide, by decide⟩

/-- C5. On a dot followed by 300 letters `sanitizeFilename` returns no
string: the extension is the whole name, 301 bytes, and the slice bound
`maxFilenameLen - len(ext)` is negative. -/
theorem sanitizeFilename_panics_on_long_extension :
    sanitizeFilename (dot :: List.replicate 300 97) = none ∧
      (filepathExt (cleanName (dot :: List.replicate 300 97))).length = 301 := by
  refine ⟨by decide, by decide⟩

/-- C6 fails as stated: for `report.` followed by 256 letters no name of at
most `maxFilenameLen` bytes is returned, the call panics. -/
theorem sanitizeFilename_no_name_for_long_extension :
    ¬ ∃ r, sanitizeFilename (str "report." ++ List.replicate 256 120) = some r ∧
      r.length ≤ maxFilenameLen := by
  have h : sanitizeFilename (str "report." ++ List.replicate 256 120) = none := by decide
  rw [h]
  rintro ⟨r, hr, -⟩
  exact absurd hr (by simp)

/-- Witness of C6: 300 letters followed by `.txt` are cut to 255 bytes that
end in `.txt`. -/
theorem sanitizeFilename_length_extension_witness :
    ((cleanName (List.replicate 300 97 ++ str ".txt")).length ≤ maxFilenameLen ∨
      (filepathExt (cleanName (List.replicate 300 97 ++ str ".txt"))).length ≤
        maxFilenameLen) ∧
    filepathExt (cleanName (List.replicate 300 97 ++ str ".txt")) = str ".txt" ∧
    maxFilenameLen < (cleanName (List.replicate 300 97 ++ str ".txt")).length ∧
    ∃ r, sanitizeFilename (List.replicate 300 97 ++ str ".txt") = some r ∧
      r.length ≤ maxFilenameLen ∧
      (maxFilenameLen < (cleanName (List.replicate 300 97 ++ str ".txt")).length →
        hasSuffix r (filepathExt (cleanName (List.replicate 300 97 ++ str ".txt"))) = true) :=
  ⟨Or.inr (by decide), by decide, by decide,
    sanitizeFilename_length_extension (List.replicate 300 97 ++ str ".txt")
      (Or.inr (by decide))⟩

/-- Witness of C7: `../../../etc/passwd` and `/etc/passwd` both give
`passwd`. -/
theorem sanitizeFilename_keeps_last_segment_witness :
    (str "passwd" ≠ [] ∧ slash ∉ str "passwd") ∧
      sanitizeFilename (str "passwd") = some (str "passwd") ∧
      (filepathBase (str "../../../etc" ++ [slash] ++ str "passwd") = str "passwd" ∧
        sanitizeFilename (str "../../../etc" ++ [slash] ++ str "passwd") =
          sanitizeFilename (str "passwd")) ∧
      (filepathBase (str "/etc" ++ [slash] ++ str "passwd") = str "passwd" ∧
        sanitizeFilename (str "/etc" ++ [slash] ++ str "passwd") =
          sanitizeFilename (str "passwd")) :=
  ⟨⟨by decide, by decide⟩, by decide,
    sanitizeFilename_keeps_last_segment (str "../../../etc") (str "passwd") (by decide)
      (by decide),
    sanitizeFilename_keeps_last_segment (str "/etc") (str "passwd") (by decide) (by decide)⟩

/-! ## The claims on the handlers -/

/-- C8. `handleStatus` passes the ill-formed id `send-old` to `getTransfer`
and answers with the record stored under it, and the id `send-nonexistent`
is looked up as well and answered with 404; `handleWebSocket` and
`handleDownload` reject the same ids with status 400 before any call of
`getTransfer`. -/
theorem handleStatus_serves_invalid_id :
    validateTransferID (str "send-old") = false ∧
      exampleServer.handleStatus (str "send-old") =
        ⟨Response.json (exampleTransfer (str "send-old")), [str "send-old"]⟩ ∧
      validateTransferID (str "send-nonexistent") = false ∧
      exampleServer.handleStatus (str "send-nonexistent") =
        ⟨Response.httpError "Transfer not found" 404, [str "send-nonexistent"]⟩ ∧
      exampleServer.handleWebSocket true (str "send-old") =
        ⟨Response.httpError "Invalid transfer ID" 400, []⟩ ∧
      exampleServer.handleDownload none (str "send-old/file.txt") =
        some ⟨Response.httpError "Invalid transfer ID" 400, []⟩ := by
  refine ⟨by decide, by decide, by decide, by decide, by decide, by decide⟩

/-- The check that `handleStatus` lacks: `handleWebSocket` and
`handleDownload` reject a request whose transfer id fails
`validateTransferID` with status 400 and without any call of `getTransfer`,
for every server and every such id. -/
theorem invalid_id_gate (s : Server) (id path : GoString)
    (h : validateTransferID id = false)
    (hp : validateTransferID (downloadTransferID path) = false) :
    (∀ upgradeOk, ∃ msg, s.handleWebSocket upgradeOk id = ⟨Response.httpError msg 400, []⟩) ∧
    (∀ wd, ∃ msg, s.handleDownload wd path = some ⟨Response.httpError msg 400, []⟩) :=
  ⟨fun upgradeOk => handleWebSocket_invalid s upgradeOk id h,
    fun wd => handleDownload_invalid s wd path hp⟩

/-- C9. Whenever `handleDownload` reaches `http.ServeFile`, the path it
serves is `tempDir/<valid id>/<sanitized name>`, and its absolute cleaned
form is the absolute cleaned form of `tempDir`, a separator, and a
remainder. -/
theorem handleDownload_stays_in_tempDir (s : Server) (wd : Option GoString)
    (path filePath : GoString) (lookups : List GoString)
    (h : s.handleDownload wd path = some ⟨Response.serveFile filePath, lookups⟩) :
    ∃ transferID safeFilename absFilePath absTempDir rest,
      validateTransferID transferID = true ∧
      filePath = filepathJoin [s.tempDir, transferID, safeFilename] ∧
      filepathAbs wd filePath = some absFilePath ∧
      filepathAbs wd s.tempDir = some absTempDir ∧
      absFilePath = absTempDir ++ [slash] ++ rest := by
  obtain ⟨transferID, safeFilename, absFilePath, absTempDir, h1, h2, h3, h4, h5⟩ :=
    handleDownload_serveFile s wd path filePath lookups h
  obtain ⟨rest, h6⟩ := (hasPrefix_iff _ _).mp h5
  exact ⟨transferID, safeFilename, absFilePath, absTempDir, rest, h1, h2, h3, h4, h6⟩

/-- Witness of C9: the traversal attempt of `TestHandleDownloadPathTraversal`
is served from inside the storage root. -/
theorem handleDownload_stays_in_tempDir_witness :
    exampleServer.handleDownload none (str "recv-123456789/../../../etc/passwd") =
        some ⟨Response.serveFile (str "/tmp/wormhole-web/recv-123456789/passwd"),
          [str "recv-123456789"]⟩ ∧
      ∃ transferID safeFilename absFilePath absTempDir rest,
        validateTransferID transferID = true ∧
        str "/tmp/wormhole-web/recv-123456789/passwd" =
          filepathJoin [exampleServer.tempDir, transferID, safeFilename] ∧
        filepathAbs none (str "/tmp/wormhole-web/recv-123456789/passwd") = some absFilePath ∧
        filepathAbs none exampleServer.tempDir = some absTempDir ∧
        absFilePath = absTempDir ++ [slash] ++ rest :=
  ⟨by decide,
    handleDownload_stays_in_tempDir exampleServer none
      (str "recv-123456789/../../../etc/passwd") (str "/tmp/wormhole-web/recv-123456789/passwd")
      [str "recv-123456789"] (by decide)⟩

/-! ## The claim on the send tasks -/

/-- C10. When the completion channel delivers a result with `OK = false`
and a nil error, each of the three send tasks publishes the status
`waiting` last, for every record and every code. -/
theorem send_task_left_waiting (transfer : TransferStatus) (code : GoString) :
    ((sendTextTask transfer (Except.ok (code, ⟨false, none⟩))).getLast?.map
        (fun t => t.Status) = some (str "waiting")) ∧
    ((sendSingleFileTask transfer none (Except.ok (code, ⟨false, none⟩))).getLast?.map
        (fun t => t.Status) = some (str "waiting")) ∧
    ((sendMultipleFilesTask transfer none (Except.ok (code, ⟨false, none⟩))).getLast?.map
        (fun t => t.Status) = some (str "waiting")) := by
  refine ⟨?_, ?_, ?_⟩ <;>
    simp [sendTextTask, sendSingleFileTask, sendMultipleFilesTask, resolveSend]

/-! ## Lemmas on the order of statuses -/

theorem forwardOnly_receiving (k : Nat) (tail : List GoString)
    (h : tail = [] ∨ tail = [str "complete"] ∨ tail = [str "error"]) :
    forwardOnly (str "receiving" :: (List.replicate k (str "receiving") ++ tail)) = true ∧
      errorIsLast (str "receiving" :: (List.replicate k (str "receiving") ++ tail)) = true := by
  induction k with
  | zero =>
    rcases h with rfl | rfl | rfl <;> exact ⟨by decide, by decide⟩
  | succ k ih =>
    obtain ⟨ih1, ih2⟩ := ih
    have hr : List.replicate (k + 1) (str "receiving") ++ tail =
        str "receiving" :: (List.replicate k (str "receiving") ++ tail) := rfl
    rw [hr]
    refine ⟨?_, ?_⟩
    · have : statusForward (str "receiving") (str "receiving") = true := by decide
      simp only [forwardOnly, this, Bool.true_and] at ih1 ⊢
      exact ih1
    · have h1 : (str "receiving" != str "error") = true := by decide
      rw [errorIsLast, h1, Bool.true_or, Bool.true_and]
      exact ih2

theorem lastSnapshot_fields (named : TransferStatus) (ns : List Int) :
    (lastSnapshot named (ns.map (progressSnapshot named))).Status = named.Status ∧
      (lastSnapshot named (ns.map (progressSnapshot named))).ID = named.ID := by
  unfold lastSnapshot
  cases h : (ns.map (progressSnapshot named)).getLast? with
  | none => exact ⟨rfl, rfl⟩
  | some x =>
    have hx := List.mem_of_getLast?_eq_some h
    simp only [List.mem_map] at hx
    obtain ⟨n, _, rfl⟩ := hx
    exact ⟨rfl, rfl⟩

theorem snapshots_status (named : TransferStatus) (ns : List Int) :
    (ns.map (progressSnapshot named)).map (fun t => t.Status) =
      List.replicate ns.length named.Status := by
  induction ns with
  | nil => rfl
  | cons n ns ih =>
    simp only [List.map_cons, List.length_cons, List.replicate_succ, ih]
    rfl

theorem snapshots_id (named : TransferStatus) (ns : List Int) :
    ∀ t ∈ ns.map (progressSnapshot named), t.ID = named.ID := by
  intro t ht
  simp only [List.mem_map] at ht
  obtain ⟨n, _, rfl⟩ := ht
  rfl

theorem receiveCopy_statuses (transferID safeFilename : GoString) (named : TransferStatus)
    (steps : List CopyStep) :
    (∃ k tail, (receiveCopy transferID safeFilename named steps).map (fun t => t.Status) =
        List.replicate k named.Status ++ tail ∧
        (tail = [] ∨ tail = [str "complete"] ∨ tail = [str "error"])) ∧
      ∀ t ∈ receiveCopy transferID safeFilename named steps, t.ID = named.ID := by
  unfold receiveCopy
  dsimp only
  have hid := snapshots_id named (copyLoop ⟨true, 0⟩ 0 steps).1
  have hst := snapshots_status named (copyLoop ⟨true, 0⟩ 0 steps).1
  have hl := lastSnapshot_fields named (copyLoop ⟨true, 0⟩ 0 steps).1
  cases hc : (copyLoop ⟨true, 0⟩ 0 steps).2 with
  | none =>
    dsimp only
    refine ⟨⟨(copyLoop ⟨true, 0⟩ 0 steps).1.length, [], ?_, Or.inl rfl⟩, hid⟩
    rw [List.append_nil]
    exact hst
  | some res =>
    obtain ⟨written, err⟩ := res
    cases err with
    | none =>
      dsimp only
      refine ⟨⟨(copyLoop ⟨true, 0⟩ 0 steps).1.length, [str "complete"], ?_,
        Or.inr (Or.inl rfl)⟩, ?_⟩
      · rw [List.map_append, hst]
        rfl
      · intro t ht
        simp only [List.mem_append, List.mem_singleton] at ht
        rcases ht with ht | rfl
        · exact hid t ht
        · exact hl.2
    | some e =>
      dsimp only
      refine ⟨⟨(copyLoop ⟨true, 0⟩ 0 steps).1.length, [str "error"], ?_,
        Or.inr (Or.inr rfl)⟩, ?_⟩
      · rw [List.map_append, hst]
        rfl
      · intro t ht
        simp only [List.mem_append, List.mem_singleton] at ht
        rcases ht with ht | rfl
        · exact hid t ht
        · exact hl.2

theorem movesForward_of_statuses (id : GoString) (ts : List TransferStatus)
    (sts : List GoString) (h1 : ts.map (fun t => t.Status) = sts)
    (h2 : forwardOnly sts = true) (h3 : errorIsLast sts = true) (h4 : ∀ t ∈ ts, t.ID = id) :
    movesForward id ts := by
  subst h1
  exact ⟨h2, h3, h4⟩

theorem sendTextTask_forward (id filename : GoString) (total createdAt : Int)
    (backend : SendOutcome) :
    movesForward id (newSendTransfer id filename total createdAt ::
      sendTextTask (newSendTransfer id filename total createdAt) backend) := by
  rcases backend with err | ⟨code, ⟨ok, rerr⟩⟩
  · exact movesForward_of_statuses _ _ [str "sending", str "error"] rfl (by decide) (by decide)
      (by simp [sendTextTask, newSendTransfer])
  · cases rerr with
    | some e =>
      exact movesForward_of_statuses _ _ [str "sending", str "waiting", str "error"] rfl
        (by decide) (by decide) (by simp [sendTextTask, resolveSend, newSendTransfer])
    | none =>
      cases ok with
      | true =>
        exact movesForward_of_statuses _ _ [str "sending", str "waiting", str "complete"] rfl
          (by decide) (by decide) (by simp [sendTextTask, resolveSend, newSendTransfer])
      | false =>
        exact movesForward_of_statuses _ _ [str "sending", str "waiting", str "waiting"] rfl
          (by decide) (by decide) (by simp [sendTextTask, resolveSend, newSendTransfer])

theorem sendSingleFileTask_eq (transfer : TransferStatus) (backend : SendOutcome) :
    sendSingleFileTask transfer none backend = sendTextTask transfer backend := by
  rcases backend with err | ⟨code, result⟩ <;> rfl

theorem sendMultipleFilesTask_eq (transfer : TransferStatus) (openErr : Option GoString)
    (backend : SendOutcome) :
    sendMultipleFilesTask transfer openErr backend =
      sendSingleFileTask transfer openErr backend := by
  cases openErr with
  | some e => rfl
  | none => rcases backend with err | ⟨code, result⟩ <;> rfl

theorem sendSingleFileTask_forward (id filename : GoString) (total createdAt : Int)
    (openErr : Option GoString) (backend : SendOutcome) :
    movesForward id (newSendTransfer id filename total createdAt ::
      sendSingleFileTask (newSendTransfer id filename total createdAt) openErr backend) := by
  cases openErr with
  | some e =>
    exact movesForward_of_statuses _ _ [str "sending", str "error"] rfl (by decide) (by decide)
      (by simp [sendSingleFileTask, newSendTransfer])
  | none =>
    rw [sendSingleFileTask_eq]
    exact sendTextTask_forward id filename total createdAt backend

theorem receiveTask_forward (id code : GoString) (createdAt : Int)
    (recv : Except GoString IncomingMessage) (io : ReceiveIO) :
    movesForward id (newReceiveTransfer id code createdAt ::
      receiveTask id (newReceiveTransfer id code createdAt) recv io) := by
  rcases recv with err | msg
  · exact movesForward_of_statuses _ _ [str "receiving", str "error"] rfl (by decide)
      (by decide) (by simp [receiveTask, newReceiveTransfer])
  · unfold receiveTask
    dsimp only
    cases hs : sanitizeFilename msg.Name with
    | none =>
      exact movesForward_of_statuses _ _ [str "receiving"] rfl (by decide) (by decide)
        (by simp [newReceiveTransfer])
    | some safeFilename =>
      dsimp only
      cases ht : msg.isText with
      | true =>
        simp only [if_true]
        rcases io.textCopy with e | content
        · exact movesForward_of_statuses _ _ [str "receiving", str "receiving", str "error"]
            rfl (by decide) (by decide) (by simp [newReceiveTransfer])
        · exact movesForward_of_statuses _ _ [str "receiving", str "receiving", str "complete"]
            rfl (by decide) (by decide) (by simp [newReceiveTransfer])
      | false =>
        simp only [Bool.false_eq_true, if_false]
        cases io.mkdirErr with
        | some e =>
          exact movesForward_of_statuses _ _ [str "receiving", str "receiving", str "error"]
            rfl (by decide) (by decide) (by simp [newReceiveTransfer])
        | none =>
          cases io.createErr with
          | some e =>
            exact movesForward_of_statuses _ _ [str "receiving", str "receiving", str "error"]
              rfl (by decide) (by decide) (by simp [newReceiveTransfer])
          | none =>
            dsimp only
            obtain ⟨⟨k, tail, hk, htail⟩, hid⟩ := receiveCopy_statuses id safeFilename
              { newReceiveTransfer id code createdAt with
                Total := msg.TransferBytes64, Filename := safeFilename } io.steps
            have hfw := forwardOnly_receiving (k + 1) tail htail
            refine movesForward_of_statuses _ _
              (str "receiving" :: (List.replicate (k + 1) (str "receiving") ++ tail)) ?_
              hfw.1 hfw.2 ?_
            · simp only [List.map_cons, hk]
              rfl
            · intro t ht2
              simp only [List.mem_cons] at ht2
              rcases ht2 with rfl | rfl | ht2
              · rfl
              · rfl
              · exact hid t ht2

/-! ## The claim on the order of statuses -/

/-- C11. For every outcome of the backend and of the input and output, the
statuses that a task publishes after the record registered by its handler
only move along `sending`, `waiting`, then `complete` or `error`, or along
`receiving`, then `complete` or `error`, a status being allowed to repeat;
nothing is published after a record with the status `error`, and every
record carries the id of the transfer. -/
theorem tasks_move_forward (id filename code : GoString) (total createdAt : Int)
    (openErr : Option GoString) (backend : SendOutcome)
    (recv : Except GoString IncomingMessage) (io : ReceiveIO) :
    movesForward id (newSendTransfer id filename total createdAt ::
        sendTextTask (newSendTransfer id filename total createdAt) backend) ∧
      movesForward id (newSendTransfer id filename total createdAt ::
        sendSingleFileTask (newSendTransfer id filename total createdAt) openErr backend) ∧
      movesForward id (newSendTransfer id filename total createdAt ::
        sendMultipleFilesTask (newSendTransfer id filename total createdAt) openErr backend) ∧
      movesForward id (newReceiveTransfer id code createdAt ::
        receiveTask id (newReceiveTransfer id code createdAt) recv io) := by
  refine ⟨sendTextTask_forward id filename total createdAt backend,
    sendSingleFileTask_forward id filename total createdAt openErr backend, ?_,
    receiveTask_forward id code createdAt recv io⟩
  rw [sendMultipleFilesTask_eq]
  exact sendSingleFileTask_forward id filename total createdAt openErr backend

/-! ## Lemmas on the maps -/

theorem lookup_mapStore {α : Type} (m : List (GoString × α)) (k k1 : GoString) (v : α) :
    (mapStore m k v).lookup k1 = if k1 = k then some v else m.lookup k1 := by
  induction m with
  | nil =>
    by_cases h : k1 = k
    · subst h; simp [mapStore, List.lookup]
    · have hb : (k1 == k) = false := by simpa using h
      simp [mapStore, List.lookup, hb, h]
  | cons e m ih =>
    obtain ⟨ek, ev⟩ := e
    unfold mapStore
    by_cases he : ek = k
    · subst he
      simp only [if_true]
      by_cases h : k1 = ek
      · subst h; simp [List.lookup]
      · have hb : (k1 == ek) = false := by simpa using h
        simp [List.lookup, hb, h]
    · simp only [he, if_false]
      by_cases h1 : k1 = ek
      · subst h1
        have : ¬ k1 = k := he
        simp [List.lookup, this]
      · have hb : (k1 == ek) = false := by simpa using h1
        simp only [List.lookup, hb]
        exact ih

theorem lookup_mapDelete {α : Type} (m : List (GoString × α)) (k k1 : GoString) :
    (mapDelete m k).lookup k1 = if k1 = k then none else m.lookup k1 := by
  induction m with
  | nil => simp [mapDelete]
  | cons e m ih =>
    obtain ⟨ek, ev⟩ := e
    unfold mapDelete at ih ⊢
    by_cases he : ek = k
    · subst he
      simp only [List.filter, ne_eq, not_true_eq_false, decide_False]
      rw [ih]
      by_cases h : k1 = ek
      · simp [h]
      · have hb : (k1 == ek) = false := by simpa using h
        simp [List.lookup, hb, h]
    · have hd : decide ((ek, ev).1 ≠ k) = true := by simpa using he
      simp only [List.filter, hd]
      by_cases h1 : k1 = ek
      · subst h1
        have : ¬ k1 = k := he
        simp [List.lookup, this]
      · have hb : (k1 == ek) = false := by simpa using h1
        simp only [List.lookup, hb]
        exact ih

theorem notifySubscribers_server (st : ServerState) (writeOk : Conn → Bool)
    (t : TransferStatus) : (st.notifySubscribers writeOk t).1.server = st.server := by
  unfold ServerState.notifySubscribers
  cases st.subscribers.lookup t.ID with
  | none => rfl
  | some conns =>
    cases jsonMarshal t with
    | none => rfl
    | some data => rfl

theorem getTransfer_setTransfer (st : ServerState) (writeOk : Conn → Bool)
    (t : TransferStatus) (id : GoString) :
    (st.setTransfer writeOk t).1.getTransfer id =
      if id = t.ID then some t else st.getTransfer id := by
  unfold ServerState.setTransfer ServerState.getTransfer Server.getTransfer
  rw [notifySubscribers_server]
  exact lookup_mapStore _ _ _ _

theorem getTransfer_deleteTransfer (st : ServerState) (id1 id : GoString) :
    (st.deleteTransfer id1).getTransfer id = if id = id1 then none else st.getTransfer id := by
  unfold ServerState.deleteTransfer ServerState.getTransfer Server.getTransfer
  exact lookup_mapDelete _ _ _

theorem getTransfer_applyOps (st : ServerState) (ops : List RegistryOp) (id : GoString) :
    (st.applyOps ops).getTransfer id = (lastWrite id ops).getD (st.getTransfer id) := by
  induction ops generalizing st with
  | nil => rfl
  | cons op ops ih =>
    have h : st.applyOps (op :: ops) = (st.applyOp op).applyOps ops := rfl
    rw [h, ih]
    cases op with
    | set t writeOk =>
      simp only [lastWrite, ServerState.applyOp]
      cases lastWrite id ops with
      | some w => rfl
      | none =>
        simp only [Option.getD_none, getTransfer_setTransfer]
        by_cases hid : t.ID = id
        · simp [hid]
        · have : ¬ id = t.ID := fun e => hid e.symm
          simp [hid, this]
    | delete id1 =>
      simp only [lastWrite, ServerState.applyOp]
      cases lastWrite id ops with
      | some w => rfl
      | none =>
        simp only [Option.getD_none, getTransfer_deleteTransfer]
        by_cases hid : id1 = id
        · simp [hid]
        · have : ¬ id = id1 := fun e => hid e.symm
          simp [hid, this]

/-! ## The claim on the registry -/

/-- C12. After any sequence of `setTransfer` and `deleteTransfer` calls,
`getTransfer(id)` is decided by the last call that concerns `id`: the record
of a `setTransfer`, nil after a `deleteTransfer`, and what it was before the
sequence when no call concerns `id` (nil on a new server); a call for another
id leaves `getTransfer(id)` as it is. -/
theorem registry_is_map (st : ServerState) (ops : List RegistryOp) (id : GoString) :
    (st.applyOps ops).getTransfer id = (lastWrite id ops).getD (st.getTransfer id) ∧
      (∀ osTempDir, ((NewServer osTempDir).applyOps ops).getTransfer id =
        (lastWrite id ops).getD none) ∧
      (∀ t writeOk, (st.setTransfer writeOk t).1.getTransfer t.ID = some t) ∧
      (st.deleteTransfer id).getTransfer id = none ∧
      (∀ t writeOk, t.ID ≠ id →
        (st.applyOp (RegistryOp.set t writeOk)).getTransfer id = st.getTransfer id) ∧
      (∀ id1, id1 ≠ id →
        (st.applyOp (RegistryOp.delete id1)).getTransfer id = st.getTransfer id) := by
  refine ⟨getTransfer_applyOps st ops id, fun d => getTransfer_applyOps _ ops id, ?_, ?_, ?_, ?_⟩
  · intro t w
    rw [getTransfer_setTransfer]; simp
  · rw [getTransfer_deleteTransfer]; simp
  · intro t w h
    have : ¬ id = t.ID := fun e => h e.symm
    simp [ServerState.applyOp, getTransfer_setTransfer, this]
  · intro id1 h
    have : ¬ id = id1 := fun e => h e.symm
    simp [ServerState.applyOp, getTransfer_deleteTransfer, this]

/-! ## Lemmas on progressReader -/

theorem wrapInt64_of_range (x : Int) (h0 : -9223372036854775808 ≤ x)
    (h1 : x < 9223372036854775808) : wrapInt64 x = x := by
  unfold wrapInt64
  omega

theorem bytesRead_nonneg (rs : List ReadResult) : 0 ≤ bytesRead rs := by
  induction rs with
  | nil => simp [bytesRead]
  | cons r rs ih =>
    have h : bytesRead (r :: rs) = Int.ofNat r.n + bytesRead rs := by simp [bytesRead]
    have hn : (0 : Int) ≤ Int.ofNat r.n := Int.ofNat_nonneg _
    omega

theorem bytesRead_cons (r : ReadResult) (rs : List ReadResult) :
    bytesRead (r :: rs) = Int.ofNat r.n + bytesRead rs := by simp [bytesRead]

theorem readAll_results (pr : progressReader) (rs : List ReadResult) :
    (pr.readAll rs).2.1 = rs := by
  induction rs generalizing pr with
  | nil => rfl
  | cons r rs ih =>
    simp only [progressReader.readAll]
    rw [ih]
    rfl

theorem readAll_silent (pr : progressReader) (rs : List ReadResult)
    (h : pr.hasOnProgress = false) : (pr.readAll rs).2.2 = [] := by
  induction rs generalizing pr with
  | nil => rfl
  | cons r rs ih =>
    simp only [progressReader.readAll]
    rw [ih _ (by simpa [progressReader.Read] using h)]
    simp [progressReader.Read, h]

theorem readAll_totals (pr : progressReader) (rs : List ReadResult)
    (h : pr.hasOnProgress = true) (h0 : 0 ≤ pr.total)
    (hsum : pr.total + bytesRead rs < 9223372036854775808) :
    (pr.readAll rs).2.2 = runningTotals pr.total rs ∧
      (pr.readAll rs).1.total = pr.total + bytesRead rs := by
  induction rs generalizing pr with
  | nil => simp [progressReader.readAll, runningTotals, bytesRead]
  | cons r rs ih =>
    have hc := bytesRead_cons r rs
    have hr := bytesRead_nonneg rs
    have hn : (0 : Int) ≤ Int.ofNat r.n := Int.ofNat_nonneg _
    have hw : wrapInt64 (pr.total + Int.ofNat r.n) = pr.total + Int.ofNat r.n :=
      wrapInt64_of_range _ (by omega) (by omega)
    have hstep : pr.Read r =
        (⟨pr.hasOnProgress, pr.total + Int.ofNat r.n⟩, r, [pr.total + Int.ofNat r.n]) := by
      simp only [progressReader.Read, h, if_true]
      have hw2 : wrapInt64 (pr.total + (r.n : Int)) = pr.total + Int.ofNat r.n := hw
      rw [hw2]
    simp only [progressReader.readAll, hstep]
    obtain ⟨ih1, ih2⟩ := ih ⟨pr.hasOnProgress, pr.total + Int.ofNat r.n⟩ h (by simp only; omega)
      (by simp only; omega)
    simp only at ih1 ih2
    refine ⟨?_, ?_⟩
    · rw [ih1]; simp [runningTotals]
    · rw [ih2, hc]; omega

theorem runningTotals_length (acc : Int) (rs : List ReadResult) :
    (runningTotals acc rs).length = rs.length := by
  induction rs generalizing acc with
  | nil => rfl
  | cons r rs ih => simp [runningTotals, ih]

theorem runningTotals_ge (acc : Int) (rs : List ReadResult) :
    ∀ x ∈ runningTotals acc rs, acc ≤ x := by
  induction rs generalizing acc with
  | nil => simp [runningTotals]
  | cons r rs ih =>
    intro x hx
    have hn : (0 : Int) ≤ Int.ofNat r.n := Int.ofNat_nonneg _
    simp only [runningTotals, List.mem_cons] at hx
    rcases hx with rfl | hx
    · omega
    · have := ih _ x hx
      omega

theorem runningTotals_sorted (acc : Int) (rs : List ReadResult) :
    List.Pairwise (fun a b => a ≤ b) (runningTotals acc rs) := by
  induction rs generalizing acc with
  | nil => simp [runningTotals]
  | cons r rs ih =>
    simp only [runningTotals, List.pairwise_cons]
    exact ⟨runningTotals_ge _ rs, ih _⟩

theorem runningTotals_getLast (acc : Int) (rs : List ReadResult) (h : rs ≠ []) :
    (runningTotals acc rs).getLast? = some (acc + bytesRead rs) := by
  induction rs generalizing acc with
  | nil => exact absurd rfl h
  | cons r rs ih =>
    cases rs with
    | nil => simp [runningTotals, bytesRead]
    | cons r2 rs2 =>
      have h2 := ih (acc + Int.ofNat r.n) (by simp)
      rw [bytesRead_cons r (r2 :: rs2)]
      simp only [runningTotals] at h2 ⊢
      rw [List.getLast?_cons_cons, h2]
      congr 1
      omega

/-! ## The claim on progressReader -/

/-- C13 fails as stated: a `progressReader` whose `onProgress` is nil hands
the results of the underlying reader back without a single call of
`onProgress`; with a callback set, the same three calls report 5, 10 and
13. -/
theorem progressReader_without_callback :
    (progressReader.readAll ⟨false, 0⟩ [⟨5, none⟩, ⟨5, none⟩, ⟨3, some IOError.eof⟩]).2.2 = [] ∧
      (progressReader.readAll ⟨false, 0⟩ [⟨5, none⟩, ⟨5, none⟩, ⟨3, some IOError.eof⟩]).2.1 =
        [⟨5, none⟩, ⟨5, none⟩, ⟨3, some IOError.eof⟩] ∧
      (progressReader.Read ⟨false, 0⟩ ⟨5, none⟩).2.2 = [] ∧
      (progressReader.readAll ⟨true, 0⟩ [⟨5, none⟩, ⟨5, none⟩, ⟨3, some IOError.eof⟩]).2.2 =
        [5, 10, 13] := by
  refine ⟨by decide, by decide, by decide, by decide⟩

/-- C13 (amended). Every `Read` of a `progressReader` returns the result of
the underlying reader unchanged; without a callback nothing is reported;
with a callback, a counter that starts at zero and a byte total below
`2^63`, every call reports once, the reports are the sums of the byte counts
of the calls so far, they never decrease, and the last one is the number of
bytes read. -/
theorem progressReader_transparent (pr : progressReader) (rs : List ReadResult) :
    (pr.readAll rs).2.1 = rs ∧
      (∀ r, (pr.Read r).2.1 = r) ∧
      (pr.hasOnProgress = false → (pr.readAll rs).2.2 = []) ∧
      (pr.hasOnProgress = true → pr.total = 0 → bytesRead rs < 9223372036854775808 →
        (pr.readAll rs).2.2 = runningTotals 0 rs ∧
          ((pr.readAll rs).2.2).length = rs.length ∧
          List.Pairwise (fun a b => a ≤ b) (pr.readAll rs).2.2 ∧
          (pr.readAll rs).1.total = bytesRead rs ∧
          (rs ≠ [] → ((pr.readAll rs).2.2).getLast? = some (bytesRead rs))) := by
  refine ⟨readAll_results pr rs, fun r => rfl, readAll_silent pr rs, ?_⟩
  intro h h0 hsum
  obtain ⟨h1, h2⟩ := readAll_totals pr rs h (by omega) (by omega)
  rw [h0] at h1 h2
  refine ⟨h1, ?_, ?_, ?_, ?_⟩
  · rw [h1]; exact runningTotals_length 0 rs
  · rw [h1]; exact runningTotals_sorted 0 rs
  · rw [h2]; omega
  · intro hne
    rw [h1, runningTotals_getLast 0 rs hne]
    congr 1
    omega

/-- Witness of C13 (amended): the three reads of `TestProgressReader`, of 5,
5 and 3 bytes, the last one with `io.EOF`. -/
theorem progressReader_transparent_witness :
    (progressReader.readAll ⟨true, 0⟩ [⟨5, none⟩, ⟨5, none⟩, ⟨3, some IOError.eof⟩]).2.2 =
        runningTotals 0 [⟨5, none⟩, ⟨5, none⟩, ⟨3, some IOError.eof⟩] ∧
      runningTotals 0 [⟨5, none⟩, ⟨5, none⟩, ⟨3, some IOError.eof⟩] = [5, 10, 13] ∧
      bytesRead [⟨5, none⟩, ⟨5, none⟩, ⟨3, some IOError.eof⟩] = 13 :=
  ⟨((progressReader_transparent ⟨true, 0⟩
      [⟨5, none⟩, ⟨5, none⟩, ⟨3, some IOError.eof⟩]).2.2.2 rfl rfl (by decide)).1,
    by decide, by decide⟩

/-! ## Lemmas on the sweeper -/

theorem timeSub_gt_ttl (now c : Int) : transferTTL < timeSub now c ↔ transferTTL < now - c := by
  unfold timeSub transferTTL maxDuration minDuration
  split_ifs <;> omega

theorem mem_rangeLoop {α : Type} (seen : List GoString) (m : List (GoString × α))
    (k : GoString) (v : α) :
    (k, v) ∈ rangeLoop seen m ↔ k ∉ seen ∧ m.lookup k = some v := by
  induction m generalizing seen with
  | nil => simp [rangeLoop]
  | cons e m ih =>
    obtain ⟨ek, ev⟩ := e
    unfold rangeLoop
    by_cases hk : k = ek
    · subst hk
      by_cases hs : k ∈ seen
      · simp [hs, ih]
      · simp only [hs, if_false, List.mem_cons, ih, List.lookup, beq_self_eq_true,
          Prod.mk.injEq, true_and, List.mem_cons, true_or, not_true_eq_false, false_and,
          or_false, not_false_eq_true, Option.some.injEq]
        exact eq_comm
    · have hb : (k == ek) = false := by simpa using hk
      by_cases hs : ek ∈ seen
      · simp only [hs, if_true, ih, List.lookup, hb]
      · simp only [hs, if_false, List.mem_cons, ih, List.lookup, hb, Prod.mk.injEq, hk,
          false_and, false_or, not_or, not_false_eq_true, true_and]

theorem mem_expiredIDs (s : Server) (now : Int) (id : GoString) :
    id ∈ expiredIDs s now ↔
      ∃ t, s.getTransfer id = some t ∧ transferTTL < now - t.CreatedAt := by
  unfold expiredIDs mapRange Server.getTransfer
  simp only [List.mem_map, List.mem_filter, decide_eq_true_eq, timeSub_gt_ttl]
  constructor
  · rintro ⟨⟨k, v⟩, ⟨hm, hx⟩, rfl⟩
    exact ⟨v, ((mem_rangeLoop [] _ k v).mp hm).2, hx⟩
  · rintro ⟨t, hl, hx⟩
    exact ⟨(id, t), ⟨(mem_rangeLoop [] _ id t).mpr ⟨by simp, hl⟩, hx⟩, rfl⟩

theorem mem_of_lookup {α : Type} (m : List (GoString × α)) (k : GoString) (v : α)
    (h : m.lookup k = some v) : (k, v) ∈ m := by
  induction m with
  | nil => simp at h
  | cons e m ih =>
    obtain ⟨ek, ev⟩ := e
    by_cases hk : k = ek
    · subst hk
      simp [List.lookup] at h
      subst h
      exact List.mem_cons_self _ _
    · have hb : (k == ek) = false := by simpa using hk
      simp only [List.lookup, hb] at h
      exact List.mem_cons_of_mem _ (ih h)

theorem cleanupLoop_getTransfer (ids : List GoString) (st : ServerState) (fs : FileSystem)
    (id : GoString) :
    (cleanupLoop ids st fs).1.getTransfer id = if id ∈ ids then none else st.getTransfer id := by
  induction ids generalizing st fs with
  | nil => simp [cleanupLoop]
  | cons i ids ih =>
    unfold cleanupLoop
    rw [ih, getTransfer_deleteTransfer]
    by_cases h1 : id ∈ ids
    · simp [h1]
    · by_cases h2 : id = i
      · simp [h2]
      · simp [h1, h2]

theorem cleanupLoop_rest (ids : List GoString) (st : ServerState) (fs : FileSystem) :
    (cleanupLoop ids st fs).1.server.tempDir = st.server.tempDir ∧
      (cleanupLoop ids st fs).1.subscribers = st.subscribers := by
  induction ids generalizing st fs with
  | nil => exact ⟨rfl, rfl⟩
  | cons i ids ih =>
    unfold cleanupLoop
    obtain ⟨h1, h2⟩ := ih (st.deleteTransfer i) (removeAll fs (filepathJoin [st.server.tempDir, i]))
    exact ⟨h1, h2⟩

theorem mem_removeAll (fs : FileSystem) (p q : GoString) :
    q ∈ removeAll fs p ↔ q ∈ fs ∧ (p = [] ∨ endsWithDot p = true ∨ isUnder q p = false) := by
  unfold removeAll
  by_cases h : p = [] ∨ endsWithDot p = true
  · rw [if_pos h]
    constructor
    · intro hq
      rcases h with h | h
      · exact ⟨hq, Or.inl h⟩
      · exact ⟨hq, Or.inr (Or.inl h)⟩
    · exact fun hq => hq.1
  · rw [if_neg h]
    simp only [List.mem_filter, Bool.not_eq_true']
    constructor
    · rintro ⟨h1, h2⟩; exact ⟨h1, Or.inr (Or.inr h2)⟩
    · rintro ⟨h1, h2 | h2 | h2⟩
      · exact absurd (Or.inl h2) h
      · exact absurd (Or.inr h2) h
      · exact ⟨h1, h2⟩

theorem mem_cleanupLoop (ids : List GoString) (st : ServerState) (fs : FileSystem)
    (q : GoString) :
    q ∈ (cleanupLoop ids st fs).2 ↔
      q ∈ fs ∧ ∀ id ∈ ids,
        (filepathJoin [st.server.tempDir, id] = [] ∨
          endsWithDot (filepathJoin [st.server.tempDir, id]) = true ∨
          isUnder q (filepathJoin [st.server.tempDir, id]) = false) := by
  induction ids generalizing st fs with
  | nil => simp [cleanupLoop]
  | cons i ids ih =>
    unfold cleanupLoop
    rw [ih, mem_removeAll]
    have ht : (st.deleteTransfer i).server.tempDir = st.server.tempDir := rfl
    rw [ht]
    simp only [List.mem_cons, forall_eq_or_imp]
    tauto

/-! ## Lemmas on filepath.Join with a single element -/

theorem splitLoop_no_sep (sep : Nat) (x cur : GoString) (h : sep ∉ x) :
    splitLoop sep x cur = [cur ++ x] := by
  induction x generalizing cur with
  | nil => simp [splitLoop]
  | cons c cs ih =>
    have hc : ¬ c = sep := fun e => h (by simp [e])
    have hcs : sep ∉ cs := fun e => h (List.mem_cons_of_mem _ e)
    simp only [splitLoop, hc, if_false]
    rw [ih _ hcs]
    simp

theorem splitLoop_append (sep : Nat) (s x cur : GoString) (h : sep ∉ x) :
    splitLoop sep (s ++ sep :: x) cur = splitLoop sep s cur ++ [x] := by
  induction s generalizing cur with
  | nil =>
    simp only [List.nil_append, splitLoop, if_true]
    rw [splitLoop_no_sep sep x [] h]
    simp
  | cons c cs ih =>
    by_cases hc : c = sep
    · simp only [List.cons_append, splitLoop, hc, if_true, List.append_eq]
      rw [ih]
    · simp only [List.cons_append, splitLoop, hc, if_false, List.append_eq]
      rw [ih]

theorem cleanLoop_append_segment (rooted : Bool) (es : List GoString) (x : GoString)
    (hx : isPathSegment x) (out : List GoString) (d : Nat) :
    cleanLoop rooted (es ++ [x]) out d = cleanLoop rooted es out d ++ [x] := by
  obtain ⟨h1, _, h3, h4⟩ := hx
  induction es generalizing out d with
  | nil =>
    simp only [List.nil_append, cleanLoop, h1, h3, h4, or_self, if_false]
  | cons e es ih =>
    simp only [List.cons_append, cleanLoop]
    split_ifs <;> exact ih _ _

theorem stringsJoin_append_one (out : List GoString) (x : GoString) :
    stringsJoin (out ++ [x]) slash =
      (if out = [] then [] else stringsJoin out slash ++ [slash]) ++ x := by
  unfold stringsJoin
  induction out with
  | nil => simp [List.intercalate]
  | cons a out ih =>
    cases out with
    | nil => simp [List.intercalate]
    | cons b rest =>
      simp only [List.intercalate, List.cons_append, List.intersperse_cons_cons,
        List.flatten_cons, reduceCtorEq, if_false] at ih ⊢
      rw [ih]
      simp

theorem filepathJoin_segment (dir : GoString) :
    ∃ base, ∀ x, isPathSegment x → filepathJoin [dir, x] = base ++ x := by
  by_cases hd : dir = []
  · subst hd
    refine ⟨[], ?_⟩
    intro x hx
    obtain ⟨h1, h2, h3, h4⟩ := hx
    have hh : (x.head? == some slash) = false := by
      cases x with
      | nil => rfl
      | cons c cs =>
        have : ¬ c = slash := fun e => h2 (by simp [e])
        simpa using this
    have hs : stringsJoin [x] slash = x := by simp [stringsJoin, List.intercalate]
    simp only [filepathJoin, if_true, h1, if_false, hs, filepathClean, hh, stringsSplit,
      splitLoop_no_sep slash x [] h2, List.nil_append, cleanLoop, h3, h4, or_self,
      Bool.false_eq_true, reduceCtorEq]
  · refine ⟨(if (dir.head? == some slash) = true then [slash] else []) ++
      (if cleanLoop (dir.head? == some slash) (stringsSplit dir slash) [] 0 = [] then []
        else stringsJoin (cleanLoop (dir.head? == some slash) (stringsSplit dir slash) [] 0)
          slash ++ [slash]), ?_⟩
    intro x hx
    have h2 := hx.2.1
    have hs : stringsJoin [dir, x] slash = dir ++ slash :: x := by
      simp [stringsJoin, List.intercalate]
    have hne : dir ++ slash :: x ≠ [] := by simp
    have hh : (dir ++ slash :: x).head? = dir.head? := by
      cases dir with
      | nil => exact absurd rfl hd
      | cons c cs => rfl
    simp only [filepathJoin, hd, if_false, hs, filepathClean, hne, hh, stringsSplit,
      splitLoop_append slash dir x [] h2, cleanLoop_append_segment _ _ x hx,
      stringsJoin_append_one]
    by_cases hr : (dir.head? == some slash) = true
    · simp [hr]
    · simp [hr]

theorem segment_not_removable (base x : GoString) (hx : isPathSegment x) :
    base ++ x ≠ [] ∧ endsWithDot (base ++ x) = false ∧
      hasSuffix (base ++ x) [slash] = false := by
  obtain ⟨h1, h2, h3, h4⟩ := hx
  obtain ⟨l, a, rfl⟩ : ∃ l a, x = l ++ [a] := by
    rcases List.eq_nil_or_concat x with h | ⟨l, a, h⟩
    · exact absurd h h1
    · exact ⟨l, a, by simpa using h⟩
  have ha : a ≠ slash := fun e => h2 (by simp [e])
  refine ⟨by simp, ?_, ?_⟩
  · unfold endsWithDot hasSuffix
    simp only [Bool.or_eq_false_iff, beq_eq_false_iff_ne, ne_eq, decide_eq_false_iff_not]
    constructor
    · intro h
      have hl := congrArg List.length h
      simp only [List.length_append, List.length_singleton, List.length_nil] at hl
      have hb : base = [] := List.length_eq_zero.mp (by omega)
      have hl2 : l = [] := List.length_eq_zero.mp (by omega)
      subst hb hl2
      exact h3 (by simpa using h)
    · intro h
      have h5 := List.take_append_drop ((base ++ (l ++ [a])).length - [slash, dot].length)
        (base ++ (l ++ [a]))
      rw [h] at h5
      have h6 : (base ++ l) ++ [a] =
          (List.take ((base ++ (l ++ [a])).length - [slash, dot].length)
            (base ++ (l ++ [a])) ++ [slash]) ++ [dot] := by
        simp only [List.append_assoc] at h5 ⊢
        exact h5.symm
      obtain ⟨h7, h8⟩ := List.append_inj' h6 rfl
      have ha2 : a = dot := by simpa using h8
      rcases List.eq_nil_or_concat l with hl | ⟨l2, b, hl⟩
      · subst hl
        exact h3 (by simp [ha2])
      · have hl3 : l = l2 ++ [b] := by simpa using hl
        subst hl3
        have h9 : (base ++ l2) ++ [b] =
            List.take ((base ++ (l2 ++ [b] ++ [a])).length - [slash, dot].length)
              (base ++ (l2 ++ [b] ++ [a])) ++ [slash] := by
          simp only [List.append_assoc] at h7 ⊢
          exact h7
        obtain ⟨_, h10⟩ := List.append_inj' h9 rfl
        have hb : b = slash := by simpa using h10
        exact h2 (by simp [hb])
  · unfold hasSuffix
    simp only [decide_eq_false_iff_not]
    intro h
    have h5 := List.take_append_drop ((base ++ (l ++ [a])).length - [slash].length)
      (base ++ (l ++ [a]))
    rw [h] at h5
    have h6 : (base ++ l) ++ [a] =
        List.take ((base ++ (l ++ [a])).length - [slash].length) (base ++ (l ++ [a])) ++
          [slash] := by
      simp only [List.append_assoc] at h5 ⊢
      exact h5.symm
    obtain ⟨_, h8⟩ := List.append_inj' h6 rfl
    exact ha (by simpa using h8)

theorem isUnder_segment (base x q : GoString) (hx : isPathSegment x)
    (h : isUnder q (base ++ x) = true) :
    ∃ r, q = base ++ (x ++ r) ∧ (r = [] ∨ ∃ r1, r = slash :: r1) := by
  have hs := (segment_not_removable base x hx).2.2
  unfold isUnder at h
  rw [hs] at h
  simp only [Bool.false_eq_true, if_false, Bool.or_eq_true, beq_iff_eq] at h
  rcases h with h | h
  · exact ⟨[], by simp [h], Or.inl rfl⟩
  · obtain ⟨rest, hr⟩ := (hasPrefix_iff _ _).mp h
    exact ⟨slash :: rest, by simp [hr], Or.inr ⟨rest, rfl⟩⟩

theorem segment_cancel (k e r1 r2 : GoString) (hk : slash ∉ k) (he : slash ∉ e)
    (h1 : r1 = [] ∨ ∃ t, r1 = slash :: t) (h2 : r2 = [] ∨ ∃ t, r2 = slash :: t)
    (h : k ++ r1 = e ++ r2) : k = e := by
  induction k generalizing e with
  | nil =>
    cases e with
    | nil => rfl
    | cons b e1 =>
      exfalso
      rcases h1 with rfl | ⟨t, rfl⟩
      · simp at h
      · simp only [List.nil_append, List.cons_append, List.cons.injEq] at h
        exact he (by simp [← h.1])
  | cons a k1 ih =>
    cases e with
    | nil =>
      exfalso
      rcases h2 with rfl | ⟨t, rfl⟩
      · simp at h
      · simp only [List.nil_append, List.cons_append, List.cons.injEq] at h
        exact hk (by simp [h.1])
    | cons b e1 =>
      simp only [List.cons_append, List.cons.injEq] at h
      have hk1 : slash ∉ k1 := fun m => hk (List.mem_cons_of_mem _ m)
      have he1 : slash ∉ e1 := fun m => he (List.mem_cons_of_mem _ m)
      rw [h.1, ih e1 hk1 he1 h.2]

theorem isUnder_disjoint (base k e q : GoString) (hk : isPathSegment k) (he : isPathSegment e)
    (hne : e ≠ k) (h : isUnder q (base ++ k) = true) : isUnder q (base ++ e) = false := by
  cases h2 : isUnder q (base ++ e) with
  | false => rfl
  | true =>
    exfalso
    obtain ⟨r1, hq1, hr1⟩ := isUnder_segment base k q hk h
    obtain ⟨r2, hq2, hr2⟩ := isUnder_segment base e q he h2
    rw [hq1] at hq2
    have := List.append_cancel_left hq2
    exact hne (segment_cancel k e r1 r2 hk.2.1 he.2.1 hr1 hr2 this).symm

/-! ## Lemmas on the ids of the handlers -/

theorem digitChar_digit : ∀ m, m < 10 →
    48 ≤ (Nat.digitChar m).toNat ∧ (Nat.digitChar m).toNat ≤ 57 := by
  decide

theorem toDigitsCore_digits (fuel n : Nat) (ds : List Char)
    (h : ∀ c ∈ ds, 48 ≤ c.toNat ∧ c.toNat ≤ 57) :
    ∀ c ∈ Nat.toDigitsCore 10 fuel n ds, 48 ≤ c.toNat ∧ c.toNat ≤ 57 := by
  induction fuel generalizing n ds with
  | zero => simpa [Nat.toDigitsCore] using h
  | succ fuel ih =>
    have hd := digitChar_digit (n % 10) (Nat.mod_lt _ (by decide))
    have h2 : ∀ c ∈ Nat.digitChar (n % 10) :: ds, 48 ≤ c.toNat ∧ c.toNat ≤ 57 := by
      intro c hc
      simp only [List.mem_cons] at hc
      rcases hc with rfl | hc
      · exact hd
      · exact h c hc
    simp only [Nat.toDigitsCore]
    split_ifs
    · exact h2
    · exact ih _ _ h2

theorem fmtInt_bytes (n : Int) : ∀ b ∈ fmtInt n, b = 45 ∨ (48 ≤ b ∧ b ≤ 57) := by
  have hd : ∀ b ∈ (Nat.toDigits 10 n.natAbs).map Char.toNat, 48 ≤ b ∧ b ≤ 57 := by
    intro b hb
    simp only [List.mem_map] at hb
    obtain ⟨c, hc, rfl⟩ := hb
    exact toDigitsCore_digits _ _ [] (by simp) c hc
  intro b hb
  unfold fmtInt at hb
  split_ifs at hb
  · simp only [List.mem_cons] at hb
    rcases hb with rfl | hb
    · exact Or.inl rfl
    · exact Or.inr (hd b hb)
  · exact Or.inr (hd b hb)

theorem isPathSegment_of_tail (a b c d e : Nat) (rest : GoString) (ha : a ≠ 46) (ha2 : a ≠ 47)
    (hb : b ≠ 47) (hc : c ≠ 47) (hd : d ≠ 47) (he : e ≠ 47) (hr : ∀ x ∈ rest, x ≠ 47) :
    isPathSegment ([a, b, c, d, e] ++ rest) := by
  refine ⟨by simp, ?_, ?_, ?_⟩
  · simp only [slash, List.cons_append, List.nil_append, List.mem_cons, not_or]
    exact ⟨fun h => ha2 h.symm, fun h => hb h.symm, fun h => hc h.symm, fun h => hd h.symm,
      fun h => he h.symm, fun h => hr _ h rfl⟩
  · simp only [dot, List.cons_append, List.nil_append, ne_eq, List.cons.injEq, not_and]
    intro h
    exact absurd h ha
  · simp only [dot, List.cons_append, List.nil_append, ne_eq, List.cons.injEq, not_and]
    intro h
    exact absurd h ha

theorem handler_ids_segments (n : Int) :
    isPathSegment (str "send-" ++ fmtInt n) ∧ isPathSegment (str "recv-" ++ fmtInt n) := by
  have hr : ∀ x ∈ fmtInt n, x ≠ 47 := by
    intro x hx
    rcases fmtInt_bytes n x hx with h | h <;> omega
  rw [str_send, str_recv]
  exact ⟨isPathSegment_of_tail _ _ _ _ _ _ (by decide) (by decide) (by decide) (by decide)
      (by decide) (by decide) hr,
    isPathSegment_of_tail _ _ _ _ _ _ (by decide) (by decide) (by decide) (by decide)
      (by decide) (by decide) hr⟩

theorem validateTransferID_segment (id : GoString) (h : validateTransferID id = true) :
    isPathSegment id := by
  obtain ⟨ds, -, h2, h3⟩ := (validateTransferID_bytes id).mp h
  have hr : ∀ x ∈ ds, x ≠ 47 := by
    intro x hx
    have := h2 x hx
    unfold isDigitByte at this
    omega
  rw [str_send, str_recv] at h3
  rcases h3 with rfl | rfl
  · exact isPathSegment_of_tail _ _ _ _ _ _ (by decide) (by decide) (by decide) (by decide)
      (by decide) (by decide) hr
  · exact isPathSegment_of_tail _ _ _ _ _ _ (by decide) (by decide) (by decide) (by decide)
      (by decide) (by decide) hr

theorem mapStore_keys {α : Type} (m : List (GoString × α)) (k : GoString) (v : α)
    (P : GoString → Prop) (hm : ∀ e ∈ m, P e.1) (hk : P k) : ∀ e ∈ mapStore m k v, P e.1 := by
  induction m with
  | nil =>
    intro e he
    simp only [mapStore, List.mem_singleton] at he
    subst he
    exact hk
  | cons a m ih =>
    intro e he
    unfold mapStore at he
    by_cases ha : a.1 = k
    · rw [if_pos ha] at he
      simp only [List.mem_cons] at he
      rcases he with rfl | he
      · exact hk
      · exact hm e (List.mem_cons_of_mem _ he)
    · rw [if_neg ha] at he
      simp only [List.mem_cons] at he
      rcases he with rfl | he
      · exact hm _ (List.mem_cons_self _ _)
      · exact ih (fun x hx => hm x (List.mem_cons_of_mem _ hx)) e he

theorem applyOps_keys (ops : List RegistryOp) (st : ServerState)
    (hst : ∀ e ∈ st.server.transfers, isPathSegment e.1)
    (hops : ∀ t writeOk, RegistryOp.set t writeOk ∈ ops → isPathSegment t.ID) :
    ∀ e ∈ (st.applyOps ops).server.transfers, isPathSegment e.1 := by
  induction ops generalizing st with
  | nil => exact hst
  | cons op ops ih =>
    have h : st.applyOps (op :: ops) = (st.applyOp op).applyOps ops := rfl
    rw [h]
    apply ih
    · cases op with
      | set t writeOk =>
        simp only [ServerState.applyOp, ServerState.setTransfer, notifySubscribers_server]
        exact mapStore_keys _ _ _ _ hst (hops t writeOk (List.mem_cons_self _ _))
      | delete id =>
        simp only [ServerState.applyOp, ServerState.deleteTransfer, mapDelete]
        intro e he
        exact hst e (List.mem_of_mem_filter he)
    · intro t writeOk hm
      exact hops t writeOk (List.mem_cons_of_mem _ hm)

/-! ## The claim on the sweeper -/

/-- C14 fails as stated: with the expired record `x/..` in the registry the
sweep removes `filepath.Join(tempDir, "x/..")`, the storage root itself, and
with it the directory of the record `send-9`, which is younger than one hour
and stays in the registry. -/
theorem cleanup_removes_kept_directory :
    filepathJoin [escapeState.server.tempDir, str "x/.."] = str "/tmp/wormhole-web" ∧
      (escapeState.cleanupOldTransfers escapeFiles 7200000000001).1.getTransfer (str "x/..") =
        none ∧
      (escapeState.cleanupOldTransfers escapeFiles 7200000000001).1.getTransfer (str "send-9") =
        some { exampleTransfer (str "send-9") with CreatedAt := 7200000000000 } ∧
      str "/tmp/wormhole-web/send-9" ∈ escapeFiles ∧
      (escapeState.cleanupOldTransfers escapeFiles 7200000000001).2 = [] := by
  refine ⟨by decide, by decide, by decide, by decide, by decide⟩

/-- C14 (amended). One run of `cleanupOldTransfers` at time `now` removes
from the registry every record with `now - CreatedAt > transferTTL`,
whatever its status; every record with `now - CreatedAt <= transferTTL` is
still returned by `getTransfer`, unchanged; no record appears and no path is
added.  When every id of the registry is a single path element, no path at or
below `tempDir/<id>` is left for a removed record and every path at or below
`tempDir/<id>` of a kept record is still there.  Every id that passes
`validateTransferID` and every id that a handler creates is a single path
element. -/
theorem cleanup_removes_expired (st : ServerState) (fs : FileSystem) (now : Int) :
    (∀ id t, st.getTransfer id = some t → transferTTL < now - t.CreatedAt →
      (st.cleanupOldTransfers fs now).1.getTransfer id = none) ∧
      (∀ id t, st.getTransfer id = some t → now - t.CreatedAt ≤ transferTTL →
        (st.cleanupOldTransfers fs now).1.getTransfer id = some t) ∧
      (∀ id, st.getTransfer id = none →
        (st.cleanupOldTransfers fs now).1.getTransfer id = none) ∧
      (∀ q ∈ (st.cleanupOldTransfers fs now).2, q ∈ fs) ∧
      ((∀ e ∈ st.server.transfers, isPathSegment e.1) →
        (∀ id t, st.getTransfer id = some t → transferTTL < now - t.CreatedAt →
          ∀ q ∈ (st.cleanupOldTransfers fs now).2,
            isUnder q (filepathJoin [st.server.tempDir, id]) = false) ∧
        (∀ id t, st.getTransfer id = some t → now - t.CreatedAt ≤ transferTTL →
          ∀ q ∈ fs, isUnder q (filepathJoin [st.server.tempDir, id]) = true →
            q ∈ (st.cleanupOldTransfers fs now).2)) ∧
      (∀ id, validateTransferID id = true → isPathSegment id) ∧
      (∀ n, isPathSegment (str "send-" ++ fmtInt n) ∧
        isPathSegment (str "recv-" ++ fmtInt n)) := by
  have hnot : ∀ id t, st.getTransfer id = some t → now - t.CreatedAt ≤ transferTTL →
      id ∉ expiredIDs st.server now := by
    intro id t ht hx hmem
    obtain ⟨t2, ht2, hx2⟩ := (mem_expiredIDs _ _ _).mp hmem
    have ht3 : st.server.getTransfer id = some t := ht
    rw [ht3] at ht2
    cases ht2
    omega
  unfold ServerState.cleanupOldTransfers
  refine ⟨?_, ?_, ?_, ?_, ?_, validateTransferID_segment, handler_ids_segments⟩
  · intro id t ht hx
    have hmem : id ∈ expiredIDs st.server now := (mem_expiredIDs _ _ _).mpr ⟨t, ht, hx⟩
    rw [cleanupLoop_getTransfer, if_pos hmem]
  · intro id t ht hx
    rw [cleanupLoop_getTransfer, if_neg (hnot id t ht hx)]
    exact ht
  · intro id hn
    rw [cleanupLoop_getTransfer, hn]
    simp
  · intro q hq
    exact ((mem_cleanupLoop _ _ _ _).mp hq).1
  · intro hseg
    obtain ⟨base, hbase⟩ := filepathJoin_segment st.server.tempDir
    have hkey : ∀ id t, st.getTransfer id = some t → isPathSegment id := fun id t h =>
      hseg (id, t) (mem_of_lookup _ _ _ h)
    refine ⟨?_, ?_⟩
    · intro id t ht hx q hq
      have hmem : id ∈ expiredIDs st.server now := (mem_expiredIDs _ _ _).mpr ⟨t, ht, hx⟩
      have h1 := ((mem_cleanupLoop _ _ _ _).mp hq).2 id hmem
      have hk := hkey id t ht
      rw [hbase id hk] at h1 ⊢
      obtain ⟨n1, n2, _⟩ := segment_not_removable base id hk
      rcases h1 with h1 | h1 | h1
      · exact absurd h1 n1
      · rw [n2] at h1; exact absurd h1 (by simp)
      · exact h1
    · intro id t ht hx q hq hu
      refine (mem_cleanupLoop _ _ _ _).mpr ⟨hq, ?_⟩
      intro e he
      obtain ⟨t2, ht2, _⟩ := (mem_expiredIDs _ _ _).mp he
      have hne : e ≠ id := fun h => hnot id t ht hx (h ▸ he)
      rw [hbase id (hkey id t ht)] at hu
      rw [hbase e (hkey e t2 ht2)]
      exact Or.inr (Or.inr
        (isUnder_disjoint base id e q (hkey id t ht) (hkey e t2 ht2) hne hu))

/-- Witness of C14 (amended): the sweep of `TestCleanupOldTransfers`, run
one nanosecond after the newer record was created. -/
theorem cleanup_removes_expired_witness :
    (∀ e ∈ sweepState.server.transfers, isPathSegment e.1) ∧
      (sweepState.cleanupOldTransfers sweepFiles 7200000000001).1.getTransfer (str "send-old") =
        none ∧
      (∀ q ∈ (sweepState.cleanupOldTransfers sweepFiles 7200000000001).2,
        isUnder q (filepathJoin [sweepState.server.tempDir, str "send-old"]) = false) ∧
      (sweepState.cleanupOldTransfers sweepFiles 7200000000001).1.getTransfer (str "send-new") =
        sweepState.getTransfer (str "send-new") ∧
      (sweepState.cleanupOldTransfers sweepFiles 7200000000001).2 =
        [str "/tmp/wormhole-web-test", str "/tmp/wormhole-web-test/send-new",
          str "/tmp/wormhole-web-test/send-new/data.bin"] :=
  ⟨by decide,
    (cleanup_removes_expired sweepState sweepFiles 7200000000001).1
      (str "send-old") { exampleTransfer (str "send-old") with CreatedAt := 0 }
      (by decide) (by decide),
    ((cleanup_removes_expired sweepState sweepFiles 7200000000001).2.2.2.2.1 (by decide)).1
      (str "send-old") { exampleTransfer (str "send-old") with CreatedAt := 0 }
      (by decide) (by decide),
    by decide, by decide⟩

/-! ## Lemmas on notification -/

theorem mem_connRangeLoop (seen conns : List Conn) (c : Conn) :
    c ∈ connRangeLoop seen conns ↔ c ∈ conns ∧ c ∉ seen := by
  induction conns generalizing seen with
  | nil => simp [connRangeLoop]
  | cons d ds ih =>
    unfold connRangeLoop
    by_cases hd : d ∈ seen
    · simp only [hd, if_true, ih, List.mem_cons]
      constructor
      · rintro ⟨h1, h2⟩; exact ⟨Or.inr h1, h2⟩
      · rintro ⟨h1 | h1, h2⟩
        · subst h1; exact absurd hd h2
        · exact ⟨h1, h2⟩
    · simp only [hd, if_false, List.mem_cons, ih]
      constructor
      · rintro (h | ⟨h1, h2⟩)
        · subst h; exact ⟨Or.inl rfl, hd⟩
        · exact ⟨Or.inr h1, fun h => h2 (Or.inr h)⟩
      · rintro ⟨h1 | h1, h2⟩
        · exact Or.inl h1
        · by_cases hcd : c = d
          · exact Or.inl hcd
          · refine Or.inr ⟨h1, ?_⟩
            rintro (h | h)
            · exact hcd h
            · exact h2 h

theorem nodup_connRangeLoop (seen conns : List Conn) : (connRangeLoop seen conns).Nodup := by
  induction conns generalizing seen with
  | nil => simp [connRangeLoop]
  | cons d ds ih =>
    unfold connRangeLoop
    by_cases hd : d ∈ seen
    · simp only [hd, if_true]; exact ih seen
    · simp only [hd, if_false, List.nodup_cons]
      refine ⟨?_, ih _⟩
      intro h
      have := (mem_connRangeLoop (d :: seen) ds d).mp h
      exact this.2 (List.mem_cons_self _ _)

theorem mem_connRange (conns : List Conn) (c : Conn) : c ∈ connRange conns ↔ c ∈ conns := by
  simp [connRange, mem_connRangeLoop]

theorem notifyLoop_eq_filter (writeOk : Conn → Bool) (visit conns : List Conn) :
    notifyLoop writeOk visit conns =
      conns.filter (fun c => decide (c ∉ visit) || writeOk c) := by
  induction visit generalizing conns with
  | nil => simp [notifyLoop]
  | cons v vs ih =>
    unfold notifyLoop
    by_cases hv : writeOk v = true
    · simp only [hv, if_true, ih]
      apply List.filter_congr
      intro c _
      by_cases hc : c = v
      · subst hc; simp [hv]
      · simp [hc]
    · have hv2 : writeOk v = false := by simpa using hv
      simp only [hv2, ih, connDelete, List.filter_filter]
      apply List.filter_congr
      intro c _
      by_cases hc : c = v
      · subst hc; simp [hv2]
      · simp [hc]

theorem notifyLoop_connRange (writeOk : Conn → Bool) (conns : List Conn) :
    notifyLoop writeOk (connRange conns) conns = conns.filter writeOk := by
  rw [notifyLoop_eq_filter]
  apply List.filter_congr
  intro c hc
  have : c ∈ connRange conns := (mem_connRange conns c).mpr hc
  simp [this]

theorem connRange_filter (writeOk : Conn → Bool) (conns : List Conn) :
    ∀ c, c ∈ connRange (conns.filter writeOk) ↔ c ∈ connRange conns ∧ writeOk c = true := by
  intro c
  simp [mem_connRange, List.mem_filter]

theorem notifySubscribers_finite (st : ServerState) (writeOk : Conn → Bool)
    (t : TransferStatus) (conns : List Conn) (hl : st.subscribers.lookup t.ID = some conns)
    (hf : t.Progress = FloatClass.finite) :
    st.notifySubscribers writeOk t =
      ({ st with subscribers := mapStore st.subscribers t.ID (conns.filter writeOk) },
        (connRange conns).map (fun c => (c, t))) := by
  unfold ServerState.notifySubscribers
  simp only [hl, jsonMarshal, hf, if_true, notifyLoop_connRange]

theorem notifySubscribers_none (st : ServerState) (writeOk : Conn → Bool)
    (t : TransferStatus) (hl : st.subscribers.lookup t.ID = none) :
    st.notifySubscribers writeOk t = (st, []) := by
  unfold ServerState.notifySubscribers
  simp only [hl]

theorem notifySubscribers_not_finite (st : ServerState) (writeOk : Conn → Bool)
    (t : TransferStatus) (hf : t.Progress ≠ FloatClass.finite) :
    st.notifySubscribers writeOk t = (st, []) := by
  unfold ServerState.notifySubscribers
  cases st.subscribers.lookup t.ID with
  | none => rfl
  | some conns => simp only [jsonMarshal, hf, if_false]

/-! ## The claim on notification -/

/-- C15 fails as stated: the receive of an empty file publishes a record
whose `Progress` is NaN, `json.Marshal` fails on it, and `notifySubscribers`
returns without a single delivery although two connections are subscribed
to the id. -/
theorem notifySubscribers_skips_unencodable :
    (receiveTask (str "recv-1") (newReceiveTransfer (str "recv-1") (str "7-crossover-clockwork") 0)
        (Except.ok ⟨str "empty.bin", 0, false⟩)
        ⟨Except.ok [], none, none, [⟨⟨0, some IOError.eof⟩, none⟩]⟩).map
        (fun t => (t.ID, t.Status, t.Progress)) =
      [(str "recv-1", str "receiving", FloatClass.finite),
        (str "recv-1", str "receiving", FloatClass.nan),
        (str "recv-1", str "complete", FloatClass.finite)] ∧
      subscribersOf exampleState (str "recv-1") = [1, 2] ∧
      (exampleState.notifySubscribers (fun _ => true)
        (progressSnapshot (newReceiveTransfer (str "recv-1") (str "7-crossover-clockwork") 0)
          0)).2 = [] := by
  refine ⟨by decide, by decide, by decide⟩

/-- C15 (amended). When the record can be encoded (its `Progress` is
finite), `notifySubscribers(t)` hands the record once to every connection
subscribed to `t.ID`, whether earlier writes failed or not; afterwards the
subscribers of `t.ID` are the previous ones whose write succeeded, the
subscribers of every other id and the registry are as before.  When the id
has no subscriber map, or the record cannot be encoded, nothing is sent and
the state is as before. -/
theorem notifySubscribers_delivers (st : ServerState) (writeOk : Conn → Bool)
    (t : TransferStatus) :
    (t.Progress = FloatClass.finite →
      ((st.notifySubscribers writeOk t).2.map (fun d => d.1) = subscribersOf st t.ID ∧
        ((st.notifySubscribers writeOk t).2.map (fun d => d.1)).Nodup ∧
        (∀ d ∈ (st.notifySubscribers writeOk t).2, d.2 = t) ∧
        (∀ c, c ∈ subscribersOf (st.notifySubscribers writeOk t).1 t.ID ↔
          c ∈ subscribersOf st t.ID ∧ writeOk c = true) ∧
        (∀ id, id ≠ t.ID →
          (st.notifySubscribers writeOk t).1.subscribers.lookup id =
            st.subscribers.lookup id) ∧
        (st.notifySubscribers writeOk t).1.server = st.server)) ∧
      (st.subscribers.lookup t.ID = none → st.notifySubscribers writeOk t = (st, [])) ∧
      (t.Progress ≠ FloatClass.finite → st.notifySubscribers writeOk t = (st, [])) := by
  refine ⟨?_, notifySubscribers_none st writeOk t, notifySubscribers_not_finite st writeOk t⟩
  intro hf
  cases hl : st.subscribers.lookup t.ID with
  | none =>
    rw [notifySubscribers_none st writeOk t hl]
    simp [subscribersOf, hl, connRange, connRangeLoop]
  | some conns =>
    rw [notifySubscribers_finite st writeOk t conns hl hf]
    refine ⟨?_, ?_, ?_, ?_, ?_, rfl⟩
    · simp [subscribersOf, hl, List.map_map, Function.comp_def]
    · simp only [List.map_map, Function.comp_def, List.map_id']
      exact nodup_connRangeLoop [] conns
    · intro d hd
      simp only [List.mem_map] at hd
      obtain ⟨c, _, rfl⟩ := hd
      rfl
    · intro c
      simp only [subscribersOf, lookup_mapStore, if_true, hl, Option.getD_some]
      exact connRange_filter writeOk conns c
    · intro id hid
      simp only [lookup_mapStore, hid, if_false]

/-- Witness of C15 (amended): of the two subscribers of `recv-1` the write
to the connection 1 fails; both are handed the record, the connection 2
stays subscribed and the subscriber of `send-2` is left alone. -/
theorem notifySubscribers_delivers_witness :
    ((exampleState.notifySubscribers (fun c => decide (c ≠ 1))
        (exampleTransfer (str "recv-1"))).2.map (fun d => d.1) =
        subscribersOf exampleState (str "recv-1")) ∧
      (exampleState.notifySubscribers (fun c => decide (c ≠ 1))
        (exampleTransfer (str "recv-1"))).2 =
        [(1, exampleTransfer (str "recv-1")), (2, exampleTransfer (str "recv-1"))] ∧
      subscribersOf (exampleState.notifySubscribers (fun c => decide (c ≠ 1))
        (exampleTransfer (str "recv-1"))).1 (str "recv-1") = [2] ∧
      subscribersOf (exampleState.notifySubscribers (fun c => decide (c ≠ 1))
        (exampleTransfer (str "recv-1"))).1 (str "send-2") = [3] :=
  ⟨((notifySubscribers_delivers exampleState (fun c => decide (c ≠ 1))
      (exampleTransfer (str "recv-1"))).1 rfl).1,
    by decide, by decide, by decide⟩

/-! ## The claim on malformed requests -/

/-- C16 fails as stated: the body `{"text":"hi"}garbage` is not valid JSON,
yet `Decode` reads the object at its start and `handleSendText` answers 200,
registers a record and starts a task; likewise `handleReceive` for the body
`{"code":"7-guitarist-revenge"}]`. -/
theorem trailing_bytes_accepted :
    jsonValid (str "\x7b\"text\":\"hi\"\x7dgarbage") = false ∧
      decodeRequest (str "text") (str "\x7b\"text\":\"hi\"\x7dgarbage") =
        Decoded.ok (str "hi") ∧
      ((NewServer (str "/tmp")).handleSendText (fun _ => true) (str "POST")
          (str "\x7b\"text\":\"hi\"\x7dgarbage") 1700000000000000000 8).map
          (fun eff => (eff.response, eff.spawned,
            eff.state.getTransfer (str "send-1700000000000000000"))) =
        some (PostResponse.accepted (str "send-1700000000000000000"),
          some (SpawnedTask.sendText (newSendTransfer (str "send-1700000000000000000") [] 0 8)
            (str "hi")),
          some (newSendTransfer (str "send-1700000000000000000") [] 0 8)) ∧
      jsonValid (str "\x7b\"code\":\"7-guitarist-revenge\"\x7d]") = false ∧
      ((NewServer (str "/tmp")).handleReceive (fun _ => true) (str "POST")
          (str "\x7b\"code\":\"7-guitarist-revenge\"\x7d]") 1700000000000000000 8).map
          (fun eff => (eff.response, eff.spawned,
            eff.state.getTransfer (str "recv-1700000000000000000"))) =
        some (PostResponse.accepted (str "recv-1700000000000000000"),
          some (SpawnedTask.receive (str "recv-1700000000000000000")
            (newReceiveTransfer (str "recv-1700000000000000000") (str "7-guitarist-revenge") 8)
            (str "7-guitarist-revenge")),
          some (newReceiveTransfer (str "recv-1700000000000000000")
            (str "7-guitarist-revenge") 8)) := by
  refine ⟨by decide, by decide, by decide, by decide, by decide⟩

/-- C16 (amended). A POST to `handleSendText` whose body does not begin
with a complete JSON value, or for which `Decode` returns an error, or whose
decoded text is empty, and a POST to `handleReceive` whose body does not
begin with a complete JSON value, or for which `Decode` returns an error, or
whose decoded code is empty or fails `validateWormholeCode`, is answered
with status 400; no goroutine is started, nothing is sent to a subscriber and
the state of the server is the one before the request. -/
theorem malformed_post_rejected (st : ServerState) (writeOk : Conn → Bool)
    (textBody codeBody : GoString) (idNanos createdAt : Int)
    (ht : readValue textBody = none ∨ decodeRequest (str "text") textBody = Decoded.error ∨
      decodeRequest (str "text") textBody = Decoded.ok [])
    (hc : readValue codeBody = none ∨ decodeRequest (str "code") codeBody = Decoded.error ∨
      decodeRequest (str "code") codeBody = Decoded.ok [] ∨
      ∃ c, decodeRequest (str "code") codeBody = Decoded.ok c ∧
        validateWormholeCode c = false) :
    (∃ msg, st.handleSendText writeOk (str "POST") textBody idNanos createdAt =
        some ⟨PostResponse.httpError msg 400, st, [], none⟩) ∧
      (∃ msg, st.handleReceive writeOk (str "POST") codeBody idNanos createdAt =
        some ⟨PostResponse.httpError msg 400, st, [], none⟩) := by
  have hm : ¬ (str "POST" ≠ str "POST") := fun h => h rfl
  have hread : ∀ name body, readValue body = none → decodeRequest name body = Decoded.error := by
    intro name body h
    unfold decodeRequest
    rw [h]
  constructor
  · unfold ServerState.handleSendText
    rw [if_neg hm]
    rcases ht with h | h | h
    · rw [hread _ _ h]
      exact ⟨_, rfl⟩
    · rw [h]
      exact ⟨_, rfl⟩
    · rw [h]
      exact ⟨"Text is required", by simp⟩
  · unfold ServerState.handleReceive
    rw [if_neg hm]
    rcases hc with h | h | h | ⟨c, h, hv⟩
    · rw [hread _ _ h]
      exact ⟨_, rfl⟩
    · rw [h]
      exact ⟨_, rfl⟩
    · rw [h]
      exact ⟨"Code is required", by simp⟩
    · rw [h]
      by_cases h0 : c = []
      · exact ⟨"Code is required", by simp [h0]⟩
      · exact ⟨"Invalid wormhole code format", by simp [h0, hv]⟩

/-- Witness of C16 (amended): the body `not json` for `handleSendText` and
the body `{"code":"invalid-code"}` of `TestHandleReceiveInvalidCodeFormat`
for `handleReceive`; the body `{"text":""}` is answered with 400 as well. -/
theorem malformed_post_rejected_witness :
    readValue (str "not json") = none ∧
      decodeRequest (str "code") (str "\x7b\"code\":\"invalid-code\"\x7d") =
        Decoded.ok (str "invalid-code") ∧
      validateWormholeCode (str "invalid-code") = false ∧
      ((∃ msg, (NewServer (str "/tmp")).handleSendText (fun _ => true) (str "POST")
          (str "not json") 7 8 =
          some ⟨PostResponse.httpError msg 400, NewServer (str "/tmp"), [], none⟩) ∧
        (∃ msg, (NewServer (str "/tmp")).handleReceive (fun _ => true) (str "POST")
          (str "\x7b\"code\":\"invalid-code\"\x7d") 7 8 =
          some ⟨PostResponse.httpError msg 400, NewServer (str "/tmp"), [], none⟩)) ∧
      decodeRequest (str "text") (str "\x7b\"text\":\"\"\x7d") = Decoded.ok [] ∧
      ((NewServer (str "/tmp")).handleSendText (fun _ => true) (str "POST")
        (str "\x7b\"text\":\"\"\x7d") 7 8).map (fun eff => eff.response) =
        some (PostResponse.httpError "Text is required" 400) :=
  ⟨by decide, by decide, by decide,
    malformed_post_rejected (NewServer (str "/tmp")) (fun _ => true) (str "not json")
      (str "\x7b\"code\":\"invalid-code\"\x7d") 7 8 (Or.inl (by decide))
      (Or.inr (Or.inr (Or.inr ⟨str "invalid-code", by decide, by decide⟩))),
    by decide, by decide⟩

/-! ## The claims on the archive of a multi-part send -/

/-- C17. For one file and the form value `["photos/a.txt"]`, the JSON text
of the array, the archive name is `["photos.zip` and not `photos.zip`: the
name is cut from the form value as the request carries it, not from the
first decoded path; for the bare text `photos/a.txt` it is `photos.zip`,
and without the form value or with two files it is `files.zip`. -/
theorem zipName_cut_from_json_text :
    zipName 1 ([91, 34] ++ str "photos/a.txt" ++ [34, 93]) =
        some ([91, 34] ++ str "photos.zip") ∧
      [91, 34] ++ str "photos.zip" ≠ str "photos.zip" ∧
      zipName 1 (str "photos/a.txt") = some (str "photos.zip") ∧
      zipName 1 [] = some (str "files.zip") ∧
      zipName 2 ([91, 34] ++ str "photos/a.txt" ++ [34, 93]) = some (str "files.zip") := by
  refine ⟨by decide, by decide, by decide, by decide, by decide⟩

/-- C18. A part whose filename is `/` and that has no supplied path gets
the entry path `/`, whose two segments are empty; the same holds when the
supplied path of the part is empty. -/
theorem entryPath_of_separator_filename :
    entryPath [] 0 (str "/") = some [slash] ∧
      entryPath [str "a.txt", []] 1 (str "/") = some [slash] ∧
      stringsSplit [slash] slash = [[], []] ∧
      entryPaths [str "a.txt", str "sub/b.txt"] 0 [str "a.txt", str "b.txt"] =
        some [str "a.txt", str "sub/b.txt"] := by
  refine ⟨by decide, by decide, by decide, by decide⟩

/-! ## The claim on the slice bound -/

/-- C19. On a dot followed by 300 letters `sanitizeFilename` panics: the
name is 301 bytes long, its extension is the whole name, and the slice bound
`maxFilenameLen - len(ext)` is `-46`. -/
theorem sanitizeFilename_negative_slice_bound :
    sanitizeFilename (dot :: List.replicate 300 122) = none ∧
      (cleanName (dot :: List.replicate 300 122)).length = 301 ∧
      (maxFilenameLen : Int) -
          ((filepathExt (cleanName (dot :: List.replicate 300 122))).length : Int) = -46 := by
  refine ⟨by decide, by decide, by decide⟩

end WormholeWeb
